import Mathlib

/-!
# ax_project_gen: path-pattern resolution (`src/Util/Glob.cpp`) and the ordered
dictionary (`src/Util/Dict.h`)

A shallow embedding of `Glob::search`, of the recursive walker `GlobHelper`
(`search`, `_step`, `_step2`, `matchWildcard`) and of the directory reader `Dir`
(its POSIX branch, the one whose `getEntry` can raise an `Error`), followed by
theorems about them.

Conventions of the embedding

* `String` and `StrView` of the source are both `List Char` (type `Str`); one
  `Char` stands for one `char` of the source.
* A `const char*` cursor into a string is the suffix of the string that starts
  at the cursor: `p < end` is "the suffix is non-empty", `*p` is its head and
  `p + 1` its tail.
* The file system is an explicit value (`FileSys`): the three queries the code
  makes of it (`Path::fileExists`, `Path::dirExists`, `opendir`/`readdir_r`) and
  `Path::getAbs` are its fields. It does not change while a call runs.
* The recursion of `_step`/`_step2` is bounded by an explicit budget; running
  out of it is the outcome `Outcome.outOfFuel`, distinct from a normal return
  and from a raised `Error`.
* `FileSys.opendir` answers for the path alone. The walker is embedded a second
  time (`GlobHelper._step2At`, `Glob.searchAt`) with the number of directory
  streams that its active frames hold open, and a bound on that number, made
  explicit: there `::opendir` fails when no descriptor is left.
* `Dict<KEY, VALUE>` is embedded further down, with its two members and the
  calls `find`, `add`, `addIfNotExists`, `getOrAdd`, `remove`, `clear`, `sort`.
-/

set_option linter.unusedVariables false

namespace ax_pjgen

/-- Text of the source program: `String` and `StrView` alike. -/
abbrev Str := List Char

/-! ## `StrView` helpers

The class `StrView` is not part of the files at hand; the helpers below are
modelled from the way the specification words their use. -/

/-- Modelled from the spec: `StrView::indexOfAnyCharIn` (class `StrView` is
missing), the index of the first character that is one of `chars`, and `-1`
when there is none ("contains no wildcard character anywhere"). -/
def StrView.indexOfAnyCharIn (s : Str) (chars : Str) : Int :=
  match s.findIdx? (fun c => chars.contains c) with
  | some i => (i : Int)
  | none => -1

/-- Modelled from the spec: `StrView::splitByCharInList` (class `StrView` is
missing): `first` is the text before the first character that is one of
`chars` (the whole text if there is none), `second` the text after it. -/
def StrView.splitByCharInList (s : Str) (chars : Str) : Str × Str :=
  match s with
  | [] => ([], [])
  | c :: t =>
    if chars.contains c then ([], t)
    else ((c :: (StrView.splitByCharInList t chars).1), (StrView.splitByCharInList t chars).2)

/-- Modelled from the spec: `StrView::splitByChar` (class `StrView` is missing):
"`segment` = text up to next `/` (or end), `rest` = everything after that `/`
(empty if none)". -/
def StrView.splitByChar (s : Str) (ch : Char) : Str × Str :=
  StrView.splitByCharInList s [ch]

/-- Modelled from the spec: `StrView::splitEndByChar` (class `StrView` is
missing): the split at the last occurrence of `ch` ("ending at the last `/`
before the first wildcard character"); the whole text and an empty second part
if `ch` does not occur. -/
def StrView.splitEndByChar (s : Str) (ch : Char) : Str × Str :=
  if s.contains ch then
    (((StrView.splitByChar s.reverse ch).2).reverse, ((StrView.splitByChar s.reverse ch).1).reverse)
  else (s, [])

/-- Modelled from the spec: `StrView::slice` (class `StrView` is missing): the
text from index `n` to the end ("everything after the anchor's trailing
separator"). -/
def StrView.slice (s : Str) (n : Nat) : Str := s.drop n

/-- Modelled from the spec: `StrView::startsWith` (class `StrView` is missing):
"name starts with `.`". -/
def StrView.startsWith (s : Str) (pre : Str) : Bool := pre.isPrefixOf s

/-! ## `GlobHelper::matchWildcard` -/

/-- `GlobHelper::matchWildcard(sv, wildcard)`, `Glob.cpp` lines 200-227.

The first argument is the cursor `p` (the rest of the entry name), the second
the cursor `w` (the rest of the pattern segment); one unfolding is one
iteration of the `while`, and a recursive call is the next iteration. -/
def GlobHelper.matchWildcard : Str → Str → Bool
  -- `while (p < end && w < wEnd)` fails: fall through to `return true`
  | [], _ => true
  | _ :: _, [] => true
  | pc :: p1, wc :: w1 =>
    if wc = pc ∨ wc = '?' then
      -- `p++; w++;`
      GlobHelper.matchWildcard p1 w1
    else if wc = '*' then
      match w1 with
      -- `if (w1 >= wEnd) break;` then `return true`
      | [] => true
      | w1c :: _ =>
        match p1 with
        -- `if (p1 >= end) return false;`
        | [] => false
        | p1c :: _ =>
          -- `p = p1; if (*p1 == *w1) w = w1;`
          if p1c = w1c then GlobHelper.matchWildcard p1 w1
          else GlobHelper.matchWildcard p1 (wc :: w1)
    else
      false

/-- Reference glob semantics, written from the words of the specification (not
from the code): `?` matches exactly one arbitrary character, `*` matches zero or
more arbitrary characters, every other character matches itself, and both the
entry name and the pattern segment must be consumed entirely. -/
def globMatches (entryName : Str) : (patternSegment : Str) → Bool
  | [] => entryName.isEmpty
  | c :: w =>
    if c = '*' then
      (List.range (entryName.length + 1)).any (fun k => globMatches (entryName.drop k) w)
    else if c = '?' then
      match entryName with
      | [] => false
      | _ :: s => globMatches s w
    else
      match entryName with
      | [] => false
      | d :: s => decide (d = c) && globMatches s w

/-! ## The file system and `Dir` (POSIX branch, `Glob.cpp` lines 67-116) -/

/-- What an opened directory stream is going to deliver: the `d_name` of the
successive entries `readdir_r` yields (`.` and `..` among them, in the order of
the operating system), and whether the call of `readdir_r` that follows the
last of them reports an error instead of the end of the stream. -/
structure DirStream where
  names : List Str
  readFails : Bool
  deriving DecidableEq

/-- The environment of one call of `Glob::search`: `Path::getAbs`,
`Path::fileExists`, `Path::dirExists` (class `Path` is not part of the files at
hand, so the three are parameters) and `::opendir`, which yields no stream
(`none`) when the directory cannot be opened. -/
structure FileSys where
  getAbs : Str → Str
  fileExists : Str → Bool
  dirExists : Str → Bool
  opendir : Str → Option DirStream

/-- How a call ends: it returns normally and leaves state `s`, or an `Error` is
raised and propagates to the caller (`s` is the state at the `throw`), or the
recursion budget of the embedding is used up. -/
inductive Outcome (σ : Type) where
  | ok (s : σ)
  | thrown (s : σ)
  | outOfFuel
  deriving DecidableEq

/-- `Dir::getEntry(name)`, `Glob.cpp` lines 92-110, on an open stream whose
pending names are the list argument: `Except.error` is
`throw Error("error get directory entry")`, `none` is `return false` (end of the
stream), `some (name, rest)` is `return true` with `name` set and `rest` still
pending. The `for (;;)` with its two `continue` is the recursion. -/
def Dir.getEntry (readFails : Bool) : List Str → Except Unit (Option (Str × List Str))
  | [] => if readFails then Except.error () else Except.ok none
  | f :: fs =>
    if f = ['.'] then Dir.getEntry readFails fs
    else if f = ['.', '.'] then Dir.getEntry readFails fs
    else Except.ok (some (f, fs))

/-! ## `GlobHelper` -/

/-- The object `GlobHelper` (`Glob.cpp` lines 229-233); `_out_paths` is the
caller's vector, held by value. -/
structure GlobHelper where
  _out_paths : List Str
  _curPath : Str
  _needDir : Bool
  _needFile : Bool
  _needHidden : Bool
  deriving DecidableEq

/-- The loop `while (dir.getEntry(entry)) { ... }` of `_step2` (`Glob.cpp` lines
177-197) with `Dir::getEntry` unfolded into it; `body` is the part of the loop
body after the hidden test (lines 182-196). A raised `Error` (from
`readdir_r`, or from `body`) leaves the loop at once. -/
def GlobHelper.whileGetEntry (body : Str → GlobHelper → Outcome GlobHelper) (readFails : Bool) :
    List Str → GlobHelper → Outcome GlobHelper
  | [], g => if readFails then Outcome.thrown g else Outcome.ok g
  | f :: fs, g =>
    if f = ['.'] then GlobHelper.whileGetEntry body readFails fs g
    else if f = ['.', '.'] then GlobHelper.whileGetEntry body readFails fs g
    else if (!g._needHidden && StrView.startsWith f ['.']) then
      -- `continue;`
      GlobHelper.whileGetEntry body readFails fs g
    else
      match body f g with
      | Outcome.ok g1 => GlobHelper.whileGetEntry body readFails fs g1
      | r => r

/-- `GlobHelper::_step2(name, remain)`, `Glob.cpp` lines 146-198, with the call
`_step(remain)` unfolded to `_step2` on the two halves of
`remain.splitByChar('/')` (lines 141-144). The first argument bounds the depth
of the recursion. -/
def GlobHelper._step2 (fs : FileSys) : Nat → Str → Str → GlobHelper → Outcome GlobHelper
  | 0, _, _, _ => Outcome.outOfFuel
  | fuel + 1, name, remain, g =>
    if StrView.indexOfAnyCharIn name ['*', '?'] < 0 then
      let oldSize := g._curPath.length
      let g1 := if name ≠ [] then { g with _curPath := g._curPath ++ '/' :: name } else g
      let r :=
        if remain = [] then
          if (g1._needFile && fs.fileExists g1._curPath) || (g1._needDir && fs.dirExists g1._curPath) then
            Outcome.ok { g1 with _out_paths := g1._out_paths ++ [g1._curPath] }
          else Outcome.ok g1
        else
          GlobHelper._step2 fs fuel (StrView.splitByChar remain '/').1 (StrView.splitByChar remain '/').2 g1
      match r with
      | Outcome.ok g2 => Outcome.ok { g2 with _curPath := g2._curPath.take oldSize }
      | e => e
    else
      let r0 :=
        if name = ['*', '*'] then
          GlobHelper._step2 fs fuel (StrView.splitByChar remain '/').1 (StrView.splitByChar remain '/').2 g
        else Outcome.ok g
      match r0 with
      | Outcome.ok g0 =>
        if !fs.dirExists g0._curPath then Outcome.ok g0
        else
          match fs.opendir g0._curPath with
          | none => Outcome.ok g0
          | some dir =>
            GlobHelper.whileGetEntry
              (fun entry gi =>
                if name = ['*', '*'] then
                  let oldSize := gi._curPath.length
                  let gj := if name ≠ [] then { gi with _curPath := gi._curPath ++ '/' :: entry } else gi
                  match GlobHelper._step2 fs fuel name remain gj with
                  | Outcome.ok gk => Outcome.ok { gk with _curPath := gk._curPath.take oldSize }
                  | e => e
                else if GlobHelper.matchWildcard entry name then
                  GlobHelper._step2 fs fuel entry remain gi
                else Outcome.ok gi)
              dir.readFails dir.names g0
      | e => e

/-- `GlobHelper::_step(path)`, `Glob.cpp` lines 141-144. -/
def GlobHelper._step (fs : FileSys) (fuel : Nat) (path : Str) (g : GlobHelper) : Outcome GlobHelper :=
  GlobHelper._step2 fs fuel (StrView.splitByChar path '/').1 (StrView.splitByChar path '/').2 g

/-- `GlobHelper::search`, `Glob.cpp` lines 122-138, on a freshly constructed
`GlobHelper`; `fuel` bounds the depth of the recursion of the walk. -/
def GlobHelper.search (fs : FileSys) (fuel : Nat) (out_paths : List Str) (path : Str)
    (needDir needFile needHidden : Bool) : Outcome GlobHelper :=
  let p := fs.getAbs path
  let start := (StrView.splitEndByChar (StrView.splitByCharInList p ['*', '?']).1 '/').1
  let remain := StrView.slice p (start.length + 1)
  GlobHelper._step fs fuel remain
    { _out_paths := out_paths, _curPath := start,
      _needDir := needDir, _needFile := needFile, _needHidden := needHidden }

/-- `Glob::search`, `Glob.cpp` lines 236-246. The result is what the caller's
`out_paths` holds when the call ends, normally or by a raised `Error`. -/
def Glob.search (fs : FileSys) (fuel : Nat) (out_paths : List Str) (path : Str)
    (needDir needFile needHidden : Bool) : Outcome (List Str) :=
  -- `out_paths.clear();`: what the vector held before the call is dropped
  let cleared : List Str := []
  if StrView.indexOfAnyCharIn path ['*', '?'] < 0 then
    Outcome.ok (cleared ++ [path])
  else
    match GlobHelper.search fs fuel cleared path needDir needFile needHidden with
    | Outcome.ok g => Outcome.ok g._out_paths
    | Outcome.thrown g => Outcome.thrown g._out_paths
    | Outcome.outOfFuel => Outcome.outOfFuel

/-! ## Auxiliary notions used to state and prove the theorems -/

/-- Sequencing of two calls: the second runs on the state the first returns
normally; a raised `Error` and an exhausted budget end the sequence. -/
def Outcome.andThen {σ : Type} (r : Outcome σ) (k : σ → Outcome σ) : Outcome σ :=
  match r with
  | Outcome.ok s => k s
  | e => e

/-- The outcome `r` meets `Pok` if it is a normal return and `Pth` if it is a
raised `Error`. -/
def Outcome.Sat {σ : Type} (Pok Pth : σ → Prop) : Outcome σ → Prop
  | Outcome.ok s => Pok s
  | Outcome.thrown s => Pth s
  | Outcome.outOfFuel => True

/-- The paths in the caller's vector when the call ends (none when the budget
is used up). -/
def Outcome.paths : Outcome (List Str) → List Str
  | Outcome.ok s => s
  | Outcome.thrown s => s
  | Outcome.outOfFuel => []

/-- `_curPath += '/'; _curPath += name;`. -/
def GlobHelper.append (g : GlobHelper) (name : Str) : GlobHelper :=
  { g with _curPath := g._curPath ++ '/' :: name }

/-- `if (name) { _curPath += '/'; _curPath += name; }` of lines 149-152. -/
def GlobHelper.push (g : GlobHelper) (name : Str) : GlobHelper :=
  if name ≠ [] then g.append name else g

/-- `_curPath.resize(oldSize)`: the buffer is cut back to its first `oldSize`
characters (it is never shorter than that where the code resizes it). -/
def GlobHelper.resize (g : GlobHelper) (oldSize : Nat) : GlobHelper :=
  { g with _curPath := g._curPath.take oldSize }

/-- The terminal test of lines 155-159: `_out_paths->append(_curPath)` when the
path is a wanted file or a wanted directory. -/
def GlobHelper.appendIfWanted (fs : FileSys) (g : GlobHelper) : GlobHelper :=
  if (g._needFile && fs.fileExists g._curPath) || (g._needDir && fs.dirExists g._curPath) then
    { g with _out_paths := g._out_paths ++ [g._curPath] }
  else g

/-- The part of the loop body of `_step2` after the hidden test (lines 182-196),
for recursion budget `fuel`. In the `**` branch the test `if (name)` of line 184
is on the segment `**`, not on the entry, so the entry is appended always. -/
def GlobHelper.entryBody (fs : FileSys) (fuel : Nat) (name remain : Str) (entry : Str)
    (gi : GlobHelper) : Outcome GlobHelper :=
  if name = ['*', '*'] then
    (GlobHelper._step2 fs fuel name remain (gi.append entry)).andThen
      fun gk => Outcome.ok (gk.resize gi._curPath.length)
  else if GlobHelper.matchWildcard entry name then
    GlobHelper._step2 fs fuel entry remain gi
  else Outcome.ok gi

/-- The directory part of the wildcard branch of `_step2` (lines 171-197). -/
def GlobHelper.expand (fs : FileSys) (fuel : Nat) (name remain : Str) (g0 : GlobHelper) :
    Outcome GlobHelper :=
  if !fs.dirExists g0._curPath then Outcome.ok g0
  else
    match fs.opendir g0._curPath with
    | none => Outcome.ok g0
    | some dir =>
      GlobHelper.whileGetEntry (GlobHelper.entryBody fs fuel name remain) dir.readFails dir.names g0

/-- Whether the loop of `_step2` passes over the name `f` without running its
body: `.` and `..` (skipped inside `Dir::getEntry`) and, unless hidden entries
are wanted, a name that starts with `.`. -/
def Dir.skipped (needHidden : Bool) (f : Str) : Bool :=
  decide (f = ['.']) || decide (f = ['.', '.']) || (!needHidden && StrView.startsWith f ['.'])

/-- The segments of a pattern: the portions between two `/` separators. -/
def StrView.segments : Str → List Str
  | [] => [[]]
  | c :: t =>
    if c = '/' then [] :: StrView.segments t
    else
      match StrView.segments t with
      | [] => [[c]]
      | seg :: segs => (c :: seg) :: segs

/-- The state `g` after the paths `added` were appended to the result. -/
def GlobHelper.emit (g : GlobHelper) (added : List Str) : GlobHelper :=
  { g with _out_paths := g._out_paths ++ added }

/-- The path `p` passes the terminal test of lines 155-156 under the filters of
`g`: it is a wanted regular file or a wanted directory. -/
def GlobHelper.wanted (fs : FileSys) (g : GlobHelper) (p : Str) : Prop :=
  (g._needFile = true ∧ fs.fileExists p = true) ∨ (g._needDir = true ∧ fs.dirExists p = true)

/-- What a call of the walker started in state `g` guarantees for its outcome
`r`, given a property `Q` of the path buffer: a normal return leaves `g` with
some paths appended to the result and nothing else changed (the path buffer in
particular); a raised `Error` leaves the result with some paths appended; each
appended path has property `Q` and passed the terminal test. -/
def GlobHelper.Post (fs : FileSys) (Q : Str → Prop) (g : GlobHelper) (r : Outcome GlobHelper) :
    Prop :=
  r.Sat
    (fun g2 => ∃ added, g2 = g.emit added ∧ ∀ p ∈ added, Q p ∧ g.wanted fs p)
    (fun g2 => ∃ added, g2._out_paths = g._out_paths ++ added ∧ ∀ p ∈ added, Q p ∧ g.wanted fs p)

/-- The guarantee `Post` for every call of `_step2` with recursion budget `n`:
`Q` holds of the path buffer on entry, `G` of the segment `name` if it is
wildcard-free and not empty, and of each such segment of `remain`. -/
def GlobHelper.PostAt (fs : FileSys) (Q G : Str → Prop) (nh : Bool) (n : Nat) : Prop :=
  ∀ (name remain : Str) (g : GlobHelper),
    g._needHidden = nh → Q g._curPath →
    (StrView.indexOfAnyCharIn name ['*', '?'] < 0 → name ≠ [] → G name) →
    (∀ seg ∈ StrView.segments remain,
      StrView.indexOfAnyCharIn seg ['*', '?'] < 0 → seg ≠ [] → G seg) →
    GlobHelper.Post fs Q g (GlobHelper._step2 fs n name remain g)

/-- The state of `g` at the directory `d` with an empty result: the path buffer
is `d`, the filters are those of `g`. -/
def GlobHelper.fresh (g : GlobHelper) (d : Str) : GlobHelper :=
  { g with _curPath := d, _out_paths := [] }

/-- The path `d` is `b` itself or is reached from `b` through nested directory
entries: each step goes from an existing directory that can be opened to one of
the names its stream yields, other than `.` and `..`, that passes the hidden
filter. -/
inductive GlobHelper.Descends (fs : FileSys) (needHidden : Bool) (b : Str) : Str → Prop where
  | here : GlobHelper.Descends fs needHidden b b
  | entry (d : Str) (dir : DirStream) (e : Str) :
      GlobHelper.Descends fs needHidden b d →
      fs.dirExists d = true → fs.opendir d = some dir →
      e ∈ dir.names → Dir.skipped needHidden e = false →
      GlobHelper.Descends fs needHidden b (d ++ '/' :: e)

/-- The calls of `_step2` that one call of `_step2` leads to.
`Visits fs nh name remain c name2 remain2 c2`: the call `_step2(name, remain)`
made with path buffer `c` (and `_needHidden = nh`) is the call
`_step2(name2, remain2)` with path buffer `c2`, or leads to it through the call
sites of `_step2`, each of which is reached unless an `Error` was raised before:

* `caseA`: line 161, `_step(remain)` after the wildcard-free segment was
  appended to the buffer (if it is not empty);
* `zeroMatch`: line 168, `_step(remain)` for the segment `**`;
* `down`: line 188, `_step2(name, remain)` for the segment `**`, with an entry of
  the current directory that is not skipped appended to the buffer;
* `caseC`: line 195, `_step2(entry, remain)` for an entry of the current
  directory that is not skipped and that `matchWildcard` accepts. -/
inductive GlobHelper.Visits (fs : FileSys) (nh : Bool) (name remain c : Str) :
    Str → Str → Str → Prop where
  | here : GlobHelper.Visits fs nh name remain c name remain c
  | caseA (n1 r1 c1 : Str) :
      GlobHelper.Visits fs nh name remain c n1 r1 c1 →
      StrView.indexOfAnyCharIn n1 ['*', '?'] < 0 → r1 ≠ [] →
      GlobHelper.Visits fs nh name remain c
        (StrView.splitByChar r1 '/').1 (StrView.splitByChar r1 '/').2
        (if n1 ≠ [] then c1 ++ '/' :: n1 else c1)
  | zeroMatch (r1 c1 : Str) :
      GlobHelper.Visits fs nh name remain c ['*', '*'] r1 c1 →
      GlobHelper.Visits fs nh name remain c
        (StrView.splitByChar r1 '/').1 (StrView.splitByChar r1 '/').2 c1
  | down (r1 c1 : Str) (dir : DirStream) (e : Str) :
      GlobHelper.Visits fs nh name remain c ['*', '*'] r1 c1 →
      fs.dirExists c1 = true → fs.opendir c1 = some dir →
      e ∈ dir.names → Dir.skipped nh e = false →
      GlobHelper.Visits fs nh name remain c ['*', '*'] r1 (c1 ++ '/' :: e)
  | caseC (n1 r1 c1 : Str) (dir : DirStream) (e : Str) :
      GlobHelper.Visits fs nh name remain c n1 r1 c1 →
      ¬ StrView.indexOfAnyCharIn n1 ['*', '?'] < 0 → n1 ≠ ['*', '*'] →
      fs.dirExists c1 = true → fs.opendir c1 = some dir →
      e ∈ dir.names → Dir.skipped nh e = false →
      GlobHelper.matchWildcard e n1 = true →
      GlobHelper.Visits fs nh name remain c e r1 c1

/-- The local `start` of `GlobHelper::search` (lines 132-133): the anchor of the
pattern `path`. -/
def GlobHelper.start (fs : FileSys) (path : Str) : Str :=
  (StrView.splitEndByChar (StrView.splitByCharInList (fs.getAbs path) ['*', '?']).1 '/').1

/-- The local `remain` of `GlobHelper::search` (line 136): the pattern after the
anchor and its separator. -/
def GlobHelper.remain (fs : FileSys) (path : Str) : Str :=
  StrView.slice (fs.getAbs path) ((GlobHelper.start fs path).length + 1)

/-- The state in which `GlobHelper::search` starts the walk (lines 123-135). -/
def GlobHelper.initial (fs : FileSys) (out_paths : List Str) (path : Str)
    (needDir needFile needHidden : Bool) : GlobHelper :=
  { _out_paths := out_paths, _curPath := GlobHelper.start fs path,
    _needDir := needDir, _needFile := needFile, _needHidden := needHidden }

/-- Whether a path is absolute: it begins with the separator `/`. -/
def Path.isAbsolute (p : Str) : Bool := StrView.startsWith p ['/']

/-- The state `g` with the paths `o` put in front of its result. -/
def GlobHelper.pre (o : List Str) (g : GlobHelper) : GlobHelper :=
  { g with _out_paths := o ++ g._out_paths }

/-- The outcome `r` with its final state changed by `f`. -/
def Outcome.map {σ : Type} (f : σ → σ) : Outcome σ → Outcome σ
  | Outcome.ok s => Outcome.ok (f s)
  | Outcome.thrown s => Outcome.thrown (f s)
  | Outcome.outOfFuel => Outcome.outOfFuel

/-- The file system `fs` with every name that starts with `.` removed from the
stream of every directory; nothing else is changed. -/
def FileSys.withoutHidden (fs : FileSys) : FileSys :=
  { fs with
    opendir := fun p =>
      (fs.opendir p).map fun dir =>
        { dir with names := dir.names.filter fun f => !StrView.startsWith f ['.'] } }

/-- The path `start` followed by the segments `segs`, each after a separator
`/`. -/
def Path.extend (start : Str) : List Str → Str
  | [] => start
  | seg :: segs => Path.extend (start ++ '/' :: seg) segs

/-- The tree `root/x.txt`, `root/sub/y.txt`, `root/sub/sub2/z.txt` of the
specification, rooted at `/`. -/
def treeFS : FileSys where
  getAbs := fun p => p
  fileExists := fun p =>
    decide (p = "/root/x.txt".toList ∨ p = "/root/sub/y.txt".toList ∨ p = "/root/sub/sub2/z.txt".toList)
  dirExists := fun p =>
    decide (p = "/root".toList ∨ p = "/root/sub".toList ∨ p = "/root/sub/sub2".toList)
  opendir := fun p =>
    if p = "/root".toList then some ⟨[".".toList, "..".toList, "x.txt".toList, "sub".toList], false⟩
    else if p = "/root/sub".toList then some ⟨[".".toList, "..".toList, "y.txt".toList, "sub2".toList], false⟩
    else if p = "/root/sub/sub2".toList then some ⟨[".".toList, "..".toList, "z.txt".toList], false⟩
    else none

/-- A directory `/d` with a hidden file `.env`, a file `a.txt` and a hidden
directory `.git` that holds the file `config`. -/
def hiddenFS : FileSys where
  getAbs := fun p => p
  fileExists := fun p =>
    decide (p = "/d/.env".toList ∨ p = "/d/a.txt".toList ∨ p = "/d/.git/config".toList)
  dirExists := fun p => decide (p = "/d".toList ∨ p = "/d/.git".toList)
  opendir := fun p =>
    if p = "/d".toList then
      some ⟨[".".toList, "..".toList, ".env".toList, "a.txt".toList, ".git".toList], false⟩
    else if p = "/d/.git".toList then some ⟨[".".toList, "..".toList, "config".toList], false⟩
    else none

/-- A file system on which nothing exists. -/
def emptyFS : FileSys where
  getAbs := fun p => p
  fileExists := fun _ => false
  dirExists := fun _ => false
  opendir := fun _ => none

/-- A directory `/d` with the file `a.txt` and the directory `sub`; reading the
stream of `/d/sub` fails after `.` and `..`. -/
def failingFS : FileSys where
  getAbs := fun p => p
  fileExists := fun p => decide (p = "/d/a.txt".toList)
  dirExists := fun p => decide (p = "/d".toList ∨ p = "/d/sub".toList)
  opendir := fun p =>
    if p = "/d".toList then
      some ⟨[".".toList, "..".toList, "a.txt".toList, "sub".toList], false⟩
    else if p = "/d/sub".toList then some ⟨[".".toList, "..".toList], true⟩
    else none

/-! ## `GlobHelper::matchWildcard` with cursors as positions

A second embedding of the same loop, used to state how many rounds it runs and
where it reads: the cursors `p` and `w` are positions in the two strings, a read
`*p` is `sv[p]?`, and a read outside the string ends the run with
`outOfBounds`. -/

/-- What one round of the `while` of `matchWildcard` does (`Glob.cpp` lines
207-225). -/
inductive MatchRound where
  /-- The test `p < end && w < wEnd` fails: the loop ends, `return true`. -/
  | stop
  /-- The body ran to its end; the cursors for the next round. -/
  | next (p w : Nat)
  /-- The body left the loop: `break` (then `return true`) or `return false`. -/
  | exit (result : Bool)
  /-- A character was read outside the bounds of its string. -/
  | outOfBounds
  deriving DecidableEq

/-- One round of the loop of `matchWildcard` at the positions `p` and `w`: the
test of line 207 and the body of lines 208-224, reading `*w` and `*p` (line
208), then `*p1` and `*w1` (line 219) where the code reads them. -/
def GlobHelper.matchWildcardRound (sv wildcard : Str) (p w : Nat) : MatchRound :=
  if p < sv.length ∧ w < wildcard.length then
    match wildcard[w]?, sv[p]? with
    | some wc, some pc =>
      if wc = pc ∨ wc = '?' then MatchRound.next (p + 1) (w + 1)
      else if wc = '*' then
        -- `auto w1 = w + 1; if (w1 >= wEnd) break;`
        if w + 1 ≥ wildcard.length then MatchRound.exit true
        -- `auto p1 = p + 1; if (p1 >= end) return false;`
        else if p + 1 ≥ sv.length then MatchRound.exit false
        else
          match sv[p + 1]?, wildcard[w + 1]? with
          | some p1c, some w1c =>
            if p1c = w1c then MatchRound.next (p + 1) (w + 1) else MatchRound.next (p + 1) w
          | _, _ => MatchRound.outOfBounds
      else MatchRound.exit false
    | _, _ => MatchRound.outOfBounds
  else MatchRound.stop

/-- How a run of the loop ends: with the value `matchWildcard` returns after
`rounds` executions of the loop body, with a read outside the bounds, or with
the budget of rounds used up. -/
inductive MatchRun where
  | finished (result : Bool) (rounds : Nat)
  | outOfBounds
  | outOfFuel
  deriving DecidableEq

/-- The loop of `matchWildcard` from the positions `p` and `w`, after `rounds`
executions of the body; the first argument bounds the number of further rounds
that go on to a next one. -/
def GlobHelper.matchWildcardRun (sv wildcard : Str) : Nat → Nat → Nat → Nat → MatchRun
  | 0, p, w, rounds =>
    match GlobHelper.matchWildcardRound sv wildcard p w with
    | MatchRound.stop => MatchRun.finished true rounds
    | MatchRound.exit b => MatchRun.finished b (rounds + 1)
    | MatchRound.outOfBounds => MatchRun.outOfBounds
    | MatchRound.next _ _ => MatchRun.outOfFuel
  | fuel + 1, p, w, rounds =>
    match GlobHelper.matchWildcardRound sv wildcard p w with
    | MatchRound.stop => MatchRun.finished true rounds
    | MatchRound.exit b => MatchRun.finished b (rounds + 1)
    | MatchRound.outOfBounds => MatchRun.outOfBounds
    | MatchRound.next p1 w1 => GlobHelper.matchWildcardRun sv wildcard fuel p1 w1 (rounds + 1)

/-- A directory `/d` that holds one file, and the name of the file is `*` (a
legal name on a POSIX file system). The field `opendir` says what the stream of
a path holds; whether the process has a descriptor left for it is decided by
`FileSys.opendirAt`, from the bound given to `Glob.searchAt`. -/
def starFS : FileSys where
  getAbs := fun p => p
  fileExists := fun p => decide (p = "/d/*".toList)
  dirExists := fun p => decide (p = "/d".toList)
  opendir := fun p =>
    if p = "/d".toList then some ⟨[".".toList, "..".toList, "*".toList], false⟩ else none

/-- `::opendir` as `Dir::open` calls it (`Glob.cpp` line 76) when the active
frames of the walk hold `opened` streams open and the process can hold at most
`maxOpen` of them (`none`: no bound): with no descriptor left the call fails and
yields no stream, whatever the path is. -/
def FileSys.opendirAt (fs : FileSys) (maxOpen : Option Nat) (opened : Nat) (p : Str) :
    Option DirStream :=
  match maxOpen with
  | some m => if m ≤ opened then none else fs.opendir p
  | none => fs.opendir p

/-- `GlobHelper::_step2(name, remain)`, `Glob.cpp` lines 146-198, called while
the active frames hold `opened` streams open (the second numeric argument; the
first bounds the depth of the recursion). The calls made before `dir.open`
(lines 161 and 168) run with `opened` streams open, the calls of the loop body
(lines 188 and 195) with one more, the one of this frame. -/
def GlobHelper._step2At (fs : FileSys) (maxOpen : Option Nat) :
    Nat → Nat → Str → Str → GlobHelper → Outcome GlobHelper
  | 0, _, _, _, _ => Outcome.outOfFuel
  | fuel + 1, opened, name, remain, g =>
    if StrView.indexOfAnyCharIn name ['*', '?'] < 0 then
      let oldSize := g._curPath.length
      let g1 := if name ≠ [] then { g with _curPath := g._curPath ++ '/' :: name } else g
      let r :=
        if remain = [] then
          if (g1._needFile && fs.fileExists g1._curPath) || (g1._needDir && fs.dirExists g1._curPath) then
            Outcome.ok { g1 with _out_paths := g1._out_paths ++ [g1._curPath] }
          else Outcome.ok g1
        else
          GlobHelper._step2At fs maxOpen fuel opened
            (StrView.splitByChar remain '/').1 (StrView.splitByChar remain '/').2 g1
      match r with
      | Outcome.ok g2 => Outcome.ok { g2 with _curPath := g2._curPath.take oldSize }
      | e => e
    else
      let r0 :=
        if name = ['*', '*'] then
          GlobHelper._step2At fs maxOpen fuel opened
            (StrView.splitByChar remain '/').1 (StrView.splitByChar remain '/').2 g
        else Outcome.ok g
      match r0 with
      | Outcome.ok g0 =>
        if !fs.dirExists g0._curPath then Outcome.ok g0
        else
          match fs.opendirAt maxOpen opened g0._curPath with
          | none => Outcome.ok g0
          | some dir =>
            GlobHelper.whileGetEntry
              (fun entry gi =>
                if name = ['*', '*'] then
                  let oldSize := gi._curPath.length
                  let gj := if name ≠ [] then { gi with _curPath := gi._curPath ++ '/' :: entry } else gi
                  match GlobHelper._step2At fs maxOpen fuel (opened + 1) name remain gj with
                  | Outcome.ok gk => Outcome.ok { gk with _curPath := gk._curPath.take oldSize }
                  | e => e
                else if GlobHelper.matchWildcard entry name then
                  GlobHelper._step2At fs maxOpen fuel (opened + 1) entry remain gi
                else Outcome.ok gi)
              dir.readFails dir.names g0
      | e => e

/-- `GlobHelper::search`, `Glob.cpp` lines 122-138, on a freshly constructed
`GlobHelper`, in a process that can hold at most `maxOpen` directory streams
open (`none`: no bound); the walk starts with none open. -/
def GlobHelper.searchAt (fs : FileSys) (maxOpen : Option Nat) (fuel : Nat) (out_paths : List Str)
    (path : Str) (needDir needFile needHidden : Bool) : Outcome GlobHelper :=
  let p := fs.getAbs path
  let start := (StrView.splitEndByChar (StrView.splitByCharInList p ['*', '?']).1 '/').1
  let remain := StrView.slice p (start.length + 1)
  GlobHelper._step2At fs maxOpen fuel 0
    (StrView.splitByChar remain '/').1 (StrView.splitByChar remain '/').2
    { _out_paths := out_paths, _curPath := start,
      _needDir := needDir, _needFile := needFile, _needHidden := needHidden }

/-- `Glob::search`, `Glob.cpp` lines 236-246, in a process that can hold at most
`maxOpen` directory streams open (`none`: no bound). -/
def Glob.searchAt (fs : FileSys) (maxOpen : Option Nat) (fuel : Nat) (out_paths : List Str)
    (path : Str) (needDir needFile needHidden : Bool) : Outcome (List Str) :=
  let cleared : List Str := []
  if StrView.indexOfAnyCharIn path ['*', '?'] < 0 then
    Outcome.ok (cleared ++ [path])
  else
    match GlobHelper.searchAt fs maxOpen fuel cleared path needDir needFile needHidden with
    | Outcome.ok g => Outcome.ok g._out_paths
    | Outcome.thrown g => Outcome.thrown g._out_paths
    | Outcome.outOfFuel => Outcome.outOfFuel

/-! ## `Dict` (`src/Util/Dict.h`, namespace `ax_gen` in the source)

The ordered dictionary `Dict<KEY, VALUE>`. A value of type `V` stands for a
pointer `Value*` that `new Value()` returned; the pointer a call of `add` gets
from `new Value()` is an argument of the embedded `add`. `Vector<Pair>` is a
list; `std::map<Key, Value*>` is a function from keys to optional pointers. -/

/-- The members of `Dict` (`Dict.h` lines 161-162): `_pairs`, which keeps the
order of the calls of `add`, and `_map`. -/
structure Dict (K V : Type) where
  _pairs : List (K × V)
  _map : K → Option V

/-- The two `Error`s that `Dict` raises: "Dict has duplicated key" (line 215)
and "key is not found in Dict pairs" (line 191). -/
inductive Dict.Error where
  | duplicatedKey
  | keyNotFoundInPairs
  deriving DecidableEq

/-- How a call on a `Dict` ends: the value it returns or the `Error` it raises,
and the `Dict` it leaves behind. -/
structure Dict.Call (K V ρ : Type) where
  result : Except Dict.Error ρ
  dict : Dict K V

/-- A freshly constructed `Dict`. -/
def Dict.empty {K V : Type} : Dict K V :=
  { _pairs := [], _map := fun _ => none }

/-- `Dict::find`, lines 194-199: `none` is `nullptr`. -/
def Dict.find {K V : Type} (d : Dict K V) (key : K) : Option V :=
  d._map key

/-- `Dict::add`, lines 213-220; `v` is the pointer `new Value()` returns. -/
def Dict.add {K V : Type} [DecidableEq K] (d : Dict K V) (key : K) (v : V) : Dict.Call K V V :=
  match d.find key with
  | some _ => { result := Except.error Dict.Error.duplicatedKey, dict := d }
  | none =>
    { result := Except.ok v,
      dict :=
        { _pairs := d._pairs ++ [(key, v)],
          _map := fun k => if k = key then some v else d._map k } }

/-- `Dict::addIfNotExists`, lines 207-211: `none` is `nullptr`. -/
def Dict.addIfNotExists {K V : Type} [DecidableEq K] (d : Dict K V) (key : K) (v : V) :
    Dict.Call K V (Option V) :=
  match d.find key with
  | some _ => { result := Except.ok none, dict := d }
  | none =>
    { result := (d.add key v).result.map some, dict := (d.add key v).dict }

/-- `Dict::getOrAdd`, lines 165-169. -/
def Dict.getOrAdd {K V : Type} [DecidableEq K] (d : Dict K V) (key : K) (v : V) :
    Dict.Call K V V :=
  match d.find key with
  | some o => { result := Except.ok o, dict := d }
  | none => d.add key v

/-- The loop of `Dict::remove`, lines 183-190, from the pair at index `i`: the
index of the first pair whose key is `key`, if there is one. -/
def Dict.removeLoop {K V : Type} [DecidableEq K] (key : K) : List (K × V) → Nat → Option Nat
  | [], _ => none
  | q :: rest, i => if q.1 = key then some i else Dict.removeLoop key rest (i + 1)

/-- `Dict::remove`, lines 176-192; `_pairs.removeAt(i)` takes the pair at index
`i` out of the vector. -/
def Dict.remove {K V : Type} [DecidableEq K] (d : Dict K V) (key : K) : Dict.Call K V Bool :=
  match d._map key with
  | none => { result := Except.ok false, dict := d }
  | some _ =>
    -- `_map.erase(it);`
    let erased : K → Option V := fun k => if k = key then none else d._map k
    match Dict.removeLoop key d._pairs 0 with
    | some i => { result := Except.ok true, dict := { _pairs := d._pairs.eraseIdx i, _map := erased } }
    | none =>
      { result := Except.error Dict.Error.keyNotFoundInPairs,
        dict := { _pairs := d._pairs, _map := erased } }

/-- `Dict::clear`, lines 201-205. -/
def Dict.clear {K V : Type} (_d : Dict K V) : Dict K V :=
  { _pairs := [], _map := fun _ => none }

/-- `Dict::sort`, line 151: `_pairs.sort()`. The class `Vector` is not part of
the files at hand, so its `sort` is the parameter `vsort`. -/
def Dict.sort {K V : Type} (vsort : List (K × V) → List (K × V)) (d : Dict K V) : Dict K V :=
  { d with _pairs := vsort d._pairs }

/-- What iterating `pairs()` yields (lines 60-70). -/
def Dict.pairs {K V : Type} (d : Dict K V) : List (K × V) := d._pairs

/-- What iterating `keys()` yields (lines 72-96). -/
def Dict.keys {K V : Type} (d : Dict K V) : List K := d._pairs.map Prod.fst

/-- What iterating `values()` yields (lines 98-122). -/
def Dict.values {K V : Type} (d : Dict K V) : List V := d._pairs.map Prod.snd

/-- One call on a `Dict`; `v` is the pointer `new Value()` would return. -/
inductive Dict.Op (K V : Type) where
  | add (key : K) (v : V)
  | addIfNotExists (key : K) (v : V)
  | getOrAdd (key : K) (v : V)
  | remove (key : K)
  | clear
  | sort
  deriving DecidableEq

/-- The `Dict` a call leaves behind, whether it returns or raises. -/
def Dict.exec {K V : Type} [DecidableEq K] (vsort : List (K × V) → List (K × V))
    (d : Dict K V) : Dict.Op K V → Dict K V
  | Dict.Op.add key v => (d.add key v).dict
  | Dict.Op.addIfNotExists key v => (d.addIfNotExists key v).dict
  | Dict.Op.getOrAdd key v => (d.getOrAdd key v).dict
  | Dict.Op.remove key => (d.remove key).dict
  | Dict.Op.clear => d.clear
  | Dict.Op.sort => d.sort vsort

/-- The `Dict` after a sequence of calls, the first call first. -/
def Dict.run {K V : Type} [DecidableEq K] (vsort : List (K × V) → List (K × V))
    (d : Dict K V) (ops : List (Dict.Op K V)) : Dict K V :=
  ops.foldl (Dict.exec vsort) d

/-- The consistency of the two members: the keys in `_pairs` are pairwise
distinct, and `_pairs` holds the pair `(k, v)` exactly when `_map` binds `k` to
`v`. -/
def Dict.Consistent {K V : Type} (d : Dict K V) : Prop :=
  (d._pairs.map Prod.fst).Nodup ∧ ∀ k v, (k, v) ∈ d._pairs ↔ d._map k = some v

/-- The history of a sequence of calls, kept apart from the `Dict`: which keys
are present (added and not removed since), the number of the call that added
each present key, and the number of calls so far. -/
structure Dict.Log (K : Type) where
  present : K → Bool
  addedAt : K → Nat
  calls : Nat

/-- The history before any call. -/
def Dict.Log.empty {K : Type} : Dict.Log K :=
  { present := fun _ => false, addedAt := fun _ => 0, calls := 0 }

/-- The history after one more call: `add`, `addIfNotExists` and `getOrAdd` make
an absent key present and note the number of the call, `remove` makes the key
absent, `clear` makes every key absent, `sort` changes nothing. -/
def Dict.Log.step {K V : Type} [DecidableEq K] (log : Dict.Log K) : Dict.Op K V → Dict.Log K
  | Dict.Op.add key _ | Dict.Op.addIfNotExists key _ | Dict.Op.getOrAdd key _ =>
    if log.present key then { log with calls := log.calls + 1 }
    else
      { present := fun k => if k = key then true else log.present k,
        addedAt := fun k => if k = key then log.calls else log.addedAt k,
        calls := log.calls + 1 }
  | Dict.Op.remove key =>
    { log with present := fun k => if k = key then false else log.present k,
               calls := log.calls + 1 }
  | Dict.Op.clear => { log with present := fun _ => false, calls := log.calls + 1 }
  | Dict.Op.sort => { log with calls := log.calls + 1 }

/-- The history of a sequence of calls, the first call first. -/
def Dict.Log.run {K V : Type} [DecidableEq K] (log : Dict.Log K) (ops : List (Dict.Op K V)) :
    Dict.Log K :=
  ops.foldl Dict.Log.step log

/-- The `Dict` `d` agrees with the history `log`: it is consistent, its keys are
the present keys, they stand in `_pairs` in the order of the calls that added
them, and each was added by a call already made. -/
def Dict.Tracks {K V : Type} (d : Dict K V) (log : Dict.Log K) : Prop :=
  d.Consistent ∧
  (∀ k, k ∈ d.keys ↔ log.present k = true) ∧
  d.keys.Pairwise (fun a b => log.addedAt a < log.addedAt b) ∧
  (∀ k ∈ d.keys, log.addedAt k < log.calls)

/-! ## Theorems: `StrView` helpers -/

theorem StrView.indexOfAnyCharIn_neg_iff (s chars : Str) :
    StrView.indexOfAnyCharIn s chars < 0 ↔ ∀ c ∈ s, c ∉ chars := by
  unfold StrView.indexOfAnyCharIn
  cases h : s.findIdx? (fun c => chars.contains c) with
  | none =>
    simp only [List.findIdx?_eq_none_iff] at h
    simp only [Int.reduceNeg, Int.reduceLT, true_iff]
    intro c hc
    have := h c hc
    simpa using this
  | some i =>
    have hi := List.findIdx?_eq_some_iff_getElem.mp h
    obtain ⟨hlt, hp, -⟩ := hi
    constructor
    · intro hneg
      simp only at hneg
      omega
    · intro hall
      exact absurd (by simpa using hp) (hall _ (List.getElem_mem hlt))

theorem StrView.indexOfAnyCharIn_wildcard_neg_iff (s : Str) :
    StrView.indexOfAnyCharIn s ['*', '?'] < 0 ↔ '*' ∉ s ∧ '?' ∉ s := by
  rw [StrView.indexOfAnyCharIn_neg_iff]
  constructor
  · intro h
    exact ⟨fun hm => h _ hm (by simp), fun hm => h _ hm (by simp)⟩
  · rintro ⟨h1, h2⟩ c hc hmem
    simp only [List.mem_cons, List.mem_singleton, List.not_mem_nil, or_false] at hmem
    rcases hmem with rfl | rfl
    · exact h1 hc
    · exact h2 hc

theorem StrView.indexOfAnyCharIn_wildcard_of_mem (path : Str) (hw : '*' ∈ path ∨ '?' ∈ path) :
    ¬ StrView.indexOfAnyCharIn path ['*', '?'] < 0 := by
  rw [StrView.indexOfAnyCharIn_wildcard_neg_iff]
  rintro ⟨h1, h2⟩
  rcases hw with h | h
  · exact h1 h
  · exact h2 h

/-! ## Theorems: unfolding `_step2` -/

theorem GlobHelper._step2_zero (fs : FileSys) (name remain : Str) (g : GlobHelper) :
    GlobHelper._step2 fs 0 name remain g = Outcome.outOfFuel := rfl

/-- Case A of the walker: a segment without wildcard character. -/
theorem GlobHelper._step2_literal (fs : FileSys) (fuel : Nat) (name remain : Str) (g : GlobHelper)
    (h : StrView.indexOfAnyCharIn name ['*', '?'] < 0) :
    GlobHelper._step2 fs (fuel + 1) name remain g =
      (if remain = [] then Outcome.ok (GlobHelper.appendIfWanted fs (g.push name))
        else GlobHelper._step fs fuel remain (g.push name)).andThen
        fun g2 => Outcome.ok (g2.resize g._curPath.length) := by
  rw [GlobHelper._step2]
  simp only [h, if_true]
  unfold GlobHelper.push GlobHelper.append GlobHelper.appendIfWanted GlobHelper._step
    Outcome.andThen GlobHelper.resize
  by_cases hr : remain = []
  · simp only [hr, if_true]
    split_ifs <;> rfl
  · simp only [hr, if_false]
    generalize GlobHelper._step2 fs fuel _ _ _ = r
    cases r <;> rfl

/-- Cases B and C of the walker: a segment with a wildcard character. -/
theorem GlobHelper._step2_wildcard (fs : FileSys) (fuel : Nat) (name remain : Str) (g : GlobHelper)
    (h : ¬ StrView.indexOfAnyCharIn name ['*', '?'] < 0) :
    GlobHelper._step2 fs (fuel + 1) name remain g =
      (if name = ['*', '*'] then GlobHelper._step fs fuel remain g else Outcome.ok g).andThen
        (GlobHelper.expand fs fuel name remain) := by
  rw [GlobHelper._step2]
  simp only [h, if_false]
  have hb : (fun entry gi =>
      if name = ['*', '*'] then
        match GlobHelper._step2 fs fuel name remain
            (if name ≠ [] then { gi with _curPath := gi._curPath ++ '/' :: entry } else gi) with
        | Outcome.ok gk => Outcome.ok { gk with _curPath := gk._curPath.take gi._curPath.length }
        | e => e
      else if GlobHelper.matchWildcard entry name then GlobHelper._step2 fs fuel entry remain gi
      else Outcome.ok gi) = GlobHelper.entryBody fs fuel name remain := by
    funext entry gi
    unfold GlobHelper.entryBody
    by_cases hn : name = ['*', '*']
    · subst hn
      simp only [if_true, GlobHelper.append, Outcome.andThen, GlobHelper.resize, ne_eq,
        List.cons_ne_nil, not_false_eq_true, reduceCtorEq]
      generalize GlobHelper._step2 fs fuel _ _ _ = r
      cases r <;> rfl
    · simp only [hn, if_false]
  simp only [hb]
  unfold GlobHelper.expand GlobHelper._step Outcome.andThen
  generalize (if name = ['*', '*'] then GlobHelper._step2 fs fuel _ _ g else Outcome.ok g) = r
  cases r <;> rfl

/-! ## Theorems: the loop over the entries of a directory -/

theorem Outcome.andThen_ok {σ : Type} (s : σ) (k : σ → Outcome σ) :
    (Outcome.ok s).andThen k = k s := rfl

theorem Outcome.andThen_thrown {σ : Type} (s : σ) (k : σ → Outcome σ) :
    (Outcome.thrown s).andThen k = Outcome.thrown s := rfl

theorem Outcome.andThen_outOfFuel {σ : Type} (k : σ → Outcome σ) :
    (Outcome.outOfFuel : Outcome σ).andThen k = Outcome.outOfFuel := rfl

theorem Outcome.ne_outOfFuel_of_andThen {σ : Type} {r : Outcome σ} {k : σ → Outcome σ}
    (h : r.andThen k ≠ Outcome.outOfFuel) : r ≠ Outcome.outOfFuel := by
  intro hr
  exact h (by rw [hr]; rfl)

theorem GlobHelper.whileGetEntry_nil (body : Str → GlobHelper → Outcome GlobHelper)
    (readFails : Bool) (g : GlobHelper) :
    GlobHelper.whileGetEntry body readFails [] g =
      if readFails then Outcome.thrown g else Outcome.ok g := rfl

theorem GlobHelper.whileGetEntry_cons (body : Str → GlobHelper → Outcome GlobHelper)
    (readFails : Bool) (f : Str) (fs : List Str) (g : GlobHelper) :
    GlobHelper.whileGetEntry body readFails (f :: fs) g =
      if Dir.skipped g._needHidden f then GlobHelper.whileGetEntry body readFails fs g
      else (body f g).andThen (GlobHelper.whileGetEntry body readFails fs) := by
  rw [GlobHelper.whileGetEntry]
  unfold Dir.skipped
  by_cases h1 : f = ['.']
  · simp [h1]
  · by_cases h2 : f = ['.', '.']
    · simp [h2]
    · by_cases h3 : (!g._needHidden && StrView.startsWith f ['.']) = true
      · simp [h1, h2, h3]
      · simp only [h1, h2, h3, if_false, decide_False, Bool.false_or, Bool.false_eq_true]
        unfold Outcome.andThen
        cases body f g <;> rfl

/-- The loop of `_step2` is `while (dir.getEntry(entry))`: each round takes what
`Dir::getEntry` returns on the pending stream. -/
theorem GlobHelper.whileGetEntry_eq_getEntry (body : Str → GlobHelper → Outcome GlobHelper)
    (readFails : Bool) (names : List Str) (g : GlobHelper) :
    GlobHelper.whileGetEntry body readFails names g =
      match Dir.getEntry readFails names with
      | Except.error _ => Outcome.thrown g
      | Except.ok none => Outcome.ok g
      | Except.ok (some (entry, rest)) =>
        if (!g._needHidden && StrView.startsWith entry ['.']) then
          GlobHelper.whileGetEntry body readFails rest g
        else (body entry g).andThen (GlobHelper.whileGetEntry body readFails rest) := by
  induction names with
  | nil =>
    cases readFails <;> rfl
  | cons f fs ih =>
    rw [Dir.getEntry]
    by_cases h1 : f = ['.']
    · rw [GlobHelper.whileGetEntry_cons, ih]
      simp [h1, Dir.skipped]
    · by_cases h2 : f = ['.', '.']
      · rw [GlobHelper.whileGetEntry_cons, ih]
        simp [h2, Dir.skipped]
      · rw [GlobHelper.whileGetEntry_cons]
        simp [h1, h2, Dir.skipped]

/-! ## Theorems: a larger recursion budget does not change a finished walk -/

theorem GlobHelper.whileGetEntry_mono (body body2 : Str → GlobHelper → Outcome GlobHelper)
    (readFails : Bool)
    (h : ∀ e g, body e g ≠ Outcome.outOfFuel → body2 e g = body e g) :
    ∀ (names : List Str) (g : GlobHelper),
      GlobHelper.whileGetEntry body readFails names g ≠ Outcome.outOfFuel →
      GlobHelper.whileGetEntry body2 readFails names g =
        GlobHelper.whileGetEntry body readFails names g := by
  intro names
  induction names with
  | nil => intro g _; rfl
  | cons f fs ih =>
    intro g hne
    rw [GlobHelper.whileGetEntry_cons] at hne ⊢
    rw [GlobHelper.whileGetEntry_cons]
    by_cases hs : Dir.skipped g._needHidden f = true
    · simp only [hs, if_true] at hne ⊢
      exact ih g hne
    · simp only [hs, if_false, Bool.false_eq_true] at hne ⊢
      have hb := Outcome.ne_outOfFuel_of_andThen hne
      rw [h f g hb]
      cases hr : body f g with
      | ok g1 =>
        rw [hr] at hne
        exact ih g1 hne
      | thrown g1 => rfl
      | outOfFuel => exact absurd hr hb

theorem GlobHelper._step2_mono_succ (fs : FileSys) :
    ∀ (fuel : Nat) (name remain : Str) (g : GlobHelper),
      GlobHelper._step2 fs fuel name remain g ≠ Outcome.outOfFuel →
      GlobHelper._step2 fs (fuel + 1) name remain g = GlobHelper._step2 fs fuel name remain g := by
  intro fuel
  induction fuel with
  | zero => intro name remain g h; exact absurd rfl h
  | succ n ih =>
    intro name remain g hne
    have ihstep : ∀ (path : Str) (g : GlobHelper),
        GlobHelper._step fs n path g ≠ Outcome.outOfFuel →
        GlobHelper._step fs (n + 1) path g = GlobHelper._step fs n path g := by
      intro path g h
      exact ih _ _ g h
    by_cases hl : StrView.indexOfAnyCharIn name ['*', '?'] < 0
    · rw [GlobHelper._step2_literal fs _ _ _ _ hl] at hne ⊢
      rw [GlobHelper._step2_literal fs _ _ _ _ hl]
      have h1 := Outcome.ne_outOfFuel_of_andThen hne
      by_cases hr : remain = []
      · simp only [hr, if_true]
      · simp only [hr, if_false] at h1 ⊢
        rw [ihstep _ _ h1]
    · rw [GlobHelper._step2_wildcard fs _ _ _ _ hl] at hne ⊢
      rw [GlobHelper._step2_wildcard fs _ _ _ _ hl]
      have h1 := Outcome.ne_outOfFuel_of_andThen hne
      have h2 : (if name = ['*', '*'] then GlobHelper._step fs (n + 1) remain g else Outcome.ok g)
          = (if name = ['*', '*'] then GlobHelper._step fs n remain g else Outcome.ok g) := by
        by_cases hn : name = ['*', '*']
        · simp only [hn, if_true] at h1 ⊢
          exact ihstep _ _ h1
        · simp only [hn, if_false]
      rw [h2]
      cases hr : (if name = ['*', '*'] then GlobHelper._step fs n remain g else Outcome.ok g) with
      | ok g0 =>
        rw [hr] at hne
        simp only [Outcome.andThen_ok] at hne ⊢
        unfold GlobHelper.expand at hne ⊢
        by_cases hd : (!fs.dirExists g0._curPath) = true
        · simp only [hd, if_true]
        · simp only [hd, if_false, Bool.false_eq_true] at hne ⊢
          cases ho : fs.opendir g0._curPath with
          | none => rfl
          | some dir =>
            rw [ho] at hne
            simp only at hne ⊢
            apply GlobHelper.whileGetEntry_mono _ _ _ _ _ _ hne
            intro e gi hb
            unfold GlobHelper.entryBody at hb ⊢
            by_cases hn : name = ['*', '*']
            · simp only [hn, if_true] at hb ⊢
              rw [ih _ _ _ (Outcome.ne_outOfFuel_of_andThen hb)]
            · simp only [hn, if_false] at hb ⊢
              by_cases hm : GlobHelper.matchWildcard e name = true
              · simp only [hm, if_true] at hb ⊢
                exact ih _ _ _ hb
              · simp only [hm, if_false, Bool.false_eq_true]
      | thrown g0 => rfl
      | outOfFuel => rfl

theorem GlobHelper._step2_mono (fs : FileSys) (fuel fuel2 : Nat) (name remain : Str)
    (g : GlobHelper) (hle : fuel ≤ fuel2)
    (h : GlobHelper._step2 fs fuel name remain g ≠ Outcome.outOfFuel) :
    GlobHelper._step2 fs fuel2 name remain g = GlobHelper._step2 fs fuel name remain g := by
  induction hle with
  | refl => rfl
  | step _ ih =>
    rw [GlobHelper._step2_mono_succ fs _ _ _ _ (by rw [ih]; exact h), ih]

theorem GlobHelper._step_mono (fs : FileSys) (fuel fuel2 : Nat) (path : Str)
    (g : GlobHelper) (hle : fuel ≤ fuel2)
    (h : GlobHelper._step fs fuel path g ≠ Outcome.outOfFuel) :
    GlobHelper._step fs fuel2 path g = GlobHelper._step fs fuel path g :=
  GlobHelper._step2_mono fs fuel fuel2 _ _ g hle h

/-! ## Theorems: segments of a pattern -/

theorem StrView.segments_splitByChar (rem : Str) :
    ∃ rest, StrView.segments rem = (StrView.splitByChar rem '/').1 :: rest ∧
      ∀ seg ∈ StrView.segments (StrView.splitByChar rem '/').2, seg ∈ rest ∨ seg = [] := by
  induction rem with
  | nil =>
    refine ⟨[], rfl, ?_⟩
    intro seg hseg
    right
    simpa [StrView.splitByChar, StrView.splitByCharInList, StrView.segments] using hseg
  | cons c t ih =>
    obtain ⟨rest, h1, h2⟩ := ih
    by_cases hc : c = '/'
    · subst hc
      refine ⟨StrView.segments t, ?_, ?_⟩
      · simp [StrView.segments, StrView.splitByChar, StrView.splitByCharInList]
      · intro seg hseg
        left
        simpa [StrView.splitByChar, StrView.splitByCharInList] using hseg
    · refine ⟨rest, ?_, ?_⟩
      · simp only [StrView.segments, hc, if_false, h1]
        simp [StrView.splitByChar, StrView.splitByCharInList, hc]
      · intro seg hseg
        apply h2
        simpa [StrView.splitByChar, StrView.splitByCharInList, hc] using hseg

theorem StrView.splitByChar_fst_mem_segments (rem : Str) :
    (StrView.splitByChar rem '/').1 ∈ StrView.segments rem := by
  obtain ⟨rest, h1, -⟩ := StrView.segments_splitByChar rem
  rw [h1]
  exact List.mem_cons_self _ _

theorem StrView.mem_segments_of_splitByChar_snd (rem seg : Str)
    (h : seg ∈ StrView.segments (StrView.splitByChar rem '/').2) :
    seg ∈ StrView.segments rem ∨ seg = [] := by
  obtain ⟨rest, h1, h2⟩ := StrView.segments_splitByChar rem
  rcases h2 seg h with h3 | h3
  · left
    rw [h1]
    exact List.mem_cons_of_mem _ h3
  · right
    exact h3

/-! ## Theorems: what a walk leaves behind -/

@[simp] theorem GlobHelper.emit_nil (g : GlobHelper) : g.emit [] = g := by
  cases g
  simp [GlobHelper.emit]

@[simp] theorem GlobHelper.emit_emit (g : GlobHelper) (a b : List Str) :
    (g.emit a).emit b = g.emit (a ++ b) := by
  simp [GlobHelper.emit, List.append_assoc]

@[simp] theorem GlobHelper.emit_curPath (g : GlobHelper) (a : List Str) :
    (g.emit a)._curPath = g._curPath := rfl

@[simp] theorem GlobHelper.emit_out_paths (g : GlobHelper) (a : List Str) :
    (g.emit a)._out_paths = g._out_paths ++ a := rfl

@[simp] theorem GlobHelper.emit_needHidden (g : GlobHelper) (a : List Str) :
    (g.emit a)._needHidden = g._needHidden := rfl

@[simp] theorem GlobHelper.emit_wanted (fs : FileSys) (g : GlobHelper) (a : List Str) (p : Str) :
    (g.emit a).wanted fs p ↔ g.wanted fs p := Iff.rfl

@[simp] theorem GlobHelper.append_wanted (fs : FileSys) (g : GlobHelper) (e : Str) (p : Str) :
    (g.append e).wanted fs p ↔ g.wanted fs p := Iff.rfl

@[simp] theorem GlobHelper.append_needHidden (g : GlobHelper) (e : Str) :
    (g.append e)._needHidden = g._needHidden := rfl

@[simp] theorem GlobHelper.append_curPath (g : GlobHelper) (e : Str) :
    (g.append e)._curPath = g._curPath ++ '/' :: e := rfl

@[simp] theorem GlobHelper.append_out_paths (g : GlobHelper) (e : Str) :
    (g.append e)._out_paths = g._out_paths := rfl

theorem GlobHelper.append_emit_resize (g : GlobHelper) (e : Str) (a : List Str) :
    ((g.append e).emit a).resize g._curPath.length = g.emit a := by
  cases g
  simp [GlobHelper.emit, GlobHelper.append, GlobHelper.resize]

theorem GlobHelper.emit_resize (g : GlobHelper) (a : List Str) :
    (g.emit a).resize g._curPath.length = g.emit a := by
  cases g
  simp [GlobHelper.emit, GlobHelper.resize]

theorem GlobHelper.Post_ok_self (fs : FileSys) (Q : Str → Prop) (g : GlobHelper) :
    GlobHelper.Post fs Q g (Outcome.ok g) :=
  ⟨[], by simp, by simp⟩

theorem GlobHelper.Post_thrown_self (fs : FileSys) (Q : Str → Prop) (g : GlobHelper) :
    GlobHelper.Post fs Q g (Outcome.thrown g) :=
  ⟨[], by simp, by simp⟩

/-- Sequencing: the second call starts where the first one returned. -/
theorem GlobHelper.Post_andThen (fs : FileSys) (Q : Str → Prop) (g : GlobHelper)
    (r : Outcome GlobHelper) (k : GlobHelper → Outcome GlobHelper)
    (hr : GlobHelper.Post fs Q g r)
    (hk : ∀ a, GlobHelper.Post fs Q (g.emit a) (k (g.emit a))) :
    GlobHelper.Post fs Q g (r.andThen k) := by
  cases r with
  | ok g1 =>
    obtain ⟨a, rfl, ha⟩ := hr
    rw [Outcome.andThen_ok]
    have h2 := hk a
    cases hk2 : k (g.emit a) with
    | ok g2 =>
      rw [hk2] at h2
      obtain ⟨b, rfl, hb⟩ := h2
      refine ⟨a ++ b, by simp, ?_⟩
      intro p hp
      rcases List.mem_append.mp hp with h | h
      · exact ha p h
      · simpa using hb p h
    | thrown g2 =>
      rw [hk2] at h2
      obtain ⟨b, hb1, hb⟩ := h2
      refine ⟨a ++ b, by simp [hb1], ?_⟩
      intro p hp
      rcases List.mem_append.mp hp with h | h
      · exact ha p h
      · simpa using hb p h
    | outOfFuel => trivial
  | thrown g1 => exact hr
  | outOfFuel => trivial

/-- Backtracking: a call made with a segment appended to the path buffer,
followed by `_curPath.resize(oldSize)`. -/
theorem GlobHelper.Post_append_resize (fs : FileSys) (Q : Str → Prop) (g : GlobHelper) (e : Str)
    (r : Outcome GlobHelper) (hr : GlobHelper.Post fs Q (g.append e) r) :
    GlobHelper.Post fs Q g (r.andThen fun g2 => Outcome.ok (g2.resize g._curPath.length)) := by
  cases r with
  | ok g1 =>
    obtain ⟨a, rfl, ha⟩ := hr
    rw [Outcome.andThen_ok]
    exact ⟨a, GlobHelper.append_emit_resize g e a, fun p hp => by simpa using ha p hp⟩
  | thrown g1 =>
    obtain ⟨a, h1, ha⟩ := hr
    exact ⟨a, by simpa using h1, fun p hp => by simpa using ha p hp⟩
  | outOfFuel => trivial

theorem GlobHelper.Post_resize (fs : FileSys) (Q : Str → Prop) (g : GlobHelper)
    (r : Outcome GlobHelper) (hr : GlobHelper.Post fs Q g r) :
    GlobHelper.Post fs Q g (r.andThen fun g2 => Outcome.ok (g2.resize g._curPath.length)) := by
  cases r with
  | ok g1 =>
    obtain ⟨a, rfl, ha⟩ := hr
    rw [Outcome.andThen_ok]
    exact ⟨a, GlobHelper.emit_resize g a, ha⟩
  | thrown g1 => exact hr
  | outOfFuel => trivial

/-- The loop over the entries of a directory: the body runs only on names that
are not skipped, each time on the state the previous round returned. -/
theorem GlobHelper.Post_whileGetEntry (fs : FileSys) (Q : Str → Prop)
    (body : Str → GlobHelper → Outcome GlobHelper) (readFails : Bool) (g : GlobHelper)
    (hbody : ∀ e a, Dir.skipped g._needHidden e = false →
      GlobHelper.Post fs Q (g.emit a) (body e (g.emit a))) :
    ∀ (names : List Str) (a : List Str),
      GlobHelper.Post fs Q (g.emit a) (GlobHelper.whileGetEntry body readFails names (g.emit a)) := by
  intro names
  induction names with
  | nil =>
    intro a
    rw [GlobHelper.whileGetEntry_nil]
    cases readFails
    · exact GlobHelper.Post_ok_self fs Q _
    · exact GlobHelper.Post_thrown_self fs Q _
  | cons f rest ih =>
    intro a
    rw [GlobHelper.whileGetEntry_cons]
    by_cases hs : Dir.skipped g._needHidden f = true
    · simp only [GlobHelper.emit_needHidden, hs, if_true]
      exact ih a
    · simp only [GlobHelper.emit_needHidden, hs, if_false, Bool.false_eq_true]
      apply GlobHelper.Post_andThen fs Q _ _ _ (hbody f a (by simpa using hs))
      intro b
      rw [GlobHelper.emit_emit]
      exact ih (a ++ b)

theorem GlobHelper.Post_appendIfWanted (fs : FileSys) (Q : Str → Prop) (g : GlobHelper)
    (hq : Q g._curPath) :
    GlobHelper.Post fs Q g (Outcome.ok (GlobHelper.appendIfWanted fs g)) := by
  unfold GlobHelper.appendIfWanted
  by_cases hc : ((g._needFile && fs.fileExists g._curPath) || (g._needDir && fs.dirExists g._curPath)) = true
  · rw [if_pos hc]
    refine ⟨[g._curPath], rfl, ?_⟩
    intro p hp
    rw [List.mem_singleton] at hp
    subst hp
    refine ⟨hq, ?_⟩
    simpa [GlobHelper.wanted] using hc
  · rw [if_neg hc]
    exact GlobHelper.Post_ok_self fs Q g

/-- The loop body on one entry that is not skipped, given the guarantee for the
calls it makes. -/
theorem GlobHelper.entryBody_post_of (fs : FileSys) (Q G : Str → Prop) (nh : Bool) (n : Nat)
    (hQ : ∀ c e, Q c → G e → Q (c ++ '/' :: e))
    (ih : GlobHelper.PostAt fs Q G nh n) (name remain : Str)
    (hl : ¬ StrView.indexOfAnyCharIn name ['*', '?'] < 0)
    (hrem : ∀ seg ∈ StrView.segments remain,
      StrView.indexOfAnyCharIn seg ['*', '?'] < 0 → seg ≠ [] → G seg)
    (e : Str) (he : G e) (g : GlobHelper) (hnh : g._needHidden = nh) (hq : Q g._curPath) :
    GlobHelper.Post fs Q g (GlobHelper.entryBody fs n name remain e g) := by
  unfold GlobHelper.entryBody
  by_cases hs : name = ['*', '*']
  · rw [if_pos hs]
    apply GlobHelper.Post_append_resize
    exact ih _ _ _ hnh (hQ _ _ hq he) (fun hw => absurd hw hl) hrem
  · rw [if_neg hs]
    by_cases hm : GlobHelper.matchWildcard e name = true
    · rw [if_pos hm]
      exact ih _ _ _ hnh hq (fun _ _ => he) hrem
    · rw [if_neg hm]
      exact GlobHelper.Post_ok_self fs Q _

/-- The directory part of the wildcard branch, given the guarantee for the
calls it makes. -/
theorem GlobHelper.expand_post_of (fs : FileSys) (Q G : Str → Prop) (nh : Bool) (n : Nat)
    (hQ : ∀ c e, Q c → G e → Q (c ++ '/' :: e))
    (hG : ∀ e, Dir.skipped nh e = false → G e)
    (ih : GlobHelper.PostAt fs Q G nh n) (name remain : Str)
    (hl : ¬ StrView.indexOfAnyCharIn name ['*', '?'] < 0)
    (hrem : ∀ seg ∈ StrView.segments remain,
      StrView.indexOfAnyCharIn seg ['*', '?'] < 0 → seg ≠ [] → G seg)
    (g : GlobHelper) (hnh : g._needHidden = nh) (hq : Q g._curPath) :
    GlobHelper.Post fs Q g (GlobHelper.expand fs n name remain g) := by
  unfold GlobHelper.expand
  by_cases hd : (!fs.dirExists g._curPath) = true
  · rw [if_pos hd]
    exact GlobHelper.Post_ok_self fs Q _
  · rw [if_neg hd]
    cases ho : fs.opendir g._curPath with
    | none => exact GlobHelper.Post_ok_self fs Q _
    | some dir =>
      have hloop := GlobHelper.Post_whileGetEntry fs Q
        (GlobHelper.entryBody fs n name remain) dir.readFails g ?_ dir.names []
      · simpa using hloop
      · intro e b hsk
        rw [hnh] at hsk
        exact GlobHelper.entryBody_post_of fs Q G nh n hQ ih name remain hl hrem e (hG e hsk)
          _ (by simpa using hnh) (by simpa using hq)

/-- The invariant of the walk. `Q` is a property of the path buffer that holds on
entry and survives the appending of a segment with property `G`; `G` holds of
the pattern's own wildcard-free segments and of every directory entry the loop
does not skip. Then every path the walk appends to the result has property `Q`
and passed the terminal test, and a normal return changes nothing but the
result. -/
theorem GlobHelper._step2_post (fs : FileSys) (Q G : Str → Prop) (nh : Bool)
    (hQ : ∀ c e, Q c → G e → Q (c ++ '/' :: e))
    (hG : ∀ e, Dir.skipped nh e = false → G e) :
    ∀ (fuel : Nat), GlobHelper.PostAt fs Q G nh fuel := by
  intro fuel
  induction fuel with
  | zero => intro name remain g _ _ _ _; trivial
  | succ n ih =>
    intro name remain g hnh hq hname hrem
    have ihstep : ∀ (g1 : GlobHelper), g1._needHidden = nh → Q g1._curPath →
        GlobHelper.Post fs Q g1 (GlobHelper._step fs n remain g1) := by
      intro g1 h1 h2
      unfold GlobHelper._step
      apply ih _ _ g1 h1 h2
      · intro hw hne
        exact hrem _ (StrView.splitByChar_fst_mem_segments remain) hw hne
      · intro seg hseg hw hne
        rcases StrView.mem_segments_of_splitByChar_snd remain seg hseg with h | h
        · exact hrem seg h hw hne
        · exact absurd h hne
    by_cases hl : StrView.indexOfAnyCharIn name ['*', '?'] < 0
    · rw [GlobHelper._step2_literal fs _ _ _ _ hl]
      by_cases hn : name = []
      · have hp : g.push name = g := by simp [GlobHelper.push, hn]
        rw [hp]
        apply GlobHelper.Post_resize
        by_cases hr : remain = []
        · rw [if_pos hr]
          exact GlobHelper.Post_appendIfWanted fs Q g hq
        · rw [if_neg hr]
          exact ihstep g hnh hq
      · have hp : g.push name = g.append name := by simp [GlobHelper.push, hn]
        rw [hp]
        apply GlobHelper.Post_append_resize
        have hq1 : Q (g.append name)._curPath := hQ _ _ hq (hname hl hn)
        by_cases hr : remain = []
        · rw [if_pos hr]
          exact GlobHelper.Post_appendIfWanted fs Q _ hq1
        · rw [if_neg hr]
          exact ihstep _ hnh hq1
    · rw [GlobHelper._step2_wildcard fs _ _ _ _ hl]
      apply GlobHelper.Post_andThen
      · by_cases hs : name = ['*', '*']
        · rw [if_pos hs]
          exact ihstep g hnh hq
        · rw [if_neg hs]
          exact GlobHelper.Post_ok_self fs Q g
      · intro a
        exact GlobHelper.expand_post_of fs Q G nh n hQ hG ih name remain hl hrem _
          (by simpa using hnh) (by simpa using hq)

/-- Every call of the walker that returns normally leaves the state it started
in with some paths appended to the result, and a call that ends with a raised
`Error` has only appended paths to the result. -/
theorem GlobHelper._step2_post_true (fs : FileSys) (fuel : Nat) (name remain : Str)
    (g : GlobHelper) :
    GlobHelper.Post fs (fun _ => True) g (GlobHelper._step2 fs fuel name remain g) :=
  GlobHelper._step2_post fs (fun _ => True) (fun _ => True) g._needHidden
    (fun _ _ _ _ => trivial) (fun _ _ => trivial) fuel name remain g rfl trivial
    (fun _ _ => trivial) (fun _ _ _ _ => trivial)

theorem GlobHelper.entryBody_post_true (fs : FileSys) (fuel : Nat) (name remain : Str)
    (hl : ¬ StrView.indexOfAnyCharIn name ['*', '?'] < 0) (e : Str) (g : GlobHelper) :
    GlobHelper.Post fs (fun _ => True) g (GlobHelper.entryBody fs fuel name remain e g) :=
  GlobHelper.entryBody_post_of fs (fun _ => True) (fun _ => True) g._needHidden fuel
    (fun _ _ _ _ => trivial)
    (GlobHelper._step2_post fs (fun _ => True) (fun _ => True) g._needHidden
      (fun _ _ _ _ => trivial) (fun _ _ => trivial) fuel)
    name remain hl (fun _ _ _ _ => trivial) e trivial g rfl trivial

theorem GlobHelper.expand_post_true (fs : FileSys) (fuel : Nat) (name remain : Str)
    (hl : ¬ StrView.indexOfAnyCharIn name ['*', '?'] < 0) (g : GlobHelper) :
    GlobHelper.Post fs (fun _ => True) g (GlobHelper.expand fs fuel name remain g) :=
  GlobHelper.expand_post_of fs (fun _ => True) (fun _ => True) g._needHidden fuel
    (fun _ _ _ _ => trivial) (fun _ _ => trivial)
    (GlobHelper._step2_post fs (fun _ => True) (fun _ => True) g._needHidden
      (fun _ _ _ _ => trivial) (fun _ _ => trivial) fuel)
    name remain hl (fun _ _ _ _ => trivial) g rfl trivial

/-- A loop that returns normally ran its body, with a normal return, on every
entry it does not skip, and what the body had collected by then is in the
final result. -/
theorem GlobHelper.whileGetEntry_ok_mem (fs : FileSys)
    (body : Str → GlobHelper → Outcome GlobHelper) (readFails : Bool) (g : GlobHelper)
    (hbody : ∀ e a, GlobHelper.Post fs (fun _ => True) (g.emit a) (body e (g.emit a))) :
    ∀ (names : List Str) (a : List Str) (g2 : GlobHelper),
      GlobHelper.whileGetEntry body readFails names (g.emit a) = Outcome.ok g2 →
      ∀ e ∈ names, Dir.skipped g._needHidden e = false →
        ∃ b gi, body e (g.emit b) = Outcome.ok gi ∧ ∀ p ∈ gi._out_paths, p ∈ g2._out_paths := by
  intro names
  induction names with
  | nil => intro a g2 _ e he; exact absurd he (List.not_mem_nil e)
  | cons f rest ih =>
    intro a g2 hrun e he hsk
    rw [GlobHelper.whileGetEntry_cons] at hrun
    by_cases hs : Dir.skipped g._needHidden f = true
    · simp only [GlobHelper.emit_needHidden, hs, if_true] at hrun
      rcases List.mem_cons.mp he with rfl | he2
      · rw [hs] at hsk
        exact absurd hsk (by decide)
      · exact ih a g2 hrun e he2 hsk
    · simp only [GlobHelper.emit_needHidden, hs, if_false, Bool.false_eq_true] at hrun
      have hp := hbody f a
      cases hb : body f (g.emit a) with
      | ok g1 =>
        rw [hb] at hp hrun
        obtain ⟨b1, rfl, -⟩ := hp
        rw [Outcome.andThen_ok, GlobHelper.emit_emit] at hrun
        rcases List.mem_cons.mp he with rfl | he2
        · refine ⟨a, _, hb, ?_⟩
          have hl := GlobHelper.Post_whileGetEntry fs (fun _ => True) body readFails g
            (fun e2 a2 _ => hbody e2 a2) rest (a ++ b1)
          rw [hrun] at hl
          obtain ⟨c, rfl, -⟩ := hl
          intro p hp2
          simp only [GlobHelper.emit_emit, GlobHelper.emit_out_paths, List.mem_append] at hp2 ⊢
          tauto
        · exact ih (a ++ b1) g2 hrun e he2 hsk
      | thrown g1 =>
        rw [hb] at hrun
        exact absurd hrun (by simp [Outcome.andThen])
      | outOfFuel =>
        rw [hb] at hrun
        exact absurd hrun (by simp [Outcome.andThen])

/-! ## Theorems: the walk does not read the result vector -/

theorem Outcome.map_andThen {σ : Type} (F : σ → σ) (r : Outcome σ) (k k2 : σ → Outcome σ)
    (h : ∀ s, k (F s) = (k2 s).map F) :
    (r.map F).andThen k = (r.andThen k2).map F := by
  cases r with
  | ok s => exact h s
  | thrown s => rfl
  | outOfFuel => rfl

@[simp] theorem GlobHelper.pre_curPath (o : List Str) (g : GlobHelper) :
    (g.pre o)._curPath = g._curPath := rfl

@[simp] theorem GlobHelper.pre_needHidden (o : List Str) (g : GlobHelper) :
    (g.pre o)._needHidden = g._needHidden := rfl

@[simp] theorem GlobHelper.pre_out_paths (o : List Str) (g : GlobHelper) :
    (g.pre o)._out_paths = o ++ g._out_paths := rfl

theorem GlobHelper.pre_append (o : List Str) (g : GlobHelper) (e : Str) :
    (g.pre o).append e = (g.append e).pre o := rfl

theorem GlobHelper.pre_push (o : List Str) (g : GlobHelper) (e : Str) :
    (g.pre o).push e = (g.push e).pre o := by
  unfold GlobHelper.push
  split_ifs <;> rfl

theorem GlobHelper.pre_resize (o : List Str) (g : GlobHelper) (n : Nat) :
    (g.pre o).resize n = (g.resize n).pre o := rfl

theorem GlobHelper.pre_appendIfWanted (fs : FileSys) (o : List Str) (g : GlobHelper) :
    GlobHelper.appendIfWanted fs (g.pre o) = (GlobHelper.appendIfWanted fs g).pre o := by
  unfold GlobHelper.appendIfWanted
  by_cases hc : ((g._needFile && fs.fileExists g._curPath) ||
      (g._needDir && fs.dirExists g._curPath)) = true
  · have hc2 : (((g.pre o)._needFile && fs.fileExists (g.pre o)._curPath) ||
        ((g.pre o)._needDir && fs.dirExists (g.pre o)._curPath)) = true := hc
    rw [if_pos hc, if_pos hc2]
    simp [GlobHelper.pre, List.append_assoc]
  · have hc2 : ¬ (((g.pre o)._needFile && fs.fileExists (g.pre o)._curPath) ||
        ((g.pre o)._needDir && fs.dirExists (g.pre o)._curPath)) = true := hc
    rw [if_neg hc, if_neg hc2]

theorem GlobHelper.whileGetEntry_pre (body : Str → GlobHelper → Outcome GlobHelper)
    (readFails : Bool) (o : List Str)
    (hbody : ∀ e g, body e (g.pre o) = (body e g).map (GlobHelper.pre o)) :
    ∀ (names : List Str) (g : GlobHelper),
      GlobHelper.whileGetEntry body readFails names (g.pre o) =
        (GlobHelper.whileGetEntry body readFails names g).map (GlobHelper.pre o) := by
  intro names
  induction names with
  | nil =>
    intro g
    rw [GlobHelper.whileGetEntry_nil, GlobHelper.whileGetEntry_nil]
    cases readFails <;> rfl
  | cons f rest ih =>
    intro g
    rw [GlobHelper.whileGetEntry_cons, GlobHelper.whileGetEntry_cons]
    by_cases hs : Dir.skipped g._needHidden f = true
    · simp only [GlobHelper.pre_needHidden, hs, if_true]
      exact ih g
    · simp only [GlobHelper.pre_needHidden, hs, if_false, Bool.false_eq_true]
      rw [hbody]
      exact Outcome.map_andThen _ _ _ _ ih

/-- The walk never reads `_out_paths`: started with more paths in the result,
it ends the same way with those paths in front. -/
theorem GlobHelper._step2_pre (fs : FileSys) (o : List Str) :
    ∀ (fuel : Nat) (name remain : Str) (g : GlobHelper),
      GlobHelper._step2 fs fuel name remain (g.pre o) =
        (GlobHelper._step2 fs fuel name remain g).map (GlobHelper.pre o) := by
  intro fuel
  induction fuel with
  | zero => intro name remain g; rfl
  | succ n ih =>
    intro name remain g
    have ihstep : ∀ (g1 : GlobHelper), GlobHelper._step fs n remain (g1.pre o) =
        (GlobHelper._step fs n remain g1).map (GlobHelper.pre o) := fun g1 => ih _ _ g1
    by_cases hl : StrView.indexOfAnyCharIn name ['*', '?'] < 0
    · rw [GlobHelper._step2_literal fs _ _ _ _ hl, GlobHelper._step2_literal fs _ _ _ _ hl]
      have h1 : (if remain = [] then
            Outcome.ok (GlobHelper.appendIfWanted fs ((g.pre o).push name))
          else GlobHelper._step fs n remain ((g.pre o).push name)) =
          (if remain = [] then Outcome.ok (GlobHelper.appendIfWanted fs (g.push name))
            else GlobHelper._step fs n remain (g.push name)).map (GlobHelper.pre o) := by
        rw [GlobHelper.pre_push]
        by_cases hr : remain = []
        · rw [if_pos hr, if_pos hr, GlobHelper.pre_appendIfWanted]
          rfl
        · rw [if_neg hr, if_neg hr]
          exact ihstep _
      rw [h1]
      apply Outcome.map_andThen
      intro s
      rfl
    · rw [GlobHelper._step2_wildcard fs _ _ _ _ hl, GlobHelper._step2_wildcard fs _ _ _ _ hl]
      have h1 : (if name = ['*', '*'] then GlobHelper._step fs n remain (g.pre o)
            else Outcome.ok (g.pre o)) =
          (if name = ['*', '*'] then GlobHelper._step fs n remain g
            else Outcome.ok g).map (GlobHelper.pre o) := by
        by_cases hs : name = ['*', '*']
        · rw [if_pos hs, if_pos hs]
          exact ihstep _
        · rw [if_neg hs, if_neg hs]
          rfl
      rw [h1]
      apply Outcome.map_andThen
      intro s
      unfold GlobHelper.expand
      simp only [GlobHelper.pre_curPath]
      by_cases hd : (!fs.dirExists s._curPath) = true
      · rw [if_pos hd, if_pos hd]
        rfl
      · rw [if_neg hd, if_neg hd]
        cases fs.opendir s._curPath with
        | none => rfl
        | some dir =>
          simp only
          apply GlobHelper.whileGetEntry_pre
          intro e gi
          unfold GlobHelper.entryBody
          by_cases hs : name = ['*', '*']
          · rw [if_pos hs, if_pos hs, GlobHelper.pre_append, ih]
            apply Outcome.map_andThen
            intro s2
            rfl
          · rw [if_neg hs, if_neg hs]
            by_cases hm : GlobHelper.matchWildcard e name = true
            · rw [if_pos hm, if_pos hm]
              exact ih _ _ _
            · rw [if_neg hm, if_neg hm]
              rfl

/-! ## Theorems: from the walk to `Glob::search` -/

theorem GlobHelper.search_eq (fs : FileSys) (fuel : Nat) (out_paths : List Str) (path : Str)
    (needDir needFile needHidden : Bool) :
    GlobHelper.search fs fuel out_paths path needDir needFile needHidden =
      GlobHelper._step fs fuel (GlobHelper.remain fs path)
        (GlobHelper.initial fs out_paths path needDir needFile needHidden) := rfl

theorem Glob.search_wildcard_eq (fs : FileSys) (fuel : Nat) (out_paths : List Str) (path : Str)
    (needDir needFile needHidden : Bool)
    (hw : ¬ StrView.indexOfAnyCharIn path ['*', '?'] < 0) :
    Glob.search fs fuel out_paths path needDir needFile needHidden =
      match GlobHelper._step fs fuel (GlobHelper.remain fs path)
          (GlobHelper.initial fs [] path needDir needFile needHidden) with
      | Outcome.ok g => Outcome.ok g._out_paths
      | Outcome.thrown g => Outcome.thrown g._out_paths
      | Outcome.outOfFuel => Outcome.outOfFuel := by
  unfold Glob.search
  simp only [hw, if_false]
  rfl

/-- Every path that `Glob::search` returns for a pattern with a wildcard
character was appended by the walk: it has every property `Q` that holds of the
anchor and survives the appending of a wildcard-free pattern segment or of a
directory entry the loop does not skip, and it passed the terminal test. -/
theorem Glob.search_paths_post (fs : FileSys) (Q G : Str → Prop) (fuel : Nat)
    (out_paths : List Str) (path : Str) (needDir needFile needHidden : Bool)
    (hQ : ∀ c e, Q c → G e → Q (c ++ '/' :: e))
    (hG : ∀ e, Dir.skipped needHidden e = false → G e)
    (hw : ¬ StrView.indexOfAnyCharIn path ['*', '?'] < 0)
    (hstart : Q (GlobHelper.start fs path))
    (hrem : ∀ seg ∈ StrView.segments (GlobHelper.remain fs path),
      StrView.indexOfAnyCharIn seg ['*', '?'] < 0 → seg ≠ [] → G seg) :
    ∀ p ∈ (Glob.search fs fuel out_paths path needDir needFile needHidden).paths,
      Q p ∧ ((needFile = true ∧ fs.fileExists p = true) ∨
        (needDir = true ∧ fs.dirExists p = true)) := by
  rw [Glob.search_wildcard_eq fs fuel out_paths path needDir needFile needHidden hw]
  have hpost : GlobHelper.Post fs Q (GlobHelper.initial fs [] path needDir needFile needHidden)
      (GlobHelper._step fs fuel (GlobHelper.remain fs path)
        (GlobHelper.initial fs [] path needDir needFile needHidden)) := by
    unfold GlobHelper._step
    apply GlobHelper._step2_post fs Q G needHidden hQ hG _ _ _ _ rfl hstart
    · intro h1 h2
      exact hrem _ (StrView.splitByChar_fst_mem_segments _) h1 h2
    · intro seg hseg h1 h2
      rcases StrView.mem_segments_of_splitByChar_snd _ seg hseg with h | h
      · exact hrem seg h h1 h2
      · exact absurd h h2
  cases hr : GlobHelper._step fs fuel (GlobHelper.remain fs path)
      (GlobHelper.initial fs [] path needDir needFile needHidden) with
  | ok g =>
    rw [hr] at hpost
    obtain ⟨a, rfl, ha⟩ := hpost
    intro p hp
    exact ha p (by simpa [Outcome.paths, GlobHelper.initial] using hp)
  | thrown g =>
    rw [hr] at hpost
    obtain ⟨a, h1, ha⟩ := hpost
    intro p hp
    exact ha p (by simpa [Outcome.paths, GlobHelper.initial, h1] using hp)
  | outOfFuel =>
    intro p hp
    simp [Outcome.paths] at hp

/-! ## Theorems: the no-wildcard fast path -/

/-- C1: for a pattern that contains neither `*` nor `?` (the empty pattern and a
pattern of `/` separators included), `Glob::search` returns normally and leaves
`out_paths` equal to the one-element sequence made of the pattern, unchanged,
for every filter setting, every file system, every recursion budget and every
previous content of `out_paths`; the result being the same for every file
system, no answer of the file system enters it. -/
theorem Glob.search_no_wildcard (fs : FileSys) (fuel : Nat) (out_paths : List Str) (path : Str)
    (needDir needFile needHidden : Bool) (hstar : '*' ∉ path) (hq : '?' ∉ path) :
    Glob.search fs fuel out_paths path needDir needFile needHidden = Outcome.ok [path] := by
  have h : StrView.indexOfAnyCharIn path ['*', '?'] < 0 :=
    (StrView.indexOfAnyCharIn_wildcard_neg_iff path).mpr ⟨hstar, hq⟩
  simp [Glob.search, h]

/-- Witness of C1: the empty pattern and the pattern `//`, on a file system where
neither exists, with a non-empty `out_paths` on entry and no recursion budget. -/
theorem Glob.search_no_wildcard_witness :
    ('*' ∉ ([] : Str) ∧ '?' ∉ ([] : Str)) ∧
    Glob.search treeFS 0 ["old".toList] [] true true false = Outcome.ok [[]] ∧
    Glob.search treeFS 0 ["old".toList] "//".toList false false true = Outcome.ok ["//".toList] :=
  ⟨⟨by decide, by decide⟩,
   Glob.search_no_wildcard treeFS 0 _ [] true true false (by decide) (by decide),
   Glob.search_no_wildcard treeFS 0 _ "//".toList false false true (by decide) (by decide)⟩

/-! ## Theorems: `matchWildcard` -/

theorem GlobHelper.matchWildcard_nil_right (s : Str) : GlobHelper.matchWildcard s [] = true := by
  cases s <;> rfl

/-- C2: `matchWildcard` is not the reference glob semantics. It accepts the entry
`main.cppx` for the segment `*.cpp` and the entry `ab` for the segment `?`, which
the reference semantics rejects, and it rejects the entry `ab` for the segment
`a*b`, which the reference semantics accepts. -/
theorem GlobHelper.matchWildcard_differs_from_globMatches :
    (GlobHelper.matchWildcard "main.cppx".toList "*.cpp".toList = true ∧
      globMatches "main.cppx".toList "*.cpp".toList = false) ∧
    (GlobHelper.matchWildcard "ab".toList "?".toList = true ∧
      globMatches "ab".toList "?".toList = false) ∧
    (GlobHelper.matchWildcard "ab".toList "a*b".toList = false ∧
      globMatches "ab".toList "a*b".toList = true) := by
  decide

/-- C4: `matchWildcard(s, "?")` is `true` for every entry name `s`, whatever its
length: for `a`, and also for the empty name and for `ab`. -/
theorem GlobHelper.matchWildcard_question_any_length (s : Str) :
    GlobHelper.matchWildcard s ['?'] = true := by
  cases s with
  | nil => rfl
  | cons c t => simp [GlobHelper.matchWildcard, GlobHelper.matchWildcard_nil_right]

/-- C5: `matchWildcard("a" ++ u ++ "b", "a*b")` is `false` for the empty `u`
(entry `ab`): the `*` branch returns `false` when no second character is left
in the entry. For `axxb` it is `true`, and `matchWildcard("ab", "a*c")` is
`false`. -/
theorem GlobHelper.matchWildcard_star_needs_one_char :
    GlobHelper.matchWildcard ("a".toList ++ [] ++ "b".toList) "a*b".toList = false ∧
    GlobHelper.matchWildcard "axxb".toList "a*b".toList = true ∧
    GlobHelper.matchWildcard "ab".toList "a*c".toList = false := by
  decide

/-- C6: `matchWildcard(s, "*")` is `true` for every entry name `s`, the empty
name and names that contain `*` or `?` included. -/
theorem GlobHelper.matchWildcard_star_all (s : Str) :
    GlobHelper.matchWildcard s ['*'] = true := by
  cases s with
  | nil => rfl
  | cons c t => simp [GlobHelper.matchWildcard, GlobHelper.matchWildcard_nil_right]

/-! ## Theorems: the depth of `**` -/

theorem GlobHelper.doubleStar_has_wildcard :
    ¬ StrView.indexOfAnyCharIn ['*', '*'] ['*', '?'] < 0 := by decide

theorem GlobHelper.pre_fresh_self (g : GlobHelper) :
    (g.fresh g._curPath).pre g._out_paths = g := by
  cases g
  simp [GlobHelper.fresh, GlobHelper.pre]

theorem GlobHelper.pre_fresh_emit_append (g : GlobHelper) (d : Str) (o b : List Str) (e : Str) :
    ((((g.fresh d).pre o).emit b).append e) = (g.fresh (d ++ '/' :: e)).pre (o ++ b) := by
  simp [GlobHelper.fresh, GlobHelper.pre, GlobHelper.emit, GlobHelper.append]

/-- One visit of the segment `**` that returns normally: the zero-match walk of
`remain` from the current buffer returned normally and its paths are in the
result, and for every entry of the current directory that is not skipped the
visit of `**` one level down returned normally and its paths are in the
result. -/
theorem GlobHelper._step2_doubleStar_inv (fs : FileSys) (n : Nat) (remain : Str)
    (g g2 : GlobHelper)
    (h : GlobHelper._step2 fs (n + 1) ['*', '*'] remain g = Outcome.ok g2) :
    (∃ a0, GlobHelper._step fs n remain g = Outcome.ok (g.emit a0) ∧
      ∀ p ∈ (g.emit a0)._out_paths, p ∈ g2._out_paths) ∧
    (∀ dir e, fs.dirExists g._curPath = true → fs.opendir g._curPath = some dir →
      e ∈ dir.names → Dir.skipped g._needHidden e = false →
      ∃ b gk, GlobHelper._step2 fs n ['*', '*'] remain ((g.emit b).append e) = Outcome.ok gk ∧
        ∀ p ∈ gk._out_paths, p ∈ g2._out_paths) := by
  rw [GlobHelper._step2_wildcard fs _ _ _ _ GlobHelper.doubleStar_has_wildcard, if_pos rfl] at h
  have hp := GlobHelper._step2_post_true fs n (StrView.splitByChar remain '/').1
    (StrView.splitByChar remain '/').2 g
  change GlobHelper.Post fs (fun _ => True) g (GlobHelper._step fs n remain g) at hp
  cases hs : GlobHelper._step fs n remain g with
  | ok g0 =>
    rw [hs] at hp h
    obtain ⟨a0, rfl, -⟩ := hp
    rw [Outcome.andThen_ok] at h
    have hpe := GlobHelper.expand_post_true fs n ['*', '*'] remain
      GlobHelper.doubleStar_has_wildcard (g.emit a0)
    rw [h] at hpe
    obtain ⟨a1, rfl, -⟩ := hpe
    refine ⟨⟨a0, rfl, ?_⟩, ?_⟩
    · intro p hp2
      simp only [GlobHelper.emit_emit, GlobHelper.emit_out_paths, List.mem_append] at hp2 ⊢
      tauto
    · intro dir e hd ho he hsk
      unfold GlobHelper.expand at h
      have hd2 : ¬ (!fs.dirExists (g.emit a0)._curPath) = true := by simp [hd]
      rw [if_neg hd2] at h
      have ho2 : fs.opendir (g.emit a0)._curPath = some dir := ho
      rw [ho2] at h
      simp only at h
      obtain ⟨b, gi, hb, hsub⟩ := GlobHelper.whileGetEntry_ok_mem fs
        (GlobHelper.entryBody fs n ['*', '*'] remain) dir.readFails g
        (fun e2 a2 => GlobHelper.entryBody_post_true fs n ['*', '*'] remain
          GlobHelper.doubleStar_has_wildcard e2 (g.emit a2))
        dir.names a0 _ h e he hsk
      unfold GlobHelper.entryBody at hb
      rw [if_pos rfl] at hb
      cases hk : GlobHelper._step2 fs n ['*', '*'] remain ((g.emit b).append e) with
      | ok gk =>
        rw [hk, Outcome.andThen_ok] at hb
        refine ⟨b, gk, hk, ?_⟩
        intro p hp2
        apply hsub
        have : gi = gk.resize (g.emit b)._curPath.length := by
          injection hb with hb2
          exact hb2.symm
        rw [this]
        exact hp2
      | thrown gk =>
        rw [hk] at hb
        exact absurd hb (by simp [Outcome.andThen])
      | outOfFuel =>
        rw [hk] at hb
        exact absurd hb (by simp [Outcome.andThen])
  | thrown g0 =>
    rw [hs] at h
    exact absurd h (by simp [Outcome.andThen])
  | outOfFuel =>
    rw [hs] at h
    exact absurd h (by simp [Outcome.andThen])

/-- The visit of `**` reaches every path that descends from the buffer it
started at. -/
theorem GlobHelper.doubleStar_visits (fs : FileSys) (fuel : Nat) (remain : Str)
    (g g2 : GlobHelper)
    (hrun : GlobHelper._step2 fs fuel ['*', '*'] remain g = Outcome.ok g2)
    (d : Str) (hd : GlobHelper.Descends fs g._needHidden g._curPath d) :
    ∃ f o gd2, f ≤ fuel ∧
      GlobHelper._step2 fs f ['*', '*'] remain ((g.fresh d).pre o) = Outcome.ok gd2 ∧
      ∀ p ∈ gd2._out_paths, p ∈ g2._out_paths := by
  induction hd with
  | here =>
    refine ⟨fuel, g._out_paths, g2, le_refl _, ?_, fun p hp => hp⟩
    rw [GlobHelper.pre_fresh_self]
    exact hrun
  | entry d dir e _ hdir hopen he hsk ih =>
    obtain ⟨f, o, gd2, hf, hrun2, hsub⟩ := ih
    cases f with
    | zero => exact absurd hrun2 (by simp [GlobHelper._step2])
    | succ n =>
      obtain ⟨b, gk, hk, hsub2⟩ := (GlobHelper._step2_doubleStar_inv fs n remain _ _ hrun2).2
        dir e hdir hopen he hsk
      rw [GlobHelper.pre_fresh_emit_append] at hk
      exact ⟨n, o ++ b, gk, by omega, hk, fun p hp => hsub p (hsub2 p hp)⟩

/-- A visit of `**` with remaining pattern `remain` that returns normally with
state `g2`: for every path `d` that descends from its buffer, the walk of
`remain` from `d` returns normally and every path it produces is in the result
of `g2`. -/
theorem GlobHelper.doubleStar_depth_of_ok (fs : FileSys) (fuel : Nat) (remain : Str)
    (g g2 : GlobHelper)
    (hrun : GlobHelper._step2 fs fuel ['*', '*'] remain g = Outcome.ok g2)
    (d : Str) (hd : GlobHelper.Descends fs g._needHidden g._curPath d) :
    ∃ gd, GlobHelper._step fs fuel remain (g.fresh d) = Outcome.ok gd ∧
      ∀ p ∈ gd._out_paths, p ∈ g2._out_paths := by
  obtain ⟨f, o, gd2, hf, hrun2, hsub⟩ := GlobHelper.doubleStar_visits fs fuel remain g g2 hrun d hd
  cases f with
  | zero => exact absurd hrun2 (by simp [GlobHelper._step2])
  | succ n =>
    obtain ⟨a0, h0, hsub0⟩ := (GlobHelper._step2_doubleStar_inv fs n remain _ _ hrun2).1
    have hpre := GlobHelper._step2_pre fs o n (StrView.splitByChar remain '/').1
      (StrView.splitByChar remain '/').2 (g.fresh d)
    change GlobHelper._step fs n remain ((g.fresh d).pre o) =
      (GlobHelper._step fs n remain (g.fresh d)).map (GlobHelper.pre o) at hpre
    rw [h0] at hpre
    cases hs : GlobHelper._step fs n remain (g.fresh d) with
    | ok gd =>
      rw [hs] at hpre
      have heq : ((g.fresh d).pre o).emit a0 = gd.pre o := by
        injection hpre
      have hout : gd._out_paths = a0 := by
        have h1 := congrArg GlobHelper._out_paths heq
        simp only [GlobHelper.emit_out_paths, GlobHelper.pre_out_paths, GlobHelper.fresh,
          List.append_nil] at h1
        exact (List.append_cancel_left h1).symm
      refine ⟨gd, ?_, ?_⟩
      · rw [GlobHelper._step_mono fs n fuel remain _ (by omega) (by rw [hs]; simp), hs]
      · intro p hp
        apply hsub
        apply hsub0
        rw [hout] at hp
        simp only [GlobHelper.emit_out_paths, List.mem_append]
        right
        exact hp
    | thrown gd =>
      rw [hs] at hpre
      exact absurd hpre (by simp [Outcome.map])
    | outOfFuel =>
      rw [hs] at hpre
      exact absurd hpre (by simp [Outcome.map])

/-! ## Theorems: hidden entries -/

@[simp] theorem GlobHelper.push_needHidden (g : GlobHelper) (e : Str) :
    (g.push e)._needHidden = g._needHidden := by
  unfold GlobHelper.push
  split_ifs <;> rfl

theorem Dir.skipped_of_startsWith_dot (f : Str) (h : StrView.startsWith f ['.'] = true) :
    Dir.skipped false f = true := by
  simp [Dir.skipped, h]

theorem Dir.skipped_false_iff (f : Str) :
    Dir.skipped false f = false ↔ StrView.startsWith f ['.'] = false := by
  constructor
  · intro h
    simp only [Dir.skipped, Bool.not_false, Bool.true_and, Bool.or_eq_false_iff] at h
    exact h.2
  · intro h
    have h1 : f ≠ ['.'] := by
      rintro rfl
      exact absurd h (by decide)
    have h2 : f ≠ ['.', '.'] := by
      rintro rfl
      exact absurd h (by decide)
    simp [Dir.skipped, h, h1, h2]

theorem Dir.skipped_true_iff (f : Str) :
    Dir.skipped true f = false ↔ f ≠ ['.'] ∧ f ≠ ['.', '.'] := by
  simp [Dir.skipped]

/-- With `needHidden` off, the loop runs as if the names that start with `.`
were not in the stream. -/
theorem GlobHelper.whileGetEntry_filter_hidden (fs : FileSys)
    (body body2 : Str → GlobHelper → Outcome GlobHelper) (readFails : Bool) (g : GlobHelper)
    (hnh : g._needHidden = false)
    (hpost : ∀ e a, GlobHelper.Post fs (fun _ => True) (g.emit a) (body e (g.emit a)))
    (heq : ∀ e a, body e (g.emit a) = body2 e (g.emit a)) :
    ∀ (names : List Str) (a : List Str),
      GlobHelper.whileGetEntry body readFails names (g.emit a) =
        GlobHelper.whileGetEntry body2 readFails
          (names.filter fun f => !StrView.startsWith f ['.']) (g.emit a) := by
  intro names
  induction names with
  | nil => intro a; rfl
  | cons f rest ih =>
    intro a
    by_cases hf : StrView.startsWith f ['.'] = true
    · rw [GlobHelper.whileGetEntry_cons]
      simp only [GlobHelper.emit_needHidden, hnh, Dir.skipped_of_startsWith_dot f hf, if_true]
      rw [List.filter_cons_of_neg (by simp [hf])]
      exact ih a
    · have hf2 : StrView.startsWith f ['.'] = false := by simpa using hf
      rw [List.filter_cons_of_pos (by simp [hf2]), GlobHelper.whileGetEntry_cons,
        GlobHelper.whileGetEntry_cons]
      simp only [GlobHelper.emit_needHidden, hnh, (Dir.skipped_false_iff f).mpr hf2,
        if_false, Bool.false_eq_true]
      rw [← heq]
      have hp := hpost f a
      cases hb : body f (g.emit a) with
      | ok g1 =>
        rw [hb] at hp
        obtain ⟨b, rfl, -⟩ := hp
        rw [Outcome.andThen_ok, Outcome.andThen_ok, GlobHelper.emit_emit]
        exact ih (a ++ b)
      | thrown g1 => rfl
      | outOfFuel => rfl

/-- With `needHidden` off, the walk on a file system is the walk on the same
file system without its hidden entries. -/
theorem GlobHelper._step2_withoutHidden (fs : FileSys) :
    ∀ (fuel : Nat) (name remain : Str) (g : GlobHelper), g._needHidden = false →
      GlobHelper._step2 fs fuel name remain g =
        GlobHelper._step2 fs.withoutHidden fuel name remain g := by
  intro fuel
  induction fuel with
  | zero => intro name remain g _; rfl
  | succ n ih =>
    intro name remain g hnh
    have ihstep : ∀ (g1 : GlobHelper), g1._needHidden = false →
        GlobHelper._step fs n remain g1 = GlobHelper._step fs.withoutHidden n remain g1 :=
      fun g1 h1 => ih _ _ g1 h1
    by_cases hl : StrView.indexOfAnyCharIn name ['*', '?'] < 0
    · rw [GlobHelper._step2_literal fs _ _ _ _ hl,
        GlobHelper._step2_literal fs.withoutHidden _ _ _ _ hl,
        ihstep _ (by simpa using hnh)]
      rfl
    · rw [GlobHelper._step2_wildcard fs _ _ _ _ hl,
        GlobHelper._step2_wildcard fs.withoutHidden _ _ _ _ hl]
      have h0 : (if name = ['*', '*'] then GlobHelper._step fs.withoutHidden n remain g
          else Outcome.ok g) =
          (if name = ['*', '*'] then GlobHelper._step fs n remain g else Outcome.ok g) := by
        by_cases hs : name = ['*', '*']
        · rw [if_pos hs, if_pos hs, ihstep g hnh]
        · rw [if_neg hs, if_neg hs]
      rw [h0]
      have hp : GlobHelper.Post fs (fun _ => True) g
          (if name = ['*', '*'] then GlobHelper._step fs n remain g else Outcome.ok g) := by
        by_cases hs : name = ['*', '*']
        · rw [if_pos hs]
          exact GlobHelper._step2_post_true fs n _ _ g
        · rw [if_neg hs]
          exact GlobHelper.Post_ok_self fs _ g
      cases hr : (if name = ['*', '*'] then GlobHelper._step fs n remain g
          else Outcome.ok g) with
      | ok g0 =>
        rw [hr] at hp
        obtain ⟨a0, rfl, -⟩ := hp
        rw [Outcome.andThen_ok, Outcome.andThen_ok]
        unfold GlobHelper.expand
        have hd : fs.withoutHidden.dirExists (g.emit a0)._curPath =
            fs.dirExists (g.emit a0)._curPath := rfl
        rw [hd]
        by_cases hd2 : (!fs.dirExists (g.emit a0)._curPath) = true
        · rw [if_pos hd2, if_pos hd2]
        · rw [if_neg hd2, if_neg hd2]
          have ho : fs.withoutHidden.opendir (g.emit a0)._curPath =
              (fs.opendir (g.emit a0)._curPath).map fun dir =>
                { dir with names := dir.names.filter fun f => !StrView.startsWith f ['.'] } :=
            rfl
          rw [ho]
          cases fs.opendir (g.emit a0)._curPath with
          | none => rfl
          | some dir =>
            simp only [Option.map_some']
            apply GlobHelper.whileGetEntry_filter_hidden fs _ _ _ g hnh
            · intro e a
              exact GlobHelper.entryBody_post_true fs n name remain hl e (g.emit a)
            · intro e a
              unfold GlobHelper.entryBody
              by_cases hs : name = ['*', '*']
              · rw [if_pos hs, if_pos hs, ih _ _ _ (by simpa using hnh)]
              · rw [if_neg hs, if_neg hs]
                by_cases hm : GlobHelper.matchWildcard e name = true
                · rw [if_pos hm, if_pos hm, ih _ _ _ (by simpa using hnh)]
                · rw [if_neg hm, if_neg hm]
      | thrown g0 => rfl
      | outOfFuel => rfl

theorem Path.extend_append_singleton (start : Str) (segs : List Str) (e : Str) :
    Path.extend start (segs ++ [e]) = Path.extend start segs ++ '/' :: e := by
  induction segs generalizing start with
  | nil => rfl
  | cons seg rest ih => exact ih _

/-- A visit of a wildcard segment that returns normally ran the loop body, with
a normal return, on every entry of the current directory that is not skipped,
and what the body had collected by then is in the final result. -/
theorem GlobHelper._step2_wildcard_runs_body (fs : FileSys) (n : Nat) (name remain : Str)
    (g g2 : GlobHelper) (hl : ¬ StrView.indexOfAnyCharIn name ['*', '?'] < 0)
    (h : GlobHelper._step2 fs (n + 1) name remain g = Outcome.ok g2)
    (dir : DirStream) (e : Str) (hd : fs.dirExists g._curPath = true)
    (ho : fs.opendir g._curPath = some dir) (he : e ∈ dir.names)
    (hsk : Dir.skipped g._needHidden e = false) :
    ∃ b gi, GlobHelper.entryBody fs n name remain e (g.emit b) = Outcome.ok gi ∧
      ∀ p ∈ gi._out_paths, p ∈ g2._out_paths := by
  rw [GlobHelper._step2_wildcard fs _ _ _ _ hl] at h
  have hp : GlobHelper.Post fs (fun _ => True) g
      (if name = ['*', '*'] then GlobHelper._step fs n remain g else Outcome.ok g) := by
    by_cases hs : name = ['*', '*']
    · rw [if_pos hs]
      exact GlobHelper._step2_post_true fs n _ _ g
    · rw [if_neg hs]
      exact GlobHelper.Post_ok_self fs _ g
  cases hr : (if name = ['*', '*'] then GlobHelper._step fs n remain g else Outcome.ok g) with
  | ok g0 =>
    rw [hr] at hp h
    obtain ⟨a0, rfl, -⟩ := hp
    rw [Outcome.andThen_ok] at h
    unfold GlobHelper.expand at h
    have hd2 : ¬ (!fs.dirExists (g.emit a0)._curPath) = true := by simp [hd]
    rw [if_neg hd2] at h
    have ho2 : fs.opendir (g.emit a0)._curPath = some dir := ho
    rw [ho2] at h
    simp only at h
    exact GlobHelper.whileGetEntry_ok_mem fs (GlobHelper.entryBody fs n name remain)
      dir.readFails g
      (fun e2 a2 => GlobHelper.entryBody_post_true fs n name remain hl e2 (g.emit a2))
      dir.names a0 _ h e he hsk
  | thrown g0 =>
    rw [hr] at h
    exact absurd h (by simp [Outcome.andThen])
  | outOfFuel =>
    rw [hr] at h
    exact absurd h (by simp [Outcome.andThen])

/-- With `needHidden` off, `Glob::search` on a file system ends exactly as on the
same file system with every name that starts with `.` removed from every
directory stream. -/
theorem Glob.search_eq_withoutHidden (fs : FileSys) (fuel : Nat) (out_paths : List Str)
    (path : Str) (needDir needFile : Bool) :
    Glob.search fs fuel out_paths path needDir needFile false =
      Glob.search fs.withoutHidden fuel out_paths path needDir needFile false := by
  by_cases hw : StrView.indexOfAnyCharIn path ['*', '?'] < 0
  · simp [Glob.search, hw]
  · rw [Glob.search_wildcard_eq fs _ _ _ _ _ _ hw,
      Glob.search_wildcard_eq fs.withoutHidden _ _ _ _ _ _ hw]
    have h := GlobHelper._step2_withoutHidden fs fuel
      (StrView.splitByChar (GlobHelper.remain fs path) '/').1
      (StrView.splitByChar (GlobHelper.remain fs path) '/').2
      (GlobHelper.initial fs [] path needDir needFile false) rfl
    change GlobHelper._step fs fuel (GlobHelper.remain fs path)
        (GlobHelper.initial fs [] path needDir needFile false) =
      GlobHelper._step fs.withoutHidden fuel (GlobHelper.remain fs.withoutHidden path)
        (GlobHelper.initial fs.withoutHidden [] path needDir needFile false) at h
    rw [h]

/-- With `needHidden` on, a visit of a wildcard segment `name` that returns
normally has taken every entry `e` of the current directory other than `.` and
`..`: for `**` the walker has gone down into `e` with the same segment, for
another segment that `e` matches it has made the call `_step2(e, remain)`;
either call returned normally and its paths are in the final result. -/
theorem GlobHelper._step2_takes_entry_of_ok (fs : FileSys) (n : Nat) (name remain : Str)
    (g g2 : GlobHelper) (dir : DirStream) (e : Str)
    (hnh : g._needHidden = true)
    (hl : ¬ StrView.indexOfAnyCharIn name ['*', '?'] < 0)
    (hrun : GlobHelper._step2 fs (n + 1) name remain g = Outcome.ok g2)
    (hd : fs.dirExists g._curPath = true) (ho : fs.opendir g._curPath = some dir)
    (he : e ∈ dir.names) (h1 : e ≠ ['.']) (h2 : e ≠ ['.', '.']) :
    (name = ['*', '*'] →
      ∃ b gk, GlobHelper._step2 fs n ['*', '*'] remain ((g.emit b).append e) = Outcome.ok gk ∧
        ∀ p ∈ gk._out_paths, p ∈ g2._out_paths) ∧
    (name ≠ ['*', '*'] → GlobHelper.matchWildcard e name = true →
      ∃ b gk, GlobHelper._step2 fs n e remain (g.emit b) = Outcome.ok gk ∧
        ∀ p ∈ gk._out_paths, p ∈ g2._out_paths) := by
  have hsk : Dir.skipped g._needHidden e = false := by
    rw [hnh]
    exact (Dir.skipped_true_iff e).mpr ⟨h1, h2⟩
  obtain ⟨b, gi, hb, hsub⟩ := GlobHelper._step2_wildcard_runs_body fs n name remain g g2 hl
    hrun dir e hd ho he hsk
  unfold GlobHelper.entryBody at hb
  constructor
  · intro hs
    subst hs
    rw [if_pos rfl] at hb
    cases hk : GlobHelper._step2 fs n ['*', '*'] remain ((g.emit b).append e) with
    | ok gk =>
      rw [hk, Outcome.andThen_ok] at hb
      refine ⟨b, gk, hk, ?_⟩
      intro p hp
      apply hsub
      have : gi = gk.resize (g.emit b)._curPath.length := by
        injection hb with hb2
        exact hb2.symm
      rw [this]
      exact hp
    | thrown gk =>
      rw [hk] at hb
      exact absurd hb (by simp [Outcome.andThen])
    | outOfFuel =>
      rw [hk] at hb
      exact absurd hb (by simp [Outcome.andThen])
  · intro hs hm
    rw [if_neg hs, if_pos hm] at hb
    exact ⟨b, gi, hb, hsub⟩

/-! ## Theorems: kind filtering -/

/-- C8: for a pattern that contains a wildcard character, every path in the
result of `Glob::search` (on a normal return, and also in what the caller's
vector holds when an `Error` was raised) is an existing regular file with
`needFile` set or an existing directory with `needDir` set; hence without
`needFile` only directories are returned, and with both filters off the result
is empty. -/
theorem Glob.search_kind_filter (fs : FileSys) (fuel : Nat) (out_paths : List Str) (path : Str)
    (needDir needFile needHidden : Bool) (hw : '*' ∈ path ∨ '?' ∈ path) :
    (∀ p ∈ (Glob.search fs fuel out_paths path needDir needFile needHidden).paths,
      (needFile = true ∧ fs.fileExists p = true) ∨ (needDir = true ∧ fs.dirExists p = true)) ∧
    (needFile = false →
      ∀ p ∈ (Glob.search fs fuel out_paths path needDir needFile needHidden).paths,
        fs.dirExists p = true) ∧
    (needFile = false → needDir = false →
      (Glob.search fs fuel out_paths path needDir needFile needHidden).paths = []) := by
  have h := Glob.search_paths_post fs (fun _ => True) (fun _ => True) fuel out_paths path
    needDir needFile needHidden (fun _ _ _ _ => trivial) (fun _ _ => trivial)
    (StrView.indexOfAnyCharIn_wildcard_of_mem path hw) trivial (fun _ _ _ _ => trivial)
  refine ⟨fun p hp => (h p hp).2, ?_, ?_⟩
  · intro hf p hp
    rcases (h p hp).2 with h1 | h1
    · rw [hf] at h1
      exact absurd h1.1 (by decide)
    · exact h1.2
  · intro hf hd
    apply List.eq_nil_iff_forall_not_mem.mpr
    intro p hp
    rcases (h p hp).2 with h1 | h1
    · rw [hf] at h1
      exact absurd h1.1 (by decide)
    · rw [hd] at h1
      exact absurd h1.1 (by decide)

/-- Witness of C8: in the tree of the specification the segment `*` under `/root`
matches the file `x.txt` and the directory `sub`; with `needDir` alone the
result is the directory, with both filters off it is empty. -/
theorem Glob.search_kind_filter_witness :
    ('*' ∈ "/root/*".toList ∨ '?' ∈ "/root/*".toList) ∧
    Glob.search treeFS 5 [] "/root/*".toList true false false = Outcome.ok ["/root/sub".toList] ∧
    Glob.search treeFS 5 [] "/root/*".toList false false false = Outcome.ok [] ∧
    (∀ p ∈ (Glob.search treeFS 5 [] "/root/*".toList true false false).paths,
      treeFS.dirExists p = true) :=
  ⟨by decide, by decide, by decide,
   (Glob.search_kind_filter treeFS 5 [] "/root/*".toList true false false (by decide)).2.1 rfl⟩

/-! ## Theorems: absolute paths -/

theorem StrView.splitByCharInList_fst_append (s chars : Str) :
    ∃ t, s = (StrView.splitByCharInList s chars).1 ++ t := by
  induction s with
  | nil => exact ⟨[], rfl⟩
  | cons c t ih =>
    unfold StrView.splitByCharInList
    by_cases hc : chars.contains c = true
    · rw [if_pos hc]
      exact ⟨c :: t, rfl⟩
    · rw [if_neg hc]
      obtain ⟨u, hu⟩ := ih
      refine ⟨u, ?_⟩
      simp only [List.cons_append]
      rw [← hu]

theorem StrView.splitByCharInList_snd_append (s chars : Str) :
    ∃ t, s = t ++ (StrView.splitByCharInList s chars).2 := by
  induction s with
  | nil => exact ⟨[], rfl⟩
  | cons c t ih =>
    unfold StrView.splitByCharInList
    by_cases hc : chars.contains c = true
    · rw [if_pos hc]
      exact ⟨[c], rfl⟩
    · rw [if_neg hc]
      obtain ⟨u, hu⟩ := ih
      refine ⟨c :: u, ?_⟩
      simp only [List.cons_append]
      rw [← hu]

theorem StrView.splitEndByChar_fst_append (s : Str) (ch : Char) :
    ∃ t, s = (StrView.splitEndByChar s ch).1 ++ t := by
  unfold StrView.splitEndByChar
  by_cases hc : s.contains ch = true
  · rw [if_pos hc]
    obtain ⟨u, hu⟩ := StrView.splitByCharInList_snd_append s.reverse [ch]
    refine ⟨u.reverse, ?_⟩
    have := congrArg List.reverse hu
    simpa [StrView.splitByChar] using this
  · rw [if_neg hc]
    exact ⟨[], by simp⟩

theorem GlobHelper.start_append (fs : FileSys) (path : Str) :
    ∃ t, fs.getAbs path = GlobHelper.start fs path ++ t := by
  obtain ⟨u, hu⟩ := StrView.splitByCharInList_fst_append (fs.getAbs path) ['*', '?']
  obtain ⟨v, hv⟩ := StrView.splitEndByChar_fst_append
    (StrView.splitByCharInList (fs.getAbs path) ['*', '?']).1 '/'
  refine ⟨v ++ u, ?_⟩
  unfold GlobHelper.start
  rw [← List.append_assoc, ← hv, ← hu]

theorem Path.isAbsolute_iff (p : Str) : Path.isAbsolute p = true ↔ ∃ t, p = '/' :: t := by
  cases p with
  | nil => simp [Path.isAbsolute, StrView.startsWith]
  | cons c t =>
    simp only [Path.isAbsolute, StrView.startsWith, List.isPrefixOf, Bool.and_true, beq_iff_eq,
      List.cons.injEq, exists_and_left, exists_eq', and_true]
    exact eq_comm

/-- C10, as the code has it: for a pattern that contains a wildcard character,
on a file system where `Path::getAbs` yields a path that begins with `/` and
where the empty path names neither a file nor a directory, every path in the
result of `Glob::search` begins with `/`. -/
theorem Glob.search_wildcard_absolute (fs : FileSys) (fuel : Nat) (out_paths : List Str)
    (path : Str) (needDir needFile needHidden : Bool) (hw : '*' ∈ path ∨ '?' ∈ path)
    (habs : Path.isAbsolute (fs.getAbs path) = true)
    (hfile : fs.fileExists [] = false) (hdir : fs.dirExists [] = false) :
    ∀ p ∈ (Glob.search fs fuel out_paths path needDir needFile needHidden).paths,
      Path.isAbsolute p = true := by
  have h := Glob.search_paths_post fs (fun p => p = [] ∨ Path.isAbsolute p = true)
    (fun _ => True) fuel out_paths path needDir needFile needHidden ?_ (fun _ _ => trivial)
    (StrView.indexOfAnyCharIn_wildcard_of_mem path hw) ?_ (fun _ _ _ _ => trivial)
  · intro p hp
    obtain ⟨hq, hwant⟩ := h p hp
    rcases hq with rfl | hq
    · rw [hfile, hdir] at hwant
      simp at hwant
    · exact hq
  · intro c e hc _
    right
    rcases hc with rfl | hc
    · simp [Path.isAbsolute, StrView.startsWith]
    · obtain ⟨t, rfl⟩ := (Path.isAbsolute_iff c).mp hc
      simp [Path.isAbsolute, StrView.startsWith]
  · obtain ⟨t, ht⟩ := GlobHelper.start_append fs path
    obtain ⟨u, hu⟩ := (Path.isAbsolute_iff _).mp habs
    cases hs : GlobHelper.start fs path with
    | nil => left; rfl
    | cons c v =>
      right
      rw [hs, hu] at ht
      simp only [List.cons_append, List.cons.injEq] at ht
      rw [← ht.1]
      simp [Path.isAbsolute, StrView.startsWith]

/-- Witness of C10: the pattern `/root/?.txt` on the tree of the specification. -/
theorem Glob.search_wildcard_absolute_witness :
    Glob.search treeFS 5 [] "/root/?.txt".toList false true false
      = Outcome.ok ["/root/x.txt".toList] ∧
    ∀ p ∈ (Glob.search treeFS 5 [] "/root/?.txt".toList false true false).paths,
      Path.isAbsolute p = true :=
  ⟨by decide,
   Glob.search_wildcard_absolute treeFS 5 [] "/root/?.txt".toList false true false
     (by decide) (by decide) (by decide) (by decide)⟩

/-- Counterexample to C10 as stated: for the relative pattern `x.txt`, which has
no wildcard character, `Glob::search` returns the pattern itself, and it does
not begin with `/`. -/
theorem Glob.search_returns_relative_pattern :
    ¬ ∀ p ∈ (Glob.search treeFS 5 [] "x.txt".toList false true false).paths,
      Path.isAbsolute p = true := by
  decide

/-! ## Theorems: strict backtracking -/

/-- C15: every call of `_step2` and of `_step` that returns normally leaves the
path buffer `_curPath` equal to its value on entry, and when
`GlobHelper::search` returns normally the buffer is the anchor (the local
`start`). -/
theorem GlobHelper.curPath_restored (fs : FileSys) (fuel : Nat) :
    (∀ (name remain : Str) (g g2 : GlobHelper),
      GlobHelper._step2 fs fuel name remain g = Outcome.ok g2 → g2._curPath = g._curPath) ∧
    (∀ (path : Str) (g g2 : GlobHelper),
      GlobHelper._step fs fuel path g = Outcome.ok g2 → g2._curPath = g._curPath) ∧
    (∀ (out_paths : List Str) (path : Str) (needDir needFile needHidden : Bool)
        (g2 : GlobHelper),
      GlobHelper.search fs fuel out_paths path needDir needFile needHidden = Outcome.ok g2 →
      g2._curPath = GlobHelper.start fs path) := by
  have h2 : ∀ (name remain : Str) (g g2 : GlobHelper),
      GlobHelper._step2 fs fuel name remain g = Outcome.ok g2 → g2._curPath = g._curPath := by
    intro name remain g g2 h
    have hp := GlobHelper._step2_post_true fs fuel name remain g
    rw [h] at hp
    obtain ⟨a, rfl, -⟩ := hp
    rfl
  refine ⟨h2, fun path g g2 h => h2 _ _ g g2 h, ?_⟩
  intro out_paths path needDir needFile needHidden g2 h
  rw [GlobHelper.search_eq] at h
  exact h2 _ _ _ g2 h

/-- Witness of C15: the visit of `**` with remaining pattern `*.txt` at `/root`
on the tree of the specification goes down two levels and comes back with the
buffer `/root`. -/
theorem GlobHelper.curPath_restored_witness :
    GlobHelper._step2 treeFS 10 "**".toList "*.txt".toList
        ⟨[], "/root".toList, false, true, false⟩ =
      Outcome.ok ⟨["/root/x.txt".toList, "/root/sub/y.txt".toList,
        "/root/sub/sub2/z.txt".toList], "/root".toList, false, true, false⟩ ∧
    (⟨["/root/x.txt".toList, "/root/sub/y.txt".toList, "/root/sub/sub2/z.txt".toList],
        "/root".toList, false, true, false⟩ : GlobHelper)._curPath =
      (⟨[], "/root".toList, false, true, false⟩ : GlobHelper)._curPath :=
  ⟨by decide,
   (GlobHelper.curPath_restored treeFS 10).1 "**".toList "*.txt".toList
     ⟨[], "/root".toList, false, true, false⟩ _ (by decide)⟩

/-! ## Theorems: `matchWildcard` on a segment without wildcard -/

/-- C18: for an entry name `s` and a pattern segment `t` that contains no `*`
and no `?`, `matchWildcard(s, t)` is `true` exactly when `s` is a beginning of
`t` or `t` is a beginning of `s`. -/
theorem GlobHelper.matchWildcard_literal_iff (s t : Str) (hstar : '*' ∉ t) (hq : '?' ∉ t) :
    GlobHelper.matchWildcard s t = true ↔ (∃ u, s ++ u = t) ∨ (∃ u, t ++ u = s) := by
  induction s generalizing t with
  | nil =>
    constructor
    · intro _
      exact Or.inl ⟨t, rfl⟩
    · intro _
      rfl
  | cons pc p1 ih =>
    cases t with
    | nil =>
      constructor
      · intro _
        exact Or.inr ⟨pc :: p1, rfl⟩
      · intro _
        rfl
    | cons wc w1 =>
      have hw1 : wc ≠ '*' := fun h => hstar (by rw [h]; exact List.mem_cons_self _ _)
      have hw2 : wc ≠ '?' := fun h => hq (by rw [h]; exact List.mem_cons_self _ _)
      have hs1 : '*' ∉ w1 := fun h => hstar (List.mem_cons_of_mem _ h)
      have hq1 : '?' ∉ w1 := fun h => hq (List.mem_cons_of_mem _ h)
      by_cases hc : wc = pc
      · subst hc
        simp only [GlobHelper.matchWildcard, true_or, if_true]
        rw [ih w1 hs1 hq1]
        constructor
        · rintro (⟨u, hu⟩ | ⟨u, hu⟩)
          · exact Or.inl ⟨u, by rw [List.cons_append, hu]⟩
          · exact Or.inr ⟨u, by rw [List.cons_append, hu]⟩
        · rintro (⟨u, hu⟩ | ⟨u, hu⟩)
          · exact Or.inl ⟨u, (List.cons.inj hu).2⟩
          · exact Or.inr ⟨u, (List.cons.inj hu).2⟩
      · simp only [GlobHelper.matchWildcard, hc, hw2, or_self, if_false, hw1]
        constructor
        · intro h
          exact absurd h (by decide)
        · rintro (⟨u, hu⟩ | ⟨u, hu⟩)
          · exact absurd (List.cons.inj hu).1.symm hc
          · exact absurd (List.cons.inj hu).1 hc

/-- Witness of C18: the segment `abc` accepts the entries `abcd` (the segment is
a beginning of the entry) and `ab` (the entry is a beginning of the segment) and
rejects `abd`. -/
theorem GlobHelper.matchWildcard_literal_iff_witness :
    (GlobHelper.matchWildcard "abcd".toList "abc".toList = true ↔
      (∃ u, "abcd".toList ++ u = "abc".toList) ∨ (∃ u, "abc".toList ++ u = "abcd".toList)) ∧
    GlobHelper.matchWildcard "abcd".toList "abc".toList = true ∧
    GlobHelper.matchWildcard "ab".toList "abc".toList = true ∧
    GlobHelper.matchWildcard "abd".toList "abc".toList = false :=
  ⟨GlobHelper.matchWildcard_literal_iff "abcd".toList "abc".toList (by decide) (by decide),
   by decide, by decide, by decide⟩

/-! ## Theorems: soft directory failure -/

theorem GlobHelper.expand_of_no_dir (fs : FileSys) (fuel : Nat) (name remain : Str)
    (g : GlobHelper)
    (h : fs.dirExists g._curPath = false ∨ fs.opendir g._curPath = none) :
    GlobHelper.expand fs fuel name remain g = Outcome.ok g := by
  unfold GlobHelper.expand
  by_cases hd : (!fs.dirExists g._curPath) = true
  · rw [if_pos hd]
  · rw [if_neg hd]
    rcases h with h | h
    · rw [h] at hd
      exact absurd rfl hd
    · rw [h]

theorem StrView.splitByCharInList_snd_length_le (s chars : Str) :
    (StrView.splitByCharInList s chars).2.length ≤ s.length := by
  obtain ⟨t, ht⟩ := StrView.splitByCharInList_snd_append s chars
  have := congrArg List.length ht
  rw [List.length_append] at this
  omega

theorem StrView.splitByChar_snd_length_lt (s : Str) (ch : Char) (hs : s ≠ []) :
    (StrView.splitByChar s ch).2.length < s.length := by
  cases s with
  | nil => exact absurd rfl hs
  | cons c t =>
    unfold StrView.splitByChar StrView.splitByCharInList
    by_cases hc : [ch].contains c = true
    · rw [if_pos hc]
      simp
    · rw [if_neg hc]
      have := StrView.splitByCharInList_snd_length_le t [ch]
      simp only [List.length_cons]
      omega

theorem GlobHelper.push_curPath_append (g : GlobHelper) (name : Str) :
    ∃ t, (g.push name)._curPath = g._curPath ++ t := by
  unfold GlobHelper.push
  by_cases hn : name = []
  · exact ⟨[], by simp [hn]⟩
  · exact ⟨'/' :: name, by simp [hn]⟩

theorem GlobHelper.push_resize (g : GlobHelper) (name : Str) :
    (g.push name).resize g._curPath.length = g := by
  unfold GlobHelper.push
  by_cases hn : name = []
  · have h := GlobHelper.emit_resize g []
    simpa [hn] using h
  · have h := GlobHelper.append_emit_resize g name []
    simpa [hn] using h

/-- A walk that starts at a buffer at or below which nothing exists returns
normally and leaves the state as it was, once the recursion budget exceeds the
length of the remaining pattern by two. -/
theorem GlobHelper._step2_nothing_below (fs : FileSys) :
    ∀ (n : Nat) (name remain : Str) (g : GlobHelper),
      remain.length + 2 ≤ n + 1 →
      (∀ t, fs.fileExists (g._curPath ++ t) = false ∧ fs.dirExists (g._curPath ++ t) = false) →
      GlobHelper._step2 fs (n + 1) name remain g = Outcome.ok g := by
  intro n
  induction n with
  | zero =>
    intro name remain g hlen _
    exact absurd hlen (by omega)
  | succ n ih =>
    intro name remain g hlen hno
    have hterm : ∀ (g1 : GlobHelper),
        (∀ t, fs.fileExists (g1._curPath ++ t) = false ∧
          fs.dirExists (g1._curPath ++ t) = false) →
        GlobHelper._step fs (n + 1) remain g1 = Outcome.ok g1 := by
      intro g1 hno1
      unfold GlobHelper._step
      by_cases hr : remain = []
      · subst hr
        have hl : StrView.indexOfAnyCharIn (StrView.splitByChar [] '/').1 ['*', '?'] < 0 := by
          decide
        rw [GlobHelper._step2_literal fs _ _ _ _ hl]
        have h2 : (StrView.splitByChar [] '/').2 = [] := rfl
        rw [if_pos h2]
        have h1 : (StrView.splitByChar [] '/').1 = [] := rfl
        rw [h1]
        have hp : g1.push [] = g1 := by simp [GlobHelper.push]
        rw [hp]
        have ha : GlobHelper.appendIfWanted fs g1 = g1 := by
          unfold GlobHelper.appendIfWanted
          have := hno1 []
          rw [List.append_nil] at this
          simp [this.1, this.2]
        rw [ha, Outcome.andThen_ok]
        have := GlobHelper.emit_resize g1 []
        simpa using this
      · apply ih _ _ g1 _ hno1
        have := StrView.splitByChar_snd_length_lt remain '/' hr
        omega
    by_cases hl : StrView.indexOfAnyCharIn name ['*', '?'] < 0
    · rw [GlobHelper._step2_literal fs _ _ _ _ hl]
      obtain ⟨t0, ht0⟩ := GlobHelper.push_curPath_append g name
      have hno1 : ∀ t, fs.fileExists ((g.push name)._curPath ++ t) = false ∧
          fs.dirExists ((g.push name)._curPath ++ t) = false := by
        intro t
        rw [ht0, List.append_assoc]
        exact hno _
      by_cases hr : remain = []
      · rw [if_pos hr]
        have ha : GlobHelper.appendIfWanted fs (g.push name) = g.push name := by
          unfold GlobHelper.appendIfWanted
          have := hno1 []
          rw [List.append_nil] at this
          simp [this.1, this.2]
        rw [ha, Outcome.andThen_ok, GlobHelper.push_resize]
      · rw [if_neg hr, hterm _ hno1, Outcome.andThen_ok, GlobHelper.push_resize]
    · rw [GlobHelper._step2_wildcard fs _ _ _ _ hl]
      have h0 : (if name = ['*', '*'] then GlobHelper._step fs (n + 1) remain g
          else Outcome.ok g) = Outcome.ok g := by
        by_cases hs : name = ['*', '*']
        · rw [if_pos hs]
          exact hterm g hno
        · rw [if_neg hs]
      rw [h0, Outcome.andThen_ok]
      apply GlobHelper.expand_of_no_dir
      left
      have := hno []
      rw [List.append_nil] at this
      exact this.2

/-- C11: soft directory failure.

(1) Whenever the walker visits a wildcard segment while the path buffer does not
name an existing directory, or while that directory cannot be opened, the
expansion contributes nothing and raises no error: the visit of a plain
wildcard segment returns normally with the state unchanged, and the visit of
`**` is its zero-match walk of `remain` alone.

(2) A pattern whose first segment after the anchor is a plain wildcard segment,
with an anchor that is not an existing directory or cannot be opened, makes
`Glob::search` return normally with an empty result.

(3) A pattern with a wildcard character whose anchor is missing (nothing exists
at or below it) makes `Glob::search` return normally with an empty result,
whatever the segments after the anchor are (`**` included), once the recursion
budget exceeds the length of the remaining pattern by two. -/
theorem Glob.search_soft_directory_failure (fs : FileSys) :
    (∀ (fuel : Nat) (name remain : Str) (g : GlobHelper),
      ¬ StrView.indexOfAnyCharIn name ['*', '?'] < 0 →
      (fs.dirExists g._curPath = false ∨ fs.opendir g._curPath = none) →
      (name ≠ ['*', '*'] → GlobHelper._step2 fs (fuel + 1) name remain g = Outcome.ok g) ∧
      (name = ['*', '*'] →
        GlobHelper._step2 fs (fuel + 1) name remain g = GlobHelper._step fs fuel remain g)) ∧
    (∀ (fuel : Nat) (out_paths : List Str) (path : Str) (needDir needFile needHidden : Bool),
      ('*' ∈ path ∨ '?' ∈ path) →
      ¬ StrView.indexOfAnyCharIn
        (StrView.splitByChar (GlobHelper.remain fs path) '/').1 ['*', '?'] < 0 →
      (StrView.splitByChar (GlobHelper.remain fs path) '/').1 ≠ ['*', '*'] →
      (fs.dirExists (GlobHelper.start fs path) = false ∨
        fs.opendir (GlobHelper.start fs path) = none) →
      Glob.search fs (fuel + 1) out_paths path needDir needFile needHidden = Outcome.ok []) ∧
    (∀ (fuel : Nat) (out_paths : List Str) (path : Str) (needDir needFile needHidden : Bool),
      ('*' ∈ path ∨ '?' ∈ path) →
      (∀ t, fs.fileExists (GlobHelper.start fs path ++ t) = false ∧
        fs.dirExists (GlobHelper.start fs path ++ t) = false) →
      (GlobHelper.remain fs path).length + 2 ≤ fuel →
      Glob.search fs fuel out_paths path needDir needFile needHidden = Outcome.ok []) := by
  have part1 : ∀ (fuel : Nat) (name remain : Str) (g : GlobHelper),
      ¬ StrView.indexOfAnyCharIn name ['*', '?'] < 0 →
      (fs.dirExists g._curPath = false ∨ fs.opendir g._curPath = none) →
      (name ≠ ['*', '*'] → GlobHelper._step2 fs (fuel + 1) name remain g = Outcome.ok g) ∧
      (name = ['*', '*'] →
        GlobHelper._step2 fs (fuel + 1) name remain g = GlobHelper._step fs fuel remain g) := by
    intro fuel name remain g hl hno
    rw [GlobHelper._step2_wildcard fs _ _ _ _ hl]
    constructor
    · intro hs
      rw [if_neg hs, Outcome.andThen_ok]
      exact GlobHelper.expand_of_no_dir fs fuel name remain g hno
    · intro hs
      rw [if_pos hs]
      have hp := GlobHelper._step2_post_true fs fuel (StrView.splitByChar remain '/').1
        (StrView.splitByChar remain '/').2 g
      change GlobHelper.Post fs (fun _ => True) g (GlobHelper._step fs fuel remain g) at hp
      cases hr : GlobHelper._step fs fuel remain g with
      | ok g0 =>
        rw [hr] at hp
        obtain ⟨a, rfl, -⟩ := hp
        rw [Outcome.andThen_ok]
        exact GlobHelper.expand_of_no_dir fs fuel name remain _ hno
      | thrown g0 => rfl
      | outOfFuel => rfl
  refine ⟨part1, ?_, ?_⟩
  · intro fuel out_paths path needDir needFile needHidden hw hl hs hno
    rw [Glob.search_wildcard_eq fs _ _ _ _ _ _ (StrView.indexOfAnyCharIn_wildcard_of_mem path hw)]
    unfold GlobHelper._step
    rw [(part1 fuel _ _ (GlobHelper.initial fs [] path needDir needFile needHidden) hl hno).1 hs]
    rfl
  · intro fuel out_paths path needDir needFile needHidden hw hno hlen
    rw [Glob.search_wildcard_eq fs _ _ _ _ _ _ (StrView.indexOfAnyCharIn_wildcard_of_mem path hw)]
    unfold GlobHelper._step
    cases fuel with
    | zero => exact absurd hlen (by omega)
    | succ n =>
      rw [GlobHelper._step2_nothing_below fs n _ _
        (GlobHelper.initial fs [] path needDir needFile needHidden) ?_ hno]
      · rfl
      · have := StrView.splitByCharInList_snd_length_le (GlobHelper.remain fs path) ['/']
        unfold StrView.splitByChar
        omega

/-- Witness of C11: on the tree of the specification the directory `/root/nope`
does not exist. The patterns `/root/nope/*.txt` and `/root/nope/**/*.txt`
return normally with an empty result, and so does `/a/**/b/*.c` on a file
system on which nothing exists. -/
theorem Glob.search_soft_directory_failure_witness :
    Glob.search treeFS 2 [] "/root/nope/*.txt".toList true true true = Outcome.ok [] ∧
    Glob.search treeFS 12 [] "/root/nope/**/*.txt".toList true true true = Outcome.ok [] ∧
    Glob.search emptyFS 12 [] "/a/**/b/*.c".toList true true true = Outcome.ok [] ∧
    GlobHelper._step2 treeFS 1 "?".toList "*".toList
      ⟨[], "/root/x.txt".toList, true, true, true⟩ =
        Outcome.ok ⟨[], "/root/x.txt".toList, true, true, true⟩ :=
  ⟨(Glob.search_soft_directory_failure treeFS).2.1 1 [] "/root/nope/*.txt".toList true true true
     (by decide) (by decide) (by decide) (Or.inl (by decide)),
   by decide,
   (Glob.search_soft_directory_failure emptyFS).2.2 12 [] "/a/**/b/*.c".toList true true true
     (by decide) (fun _ => ⟨rfl, rfl⟩) (by decide),
   ((Glob.search_soft_directory_failure treeFS).1 0 "?".toList "*".toList
     ⟨[], "/root/x.txt".toList, true, true, true⟩ (by decide) (Or.inl (by decide))).1
     (by decide)⟩

/-! ## Theorems: enumeration order -/

theorem StrView.splitByCharInList_of_not_mem (s chars : Str) (h : ∀ c ∈ s, c ∉ chars) :
    StrView.splitByCharInList s chars = (s, []) := by
  induction s with
  | nil => rfl
  | cons c t ih =>
    unfold StrView.splitByCharInList
    have hc : ¬ chars.contains c = true := by
      simpa using h c (List.mem_cons_self _ _)
    rw [if_neg hc, ih (fun d hd => h d (List.mem_cons_of_mem _ hd))]

theorem StrView.splitByChar_of_not_mem (s : Str) (ch : Char) (h : ch ∉ s) :
    StrView.splitByChar s ch = (s, []) := by
  apply StrView.splitByCharInList_of_not_mem
  intro c hc hmem
  rw [List.mem_singleton] at hmem
  rw [hmem] at hc
  exact h hc

/-- Case A on a final segment that is not empty: the segment is appended, the
path is tested and appended to the result if wanted, and the buffer is cut
back. -/
theorem GlobHelper._step2_literal_last (fs : FileSys) (n : Nat) (name : Str) (g : GlobHelper)
    (hl : StrView.indexOfAnyCharIn name ['*', '?'] < 0) (hn : name ≠ []) :
    GlobHelper._step2 fs (n + 1) name [] g =
      Outcome.ok (g.emit
        (if (g._needFile && fs.fileExists (g._curPath ++ '/' :: name)) ||
            (g._needDir && fs.dirExists (g._curPath ++ '/' :: name)) then
          [g._curPath ++ '/' :: name] else [])) := by
  rw [GlobHelper._step2_literal fs _ _ _ _ hl, if_pos rfl, Outcome.andThen_ok]
  have hp : g.push name = g.append name := by simp [GlobHelper.push, hn]
  rw [hp]
  unfold GlobHelper.appendIfWanted
  by_cases hc : ((g._needFile && fs.fileExists (g._curPath ++ '/' :: name)) ||
      (g._needDir && fs.dirExists (g._curPath ++ '/' :: name))) = true
  · have hc2 : (((g.append name)._needFile && fs.fileExists (g.append name)._curPath) ||
        ((g.append name)._needDir && fs.dirExists (g.append name)._curPath)) = true := hc
    rw [if_pos hc, if_pos hc2]
    exact congrArg Outcome.ok (GlobHelper.append_emit_resize g name _)
  · have hc2 : ¬ (((g.append name)._needFile && fs.fileExists (g.append name)._curPath) ||
        ((g.append name)._needDir && fs.dirExists (g.append name)._curPath)) = true := hc
    rw [if_neg hc, if_neg hc2]
    have := GlobHelper.append_emit_resize g name []
    simp only [GlobHelper.emit_nil] at this ⊢
    exact congrArg Outcome.ok this

/-- The loop of a plain wildcard segment that is the last one, over names
without wildcard character: the result grows by the wanted paths of the
matching names that are not skipped, in the order of the stream. -/
theorem GlobHelper.whileGetEntry_last_segment (fs : FileSys) (n : Nat) (seg : Str)
    (g : GlobHelper) (hss : seg ≠ ['*', '*']) :
    ∀ (names : List Str), (∀ e ∈ names, '*' ∉ e ∧ '?' ∉ e ∧ e ≠ []) → ∀ (a : List Str),
      GlobHelper.whileGetEntry (GlobHelper.entryBody fs (n + 1) seg []) false names (g.emit a) =
        Outcome.ok (g.emit (a ++
          ((names.filter fun e =>
              !Dir.skipped g._needHidden e && GlobHelper.matchWildcard e seg).map
            fun e => g._curPath ++ '/' :: e).filter
          fun p => (g._needFile && fs.fileExists p) || (g._needDir && fs.dirExists p))) := by
  intro names
  induction names with
  | nil =>
    intro _ a
    simp [GlobHelper.whileGetEntry_nil]
  | cons f rest ih =>
    intro hnames a
    have hrest := ih (fun e he => hnames e (List.mem_cons_of_mem _ he))
    obtain ⟨hf1, hf2, hf3⟩ := hnames f (List.mem_cons_self _ _)
    rw [GlobHelper.whileGetEntry_cons]
    by_cases hs : Dir.skipped g._needHidden f = true
    · simp only [GlobHelper.emit_needHidden, hs, if_true]
      rw [hrest a, List.filter_cons_of_neg (by simp [hs])]
    · have hs2 : Dir.skipped g._needHidden f = false := by simpa using hs
      simp only [GlobHelper.emit_needHidden, hs, if_false, Bool.false_eq_true]
      by_cases hm : GlobHelper.matchWildcard f seg = true
      · have hb : GlobHelper.entryBody fs (n + 1) seg [] f (g.emit a) =
            GlobHelper._step2 fs (n + 1) f [] (g.emit a) := by
          unfold GlobHelper.entryBody
          rw [if_neg hss, if_pos hm]
        rw [hb, GlobHelper._step2_literal_last fs n f _
          ((StrView.indexOfAnyCharIn_wildcard_neg_iff f).mpr ⟨hf1, hf2⟩) hf3,
          Outcome.andThen_ok, GlobHelper.emit_emit, hrest,
          List.filter_cons_of_pos (by simp [hs2, hm]), List.map_cons]
        by_cases hc : ((g._needFile && fs.fileExists (g._curPath ++ '/' :: f)) ||
            (g._needDir && fs.dirExists (g._curPath ++ '/' :: f))) = true
        · have hc2 : (((g.emit a)._needFile && fs.fileExists ((g.emit a)._curPath ++ '/' :: f)) ||
              ((g.emit a)._needDir && fs.dirExists ((g.emit a)._curPath ++ '/' :: f))) = true := hc
          rw [if_pos hc2]
          simp [List.filter_cons, hc]
        · have hc2 : ¬ (((g.emit a)._needFile &&
                fs.fileExists ((g.emit a)._curPath ++ '/' :: f)) ||
              ((g.emit a)._needDir && fs.dirExists ((g.emit a)._curPath ++ '/' :: f))) = true := hc
          rw [if_neg hc2]
          simp [List.filter_cons, hc]
      · have hb : GlobHelper.entryBody fs (n + 1) seg [] f (g.emit a) = Outcome.ok (g.emit a) := by
          unfold GlobHelper.entryBody
          rw [if_neg hss, if_neg hm]
        rw [hb, Outcome.andThen_ok, hrest, List.filter_cons_of_neg (by simp [hm])]

/-- C13: for a pattern whose remainder after the anchor is a single wildcard
segment `seg` other than `**`, and an anchor directory that exists, opens and is
read without failure, with entry names that are not empty and contain no `*`
or `?`, the result of `Glob::search` is exactly the sequence of
`anchor ++ "/" ++ e` for the names `e` the directory reader yields, in that
order, keeping those that are not skipped (`.`, `..`, hidden filter), satisfy
`matchWildcard(e, seg)` and pass the file or directory test. -/
theorem Glob.search_enumeration_order (fs : FileSys) (fuel : Nat) (out_paths : List Str)
    (path : Str) (needDir needFile needHidden : Bool) (seg : Str) (dir : DirStream)
    (hw : '*' ∈ path ∨ '?' ∈ path)
    (hrem : GlobHelper.remain fs path = seg) (hslash : '/' ∉ seg)
    (hseg : ¬ StrView.indexOfAnyCharIn seg ['*', '?'] < 0) (hss : seg ≠ ['*', '*'])
    (hd : fs.dirExists (GlobHelper.start fs path) = true)
    (ho : fs.opendir (GlobHelper.start fs path) = some dir)
    (hrf : dir.readFails = false)
    (hnames : ∀ e ∈ dir.names, '*' ∉ e ∧ '?' ∉ e ∧ e ≠ []) :
    Glob.search fs (fuel + 2) out_paths path needDir needFile needHidden =
      Outcome.ok
        (((dir.names.filter fun e =>
              !Dir.skipped needHidden e && GlobHelper.matchWildcard e seg).map
            fun e => GlobHelper.start fs path ++ '/' :: e).filter
          fun p => (needFile && fs.fileExists p) || (needDir && fs.dirExists p)) := by
  rw [Glob.search_wildcard_eq fs _ _ _ _ _ _ (StrView.indexOfAnyCharIn_wildcard_of_mem path hw),
    hrem]
  unfold GlobHelper._step
  rw [StrView.splitByChar_of_not_mem seg '/' hslash,
    GlobHelper._step2_wildcard fs _ _ _ _ hseg, if_neg hss, Outcome.andThen_ok]
  unfold GlobHelper.expand
  have hd2 : ¬ (!fs.dirExists
      (GlobHelper.initial fs [] path needDir needFile needHidden)._curPath) = true := by
    have : (GlobHelper.initial fs [] path needDir needFile needHidden)._curPath =
        GlobHelper.start fs path := rfl
    rw [this, hd]
    decide
  have ho2 : fs.opendir (GlobHelper.initial fs [] path needDir needFile needHidden)._curPath =
      some dir := ho
  rw [if_neg hd2, ho2]
  simp only [hrf]
  have h := GlobHelper.whileGetEntry_last_segment fs fuel seg
    (GlobHelper.initial fs [] path needDir needFile needHidden) hss dir.names hnames []
  rw [GlobHelper.emit_nil] at h
  rw [h]
  rfl

/-- Witness of C13: under `/root` of the tree of the specification the reader
yields `x.txt` before `sub`; the pattern `/root/*` with both kinds wanted
returns them in that order. -/
theorem Glob.search_enumeration_order_witness :
    Glob.search treeFS 2 [] "/root/*".toList true true false =
      Outcome.ok ["/root/x.txt".toList, "/root/sub".toList] :=
  Glob.search_enumeration_order treeFS 0 [] "/root/*".toList true true false "*".toList
    ⟨[".".toList, "..".toList, "x.txt".toList, "sub".toList], false⟩
    (by decide) (by decide) (by decide) (by decide) (by decide) (by decide) (by decide) rfl
    (by decide)

/-! ## Theorems: hard directory failure -/

theorem GlobHelper.whileGetEntry_readFails_ne_ok (body : Str → GlobHelper → Outcome GlobHelper) :
    ∀ (names : List Str) (g g2 : GlobHelper),
      GlobHelper.whileGetEntry body true names g ≠ Outcome.ok g2 := by
  intro names
  induction names with
  | nil =>
    intro g g2 h
    rw [GlobHelper.whileGetEntry_nil] at h
    exact absurd h (by simp)
  | cons f rest ih =>
    intro g g2 h
    rw [GlobHelper.whileGetEntry_cons] at h
    by_cases hs : Dir.skipped g._needHidden f = true
    · rw [if_pos hs] at h
      exact ih g g2 h
    · rw [if_neg hs] at h
      cases hb : body f g with
      | ok g1 =>
        rw [hb, Outcome.andThen_ok] at h
        exact ih g1 g2 h
      | thrown g1 =>
        rw [hb] at h
        exact absurd h (by simp [Outcome.andThen])
      | outOfFuel =>
        rw [hb] at h
        exact absurd h (by simp [Outcome.andThen])

/-- The visit of a wildcard segment at a directory whose stream fails does not
return normally. -/
theorem GlobHelper._step2_readFails_ne_ok (fs : FileSys) (n : Nat) (name remain : Str)
    (g g2 : GlobHelper) (dir : DirStream)
    (hl : ¬ StrView.indexOfAnyCharIn name ['*', '?'] < 0)
    (hd : fs.dirExists g._curPath = true) (ho : fs.opendir g._curPath = some dir)
    (hrf : dir.readFails = true) :
    GlobHelper._step2 fs n name remain g ≠ Outcome.ok g2 := by
  intro h
  cases n with
  | zero => exact absurd h (by simp [GlobHelper._step2])
  | succ n =>
    rw [GlobHelper._step2_wildcard fs _ _ _ _ hl] at h
    have hp : GlobHelper.Post fs (fun _ => True) g
        (if name = ['*', '*'] then GlobHelper._step fs n remain g else Outcome.ok g) := by
      by_cases hs : name = ['*', '*']
      · rw [if_pos hs]
        exact GlobHelper._step2_post_true fs n _ _ g
      · rw [if_neg hs]
        exact GlobHelper.Post_ok_self fs _ g
    cases hr : (if name = ['*', '*'] then GlobHelper._step fs n remain g else Outcome.ok g) with
    | ok g0 =>
      rw [hr] at hp h
      obtain ⟨a0, rfl, -⟩ := hp
      rw [Outcome.andThen_ok] at h
      unfold GlobHelper.expand at h
      have hd2 : ¬ (!fs.dirExists (g.emit a0)._curPath) = true := by simp [hd]
      have ho2 : fs.opendir (g.emit a0)._curPath = some dir := ho
      rw [if_neg hd2, ho2] at h
      simp only [hrf] at h
      exact GlobHelper.whileGetEntry_readFails_ne_ok _ _ _ _ h
    | thrown g0 =>
      rw [hr] at h
      exact absurd h (by simp [Outcome.andThen])
    | outOfFuel =>
      rw [hr] at h
      exact absurd h (by simp [Outcome.andThen])

/-- The loop passes on an `Error` raised by its body: the rounds before it
returned normally, the round on `f` raises, and so does the loop. -/
theorem GlobHelper.whileGetEntry_thrown (body : Str → GlobHelper → Outcome GlobHelper)
    (readFails : Bool) (f : Str) (rest : List Str) (s : GlobHelper) :
    ∀ (pre : List Str) (g g1 : GlobHelper),
      GlobHelper.whileGetEntry body false pre g = Outcome.ok g1 →
      Dir.skipped g1._needHidden f = false → body f g1 = Outcome.thrown s →
      GlobHelper.whileGetEntry body readFails (pre ++ f :: rest) g = Outcome.thrown s := by
  intro pre
  induction pre with
  | nil =>
    intro g g1 h hs hb
    rw [GlobHelper.whileGetEntry_nil] at h
    have hg : g = g1 := by
      simp only [Bool.false_eq_true, if_false] at h
      injection h
    subst hg
    rw [List.nil_append, GlobHelper.whileGetEntry_cons, hs, hb]
    rfl
  | cons e pre ih =>
    intro g g1 h hs hb
    rw [GlobHelper.whileGetEntry_cons] at h
    rw [List.cons_append, GlobHelper.whileGetEntry_cons]
    by_cases hse : Dir.skipped g._needHidden e = true
    · rw [if_pos hse] at h ⊢
      exact ih g g1 h hs hb
    · rw [if_neg hse] at h ⊢
      cases he : body e g with
      | ok g0 =>
        rw [he, Outcome.andThen_ok] at h
        rw [Outcome.andThen_ok]
        exact ih g0 g1 h hs hb
      | thrown g0 =>
        rw [he] at h
        exact absurd h (by simp [Outcome.andThen])
      | outOfFuel =>
        rw [he] at h
        exact absurd h (by simp [Outcome.andThen])

/-! ## Theorems: the anchor -/

theorem StrView.splitByCharInList_fst_not_mem (s chars : Str) :
    ∀ x ∈ (StrView.splitByCharInList s chars).1, x ∉ chars := by
  induction s with
  | nil => intro x hx; exact absurd hx (List.not_mem_nil x)
  | cons c t ih =>
    unfold StrView.splitByCharInList
    by_cases hc : chars.contains c = true
    · rw [if_pos hc]
      intro x hx
      exact absurd hx (List.not_mem_nil x)
    · rw [if_neg hc]
      intro x hx
      rcases List.mem_cons.mp hx with rfl | hx2
      · simpa using hc
      · exact ih x hx2

theorem StrView.splitByCharInList_eq_of_mem (s chars : Str) (h : ∃ c ∈ s, c ∈ chars) :
    ∃ c, c ∈ chars ∧ s = (StrView.splitByCharInList s chars).1 ++
      c :: (StrView.splitByCharInList s chars).2 := by
  induction s with
  | nil =>
    obtain ⟨c, hc, -⟩ := h
    exact absurd hc (List.not_mem_nil c)
  | cons c t ih =>
    unfold StrView.splitByCharInList
    by_cases hc : chars.contains c = true
    · rw [if_pos hc]
      exact ⟨c, by simpa using hc, rfl⟩
    · rw [if_neg hc]
      have ht : ∃ d ∈ t, d ∈ chars := by
        obtain ⟨d, hd, hd2⟩ := h
        rcases List.mem_cons.mp hd with rfl | hd3
        · exact absurd (by simpa using hd2) hc
        · exact ⟨d, hd3, hd2⟩
      obtain ⟨d, hd, heq⟩ := ih ht
      refine ⟨d, hd, ?_⟩
      simp only [List.cons_append]
      rw [← heq]

theorem StrView.splitEndByChar_eq_of_mem (s : Str) (ch : Char) (h : ch ∈ s) :
    s = (StrView.splitEndByChar s ch).1 ++ ch :: (StrView.splitEndByChar s ch).2 ∧
      ch ∉ (StrView.splitEndByChar s ch).2 := by
  unfold StrView.splitEndByChar
  have hc : s.contains ch = true := by simpa using h
  rw [if_pos hc]
  have hrev : ∃ c ∈ s.reverse, c ∈ [ch] := ⟨ch, by simpa using h, by simp⟩
  obtain ⟨c, hc1, heq⟩ := StrView.splitByCharInList_eq_of_mem s.reverse [ch] hrev
  rw [List.mem_singleton] at hc1
  subst hc1
  have hnot := StrView.splitByCharInList_fst_not_mem s.reverse [c]
  constructor
  · have := congrArg List.reverse heq
    simpa [StrView.splitByChar] using this
  · intro hmem
    have hm2 : c ∈ (StrView.splitByCharInList s.reverse [c]).1 := by
      simpa [StrView.splitByChar] using hmem
    exact hnot c hm2 (by simp)

theorem StrView.splitByChar_fst_append_of_not_mem (b post : Str) (c ch : Char) (hb : ch ∉ b)
    (hc : c ≠ ch) :
    (StrView.splitByChar (b ++ c :: post) ch).1 = b ++ c :: (StrView.splitByChar post ch).1 := by
  induction b with
  | nil =>
    unfold StrView.splitByChar
    rw [List.nil_append, StrView.splitByCharInList]
    have : ¬ [ch].contains c = true := by simpa using hc
    rw [if_neg this]
    rfl
  | cons x b ih =>
    have hx : x ≠ ch := fun h => hb (by rw [h]; exact List.mem_cons_self _ _)
    have hb2 : ch ∉ b := fun h => hb (List.mem_cons_of_mem _ h)
    have ih2 := ih hb2
    unfold StrView.splitByChar at ih2 ⊢
    rw [List.cons_append, StrView.splitByCharInList]
    have : ¬ [ch].contains x = true := by simpa using hx
    rw [if_neg this]
    simp only [List.cons_append, List.cons.injEq, true_and]
    exact ih2

/-- C17: anchor computation. Let `q` be the absolute form of the pattern
(`Path::getAbs`; the pattern itself when it is absolute and `Path::getAbs`
leaves it unchanged), beginning with `/` and containing a wildcard character.
Then `GlobHelper::search` splits it as `anchor ++ "/" ++ remain = q`; the anchor
is the part of `q` before the last `/` that precedes the first `*` or `?` (`q`
is `anchor ++ "/" ++ b ++ c ++ post` with `c` a wildcard character, no `/` in
`b` and no wildcard character in `anchor ++ "/" ++ b`); the anchor contains no
wildcard character; the first `/`-segment of `remain` contains one; and the walk
starts with the path buffer equal to the anchor and the remaining pattern equal
to `remain`. -/
theorem GlobHelper.search_anchor (fs : FileSys) (path : Str)
    (habs : Path.isAbsolute (fs.getAbs path) = true)
    (hw : '*' ∈ fs.getAbs path ∨ '?' ∈ fs.getAbs path) :
    GlobHelper.start fs path ++ '/' :: GlobHelper.remain fs path = fs.getAbs path ∧
    (∃ (b : Str) (c : Char) (post : Str), (c = '*' ∨ c = '?') ∧
      fs.getAbs path = GlobHelper.start fs path ++ '/' :: (b ++ c :: post) ∧
      '/' ∉ b ∧ (∀ x ∈ GlobHelper.start fs path ++ '/' :: b, x ≠ '*' ∧ x ≠ '?')) ∧
    ('*' ∉ GlobHelper.start fs path ∧ '?' ∉ GlobHelper.start fs path) ∧
    ¬ StrView.indexOfAnyCharIn
      (StrView.splitByChar (GlobHelper.remain fs path) '/').1 ['*', '?'] < 0 ∧
    (∀ (fuel : Nat) (out_paths : List Str) (needDir needFile needHidden : Bool),
      GlobHelper.search fs fuel out_paths path needDir needFile needHidden =
        GlobHelper._step fs fuel (GlobHelper.remain fs path)
          { _out_paths := out_paths, _curPath := GlobHelper.start fs path,
            _needDir := needDir, _needFile := needFile, _needHidden := needHidden }) := by
  have hex : ∃ c ∈ fs.getAbs path, c ∈ ['*', '?'] := by
    rcases hw with h | h
    · exact ⟨'*', h, by simp⟩
    · exact ⟨'?', h, by simp⟩
  obtain ⟨c, hc, hq⟩ := StrView.splitByCharInList_eq_of_mem (fs.getAbs path) ['*', '?'] hex
  have hpre := StrView.splitByCharInList_fst_not_mem (fs.getAbs path) ['*', '?']
  have hcw : c = '*' ∨ c = '?' := by simpa using hc
  obtain ⟨t, ht⟩ := (Path.isAbsolute_iff _).mp habs
  have hslash : '/' ∈ (StrView.splitByCharInList (fs.getAbs path) ['*', '?']).1 := by
    cases hp : (StrView.splitByCharInList (fs.getAbs path) ['*', '?']).1 with
    | nil =>
      rw [hp, ht] at hq
      simp only [List.nil_append, List.cons.injEq] at hq
      rcases hcw with h | h
      · rw [h] at hq
        exact absurd hq.1 (by decide)
      · rw [h] at hq
        exact absurd hq.1 (by decide)
    | cons x rest =>
      rw [hp, ht] at hq
      simp only [List.cons_append, List.cons.injEq] at hq
      rw [← hq.1]
      exact List.mem_cons_self _ _
  obtain ⟨hsplit, hb⟩ := StrView.splitEndByChar_eq_of_mem _ '/' hslash
  have hstart : GlobHelper.start fs path =
      (StrView.splitEndByChar (StrView.splitByCharInList (fs.getAbs path) ['*', '?']).1 '/').1 :=
    rfl
  have hq2 : fs.getAbs path = GlobHelper.start fs path ++ '/' ::
      ((StrView.splitEndByChar
        (StrView.splitByCharInList (fs.getAbs path) ['*', '?']).1 '/').2 ++
        c :: (StrView.splitByCharInList (fs.getAbs path) ['*', '?']).2) := by
    rw [hstart]
    conv_lhs => rw [hq, hsplit]
    simp [List.append_assoc]
  have hrem : GlobHelper.remain fs path =
      (StrView.splitEndByChar
        (StrView.splitByCharInList (fs.getAbs path) ['*', '?']).1 '/').2 ++
        c :: (StrView.splitByCharInList (fs.getAbs path) ['*', '?']).2 := by
    unfold GlobHelper.remain StrView.slice
    conv_lhs => rw [hq2]
    rw [List.drop_append_eq_append_drop]
    simp
  have hnow : ∀ x ∈ GlobHelper.start fs path ++ '/' ::
      (StrView.splitEndByChar
        (StrView.splitByCharInList (fs.getAbs path) ['*', '?']).1 '/').2,
      x ≠ '*' ∧ x ≠ '?' := by
    intro x hx
    rw [hstart, ← hsplit] at hx
    have := hpre x hx
    simp only [List.mem_cons, List.mem_singleton, List.not_mem_nil, or_false, not_or] at this
    exact this
  refine ⟨?_, ⟨_, c, _, hcw, hq2, hb, hnow⟩, ?_, ?_, fun _ _ _ _ _ => rfl⟩
  · rw [hrem]
    exact hq2.symm
  · constructor
    · intro h
      exact (hnow '*' (List.mem_append_left _ h)).1 rfl
    · intro h
      exact (hnow '?' (List.mem_append_left _ h)).2 rfl
  · rw [hrem, StrView.splitByChar_fst_append_of_not_mem _ _ c '/' hb
      (by rcases hcw with h | h <;> rw [h] <;> decide)]
    apply StrView.indexOfAnyCharIn_wildcard_of_mem
    rcases hcw with h | h
    · left
      rw [h]
      simp
    · right
      rw [h]
      simp

/-- Witness of C17: the pattern `/root/sub/a*b/c?` on the tree of the
specification has the anchor `/root/sub` and the remaining pattern `a*b/c?`. -/
theorem GlobHelper.search_anchor_witness :
    GlobHelper.start treeFS "/root/sub/a*b/c?".toList = "/root/sub".toList ∧
    GlobHelper.remain treeFS "/root/sub/a*b/c?".toList = "a*b/c?".toList ∧
    GlobHelper.start treeFS "/root/sub/a*b/c?".toList ++
      '/' :: GlobHelper.remain treeFS "/root/sub/a*b/c?".toList = "/root/sub/a*b/c?".toList :=
  ⟨by decide, by decide,
   (GlobHelper.search_anchor treeFS "/root/sub/a*b/c?".toList (by decide) (by decide)).1⟩

/-! ## Theorems: the walk ends when no entry name holds a wildcard character -/

theorem Outcome.map_eq_outOfFuel {σ : Type} (F : σ → σ) (r : Outcome σ) :
    r.map F = Outcome.outOfFuel ↔ r = Outcome.outOfFuel := by
  cases r <;> simp [Outcome.map]

theorem Outcome.andThen_ok_ne_outOfFuel {σ : Type} (r : Outcome σ) (k : σ → σ)
    (h : r ≠ Outcome.outOfFuel) : (r.andThen fun s => Outcome.ok (k s)) ≠ Outcome.outOfFuel := by
  cases r with
  | ok s => simp [Outcome.andThen]
  | thrown s => simp [Outcome.andThen]
  | outOfFuel => exact absurd rfl h

/-- Whether a call runs out of budget does not depend on what the result vector
holds. -/
theorem GlobHelper._step2_outOfFuel_congr (fs : FileSys) (fuel : Nat) (name remain : Str)
    (g g2 : GlobHelper) (hsame : g.fresh g._curPath = g2.fresh g2._curPath)
    (h : GlobHelper._step2 fs fuel name remain g ≠ Outcome.outOfFuel) :
    GlobHelper._step2 fs fuel name remain g2 ≠ Outcome.outOfFuel := by
  have h1 := GlobHelper._step2_pre fs g._out_paths fuel name remain (g.fresh g._curPath)
  have h2 := GlobHelper._step2_pre fs g2._out_paths fuel name remain (g2.fresh g2._curPath)
  rw [GlobHelper.pre_fresh_self] at h1 h2
  rw [h2, ← hsame]
  rw [h1] at h
  intro hc
  apply h
  rw [Outcome.map_eq_outOfFuel] at hc ⊢
  exact hc

theorem GlobHelper.fresh_emit (g : GlobHelper) (a : List Str) :
    (g.emit a).fresh (g.emit a)._curPath = g.fresh g._curPath := rfl

theorem GlobHelper.entryBody_mono (fs : FileSys) (fuel fuel2 : Nat) (name remain e : Str)
    (g : GlobHelper) (hle : fuel ≤ fuel2)
    (h : GlobHelper.entryBody fs fuel name remain e g ≠ Outcome.outOfFuel) :
    GlobHelper.entryBody fs fuel2 name remain e g ≠ Outcome.outOfFuel := by
  unfold GlobHelper.entryBody at h ⊢
  by_cases hs : name = ['*', '*']
  · rw [if_pos hs] at h ⊢
    rw [GlobHelper._step2_mono fs fuel fuel2 _ _ _ hle (Outcome.ne_outOfFuel_of_andThen h)]
    exact h
  · rw [if_neg hs] at h ⊢
    by_cases hm : GlobHelper.matchWildcard e name = true
    · rw [if_pos hm] at h ⊢
      rw [GlobHelper._step2_mono fs fuel fuel2 _ _ _ hle h]
      exact h
    · rw [if_neg hm]
      simp

theorem GlobHelper.entryBody_outOfFuel_congr (fs : FileSys) (fuel : Nat) (name remain e : Str)
    (g : GlobHelper) (a : List Str)
    (h : GlobHelper.entryBody fs fuel name remain e g ≠ Outcome.outOfFuel) :
    GlobHelper.entryBody fs fuel name remain e (g.emit a) ≠ Outcome.outOfFuel := by
  unfold GlobHelper.entryBody at h ⊢
  by_cases hs : name = ['*', '*']
  · rw [if_pos hs] at h ⊢
    apply Outcome.andThen_ok_ne_outOfFuel
    exact GlobHelper._step2_outOfFuel_congr fs fuel name remain (g.append e) _ rfl
      (Outcome.ne_outOfFuel_of_andThen h)
  · rw [if_neg hs] at h ⊢
    by_cases hm : GlobHelper.matchWildcard e name = true
    · rw [if_pos hm] at h ⊢
      exact GlobHelper._step2_outOfFuel_congr fs fuel e remain g _ rfl h
    · rw [if_neg hm]
      simp

/-- One budget that serves every entry of a stream. -/
theorem GlobHelper.entryBody_common_fuel (fs : FileSys) (name remain : Str) (g : GlobHelper) :
    ∀ (names : List Str),
      (∀ e ∈ names, Dir.skipped g._needHidden e = false →
        ∃ f, GlobHelper.entryBody fs f name remain e g ≠ Outcome.outOfFuel) →
      ∃ F, ∀ e ∈ names, Dir.skipped g._needHidden e = false →
        GlobHelper.entryBody fs F name remain e g ≠ Outcome.outOfFuel := by
  intro names
  induction names with
  | nil => intro _; exact ⟨0, fun e he => absurd he (List.not_mem_nil e)⟩
  | cons x rest ih =>
    intro h
    obtain ⟨F, hF⟩ := ih (fun e he => h e (List.mem_cons_of_mem _ he))
    by_cases hx : Dir.skipped g._needHidden x = false
    · obtain ⟨f, hf⟩ := h x (List.mem_cons_self _ _) hx
      refine ⟨max f F, ?_⟩
      intro e he hsk
      rcases List.mem_cons.mp he with rfl | he2
      · exact GlobHelper.entryBody_mono fs f _ name remain e g (le_max_left _ _) hf
      · exact GlobHelper.entryBody_mono fs F _ name remain e g (le_max_right _ _) (hF e he2 hsk)
    · refine ⟨F, ?_⟩
      intro e he hsk
      rcases List.mem_cons.mp he with rfl | he2
      · exact absurd hsk hx
      · exact hF e he2 hsk

theorem GlobHelper.whileGetEntry_ne_outOfFuel (fs : FileSys)
    (body : Str → GlobHelper → Outcome GlobHelper) (readFails : Bool) (g : GlobHelper)
    (hpost : ∀ e a, GlobHelper.Post fs (fun _ => True) (g.emit a) (body e (g.emit a))) :
    ∀ (names : List Str),
      (∀ e ∈ names, Dir.skipped g._needHidden e = false →
        ∀ a, body e (g.emit a) ≠ Outcome.outOfFuel) →
      ∀ a, GlobHelper.whileGetEntry body readFails names (g.emit a) ≠ Outcome.outOfFuel := by
  intro names
  induction names with
  | nil =>
    intro _ a
    rw [GlobHelper.whileGetEntry_nil]
    cases readFails <;> simp
  | cons x rest ih =>
    intro hb a
    have hrest := ih (fun e he => hb e (List.mem_cons_of_mem _ he))
    rw [GlobHelper.whileGetEntry_cons]
    by_cases hs : Dir.skipped g._needHidden x = true
    · simp only [GlobHelper.emit_needHidden, hs, if_true]
      exact hrest a
    · simp only [GlobHelper.emit_needHidden, hs, if_false, Bool.false_eq_true]
      have hx := hb x (List.mem_cons_self _ _) (by simpa using hs) a
      have hp := hpost x a
      cases hr : body x (g.emit a) with
      | ok g1 =>
        rw [hr] at hp
        obtain ⟨b, rfl, -⟩ := hp
        rw [Outcome.andThen_ok, GlobHelper.emit_emit]
        exact hrest (a ++ b)
      | thrown g1 => simp [Outcome.andThen]
      | outOfFuel => exact absurd hr hx

/-- The visit of a wildcard segment ends if its zero-match walk (for `**`) ends
and the loop body ends on every entry of the current directory that is not
skipped. -/
theorem GlobHelper._step2_wildcard_ends (fs : FileSys) (name remain : Str) (g : GlobHelper)
    (hl : ¬ StrView.indexOfAnyCharIn name ['*', '?'] < 0)
    (hz : name = ['*', '*'] → ∃ f, GlobHelper._step fs f remain g ≠ Outcome.outOfFuel)
    (he : ∀ dir e, fs.dirExists g._curPath = true → fs.opendir g._curPath = some dir →
      e ∈ dir.names → Dir.skipped g._needHidden e = false →
      ∃ f, GlobHelper.entryBody fs f name remain e g ≠ Outcome.outOfFuel) :
    ∃ fuel, GlobHelper._step2 fs fuel name remain g ≠ Outcome.outOfFuel := by
  have hz2 : ∃ f0, (if name = ['*', '*'] then GlobHelper._step fs f0 remain g
      else Outcome.ok g) ≠ Outcome.outOfFuel := by
    by_cases hs : name = ['*', '*']
    · obtain ⟨f, hf⟩ := hz hs
      exact ⟨f, by rw [if_pos hs]; exact hf⟩
    · exact ⟨0, by rw [if_neg hs]; simp⟩
  obtain ⟨f0, hf0⟩ := hz2
  have he2 : ∃ F, ∀ dir e, fs.dirExists g._curPath = true → fs.opendir g._curPath = some dir →
      e ∈ dir.names → Dir.skipped g._needHidden e = false →
      GlobHelper.entryBody fs F name remain e g ≠ Outcome.outOfFuel := by
    by_cases hd : fs.dirExists g._curPath = true
    · cases ho : fs.opendir g._curPath with
      | none =>
        exact ⟨0, fun dir e _ ho2 => absurd ho2 (by simp)⟩
      | some dir0 =>
        obtain ⟨F, hF⟩ := GlobHelper.entryBody_common_fuel fs name remain g dir0.names
          (fun e hmem hsk => he dir0 e hd ho hmem hsk)
        refine ⟨F, ?_⟩
        intro dir e _ ho2 hmem hsk
        injection ho2 with ho3
        subst ho3
        exact hF e hmem hsk
    · exact ⟨0, fun dir e hd2 => absurd hd2 hd⟩
  obtain ⟨F, hF⟩ := he2
  refine ⟨max f0 F + 1, ?_⟩
  rw [GlobHelper._step2_wildcard fs _ _ _ _ hl]
  have hr0 : (if name = ['*', '*'] then GlobHelper._step fs (max f0 F) remain g
      else Outcome.ok g) =
      (if name = ['*', '*'] then GlobHelper._step fs f0 remain g else Outcome.ok g) := by
    by_cases hs : name = ['*', '*']
    · rw [if_pos hs] at hf0
      rw [if_pos hs, if_pos hs, GlobHelper._step_mono fs f0 _ remain g (le_max_left _ _) hf0]
    · rw [if_neg hs, if_neg hs]
  rw [hr0]
  have hp : GlobHelper.Post fs (fun _ => True) g
      (if name = ['*', '*'] then GlobHelper._step fs f0 remain g else Outcome.ok g) := by
    by_cases hs : name = ['*', '*']
    · rw [if_pos hs]
      exact GlobHelper._step2_post_true fs f0 _ _ g
    · rw [if_neg hs]
      exact GlobHelper.Post_ok_self fs _ g
  cases hr : (if name = ['*', '*'] then GlobHelper._step fs f0 remain g else Outcome.ok g) with
  | ok g0 =>
    rw [hr] at hp
    obtain ⟨a0, rfl, -⟩ := hp
    rw [Outcome.andThen_ok]
    unfold GlobHelper.expand
    by_cases hd : (!fs.dirExists (g.emit a0)._curPath) = true
    · rw [if_pos hd]
      simp
    · rw [if_neg hd]
      have hd2 : fs.dirExists g._curPath = true := by simpa using hd
      cases ho : fs.opendir (g.emit a0)._curPath with
      | none => simp
      | some dir =>
        simp only
        apply GlobHelper.whileGetEntry_ne_outOfFuel fs _ _ g
        · intro e a
          exact GlobHelper.entryBody_post_true fs _ name remain hl e (g.emit a)
        · intro e hmem hsk a
          apply GlobHelper.entryBody_outOfFuel_congr
          exact GlobHelper.entryBody_mono fs F _ name remain e g (le_max_right _ _)
            (hF dir e hd2 ho hmem hsk)
  | thrown g0 => simp [Outcome.andThen]
  | outOfFuel =>
    rw [hr] at hf0
    exact absurd rfl hf0

theorem Dir.skipped_true_of_skipped (nh : Bool) (e : Str) (h : Dir.skipped nh e = false) :
    Dir.skipped true e = false := by
  unfold Dir.skipped at h ⊢
  simp only [Bool.or_eq_false_iff] at h
  simp [h.1.1, h.1.2]

/-- On a file system whose directories nest to a finite depth (`height` goes
down from a directory to each of its entries) and whose entry names hold no
wildcard character, every call of the walker ends, given enough recursion
budget. -/
theorem GlobHelper._step2_ends (fs : FileSys) (height : Str → Nat)
    (hrank : ∀ d dir e, fs.dirExists d = true → fs.opendir d = some dir → e ∈ dir.names →
      Dir.skipped true e = false → height (d ++ '/' :: e) < height d)
    (hnames : ∀ d dir e, fs.dirExists d = true → fs.opendir d = some dir → e ∈ dir.names →
      Dir.skipped true e = false → '*' ∉ e ∧ '?' ∉ e) :
    ∀ (remain name : Str) (g : GlobHelper),
      ∃ fuel, GlobHelper._step2 fs fuel name remain g ≠ Outcome.outOfFuel := by
  suffices hmain : ∀ (L : Nat) (remain : Str), remain.length = L → ∀ (name : Str)
      (g : GlobHelper), ∃ fuel, GlobHelper._step2 fs fuel name remain g ≠ Outcome.outOfFuel from
    fun remain name g => hmain _ remain rfl name g
  intro L
  induction L using Nat.strong_induction_on with
  | _ L ih =>
    intro remain hlen
    have hstep : ∀ (g : GlobHelper),
        ∃ f, GlobHelper._step fs f remain g ≠ Outcome.outOfFuel := by
      intro g
      unfold GlobHelper._step
      by_cases hr : remain = []
      · subst hr
        refine ⟨1, ?_⟩
        have hl : StrView.indexOfAnyCharIn (StrView.splitByChar [] '/').1 ['*', '?'] < 0 := by
          decide
        have h2 : (StrView.splitByChar [] '/').2 = [] := rfl
        rw [GlobHelper._step2_literal fs 0 _ _ _ hl, if_pos h2]
        simp [Outcome.andThen]
      · have hlt := StrView.splitByChar_snd_length_lt remain '/' hr
        rw [hlen] at hlt
        exact ih _ hlt _ rfl _ g
    have hlit : ∀ (name : Str) (g : GlobHelper),
        StrView.indexOfAnyCharIn name ['*', '?'] < 0 →
        ∃ f, GlobHelper._step2 fs f name remain g ≠ Outcome.outOfFuel := by
      intro name g hl
      by_cases hr : remain = []
      · refine ⟨1, ?_⟩
        rw [GlobHelper._step2_literal fs 0 _ _ _ hl, if_pos hr]
        simp [Outcome.andThen]
      · obtain ⟨f, hf⟩ := hstep (g.push name)
        refine ⟨f + 1, ?_⟩
        rw [GlobHelper._step2_literal fs f _ _ _ hl, if_neg hr]
        exact Outcome.andThen_ok_ne_outOfFuel _ _ hf
    have hstar : ∀ (n : Nat) (g : GlobHelper), height g._curPath = n →
        ∃ f, GlobHelper._step2 fs f ['*', '*'] remain g ≠ Outcome.outOfFuel := by
      intro n
      induction n using Nat.strong_induction_on with
      | _ n ihn =>
        intro g hg
        apply GlobHelper._step2_wildcard_ends fs _ remain g GlobHelper.doubleStar_has_wildcard
          (fun _ => hstep g)
        intro dir e hd ho hmem hsk
        have hlt : height (g._curPath ++ '/' :: e) < n := by
          rw [← hg]
          exact hrank _ dir e hd ho hmem (Dir.skipped_true_of_skipped _ e hsk)
        obtain ⟨f, hf⟩ := ihn _ hlt (g.append e) rfl
        refine ⟨f, ?_⟩
        unfold GlobHelper.entryBody
        rw [if_pos rfl]
        exact Outcome.andThen_ok_ne_outOfFuel _ _ hf
    intro name g
    by_cases hl : StrView.indexOfAnyCharIn name ['*', '?'] < 0
    · exact hlit name g hl
    · by_cases hs : name = ['*', '*']
      · subst hs
        exact hstar _ g rfl
      · apply GlobHelper._step2_wildcard_ends fs name remain g hl (fun h => absurd h hs)
        intro dir e hd ho hmem hsk
        by_cases hm : GlobHelper.matchWildcard e name = true
        · have hw := hnames _ dir e hd ho hmem (Dir.skipped_true_of_skipped _ e hsk)
          obtain ⟨f, hf⟩ := hlit e g ((StrView.indexOfAnyCharIn_wildcard_neg_iff e).mpr hw)
          refine ⟨f, ?_⟩
          unfold GlobHelper.entryBody
          rw [if_neg hs, if_pos hm]
          exact hf
        · refine ⟨0, ?_⟩
          unfold GlobHelper.entryBody
          rw [if_neg hs, if_neg hm]
          simp

/-- On a file system whose directories nest to a finite depth and whose entry
names hold no wildcard character, `Glob::search` ends for every pattern and
every filter setting: from some recursion budget on, the outcome is a normal
return or a raised `Error`, the same for every larger budget. -/
theorem Glob.search_ends (fs : FileSys) (height : Str → Nat)
    (hrank : ∀ d dir e, fs.dirExists d = true → fs.opendir d = some dir → e ∈ dir.names →
      Dir.skipped true e = false → height (d ++ '/' :: e) < height d)
    (hnames : ∀ d dir e, fs.dirExists d = true → fs.opendir d = some dir → e ∈ dir.names →
      Dir.skipped true e = false → '*' ∉ e ∧ '?' ∉ e)
    (out_paths : List Str) (path : Str) (needDir needFile needHidden : Bool) :
    ∃ fuel, Glob.search fs fuel out_paths path needDir needFile needHidden ≠ Outcome.outOfFuel ∧
      ∀ fuel2, fuel ≤ fuel2 →
        Glob.search fs fuel2 out_paths path needDir needFile needHidden =
          Glob.search fs fuel out_paths path needDir needFile needHidden := by
  by_cases hw : StrView.indexOfAnyCharIn path ['*', '?'] < 0
  · refine ⟨0, ?_, ?_⟩
    · simp [Glob.search, hw]
    · intro fuel2 _
      simp [Glob.search, hw]
  · obtain ⟨fuel, hf⟩ := GlobHelper._step2_ends fs height hrank hnames
      (StrView.splitByChar (GlobHelper.remain fs path) '/').2
      (StrView.splitByChar (GlobHelper.remain fs path) '/').1
      (GlobHelper.initial fs [] path needDir needFile needHidden)
    have hstep : GlobHelper._step fs fuel (GlobHelper.remain fs path)
        (GlobHelper.initial fs [] path needDir needFile needHidden) ≠ Outcome.outOfFuel := hf
    refine ⟨fuel, ?_, ?_⟩
    · rw [Glob.search_wildcard_eq fs _ _ _ _ _ _ hw]
      cases hr : GlobHelper._step fs fuel (GlobHelper.remain fs path)
          (GlobHelper.initial fs [] path needDir needFile needHidden) with
      | ok g => simp
      | thrown g => simp
      | outOfFuel => exact absurd hr hstep
    · intro fuel2 hle
      rw [Glob.search_wildcard_eq fs _ _ _ _ _ _ hw, Glob.search_wildcard_eq fs _ _ _ _ _ _ hw,
        GlobHelper._step_mono fs fuel fuel2 _ _ hle hstep]

theorem treeFS_entries (d : Str) (dir : DirStream) (e : Str) (ho : treeFS.opendir d = some dir)
    (hmem : e ∈ dir.names) (hsk : Dir.skipped true e = false) :
    d.length ≤ 14 ∧
    (e = "x.txt".toList ∨ e = "sub".toList ∨ e = "y.txt".toList ∨ e = "sub2".toList ∨
      e = "z.txt".toList) := by
  have hne := (Dir.skipped_true_iff e).mp hsk
  unfold treeFS at ho
  simp only at ho
  split_ifs at ho with h1 h2 h3
  · injection ho with ho
    subst ho
    subst h1
    refine ⟨by decide, ?_⟩
    simp only [List.mem_cons, List.mem_singleton, List.not_mem_nil, or_false] at hmem
    rcases hmem with h | h | h | h
    · exact absurd h hne.1
    · exact absurd h hne.2
    · exact Or.inl h
    · exact Or.inr (Or.inl h)
  · injection ho with ho
    subst ho
    subst h2
    refine ⟨by decide, ?_⟩
    simp only [List.mem_cons, List.mem_singleton, List.not_mem_nil, or_false] at hmem
    rcases hmem with h | h | h | h
    · exact absurd h hne.1
    · exact absurd h hne.2
    · exact Or.inr (Or.inr (Or.inl h))
    · exact Or.inr (Or.inr (Or.inr (Or.inl h)))
  · injection ho with ho
    subst ho
    subst h3
    refine ⟨by decide, ?_⟩
    simp only [List.mem_cons, List.mem_singleton, List.not_mem_nil, or_false] at hmem
    rcases hmem with h | h | h
    · exact absurd h hne.1
    · exact absurd h hne.2
    · exact Or.inr (Or.inr (Or.inr (Or.inr h)))

/-- The tree of the specification meets the two conditions of `Glob.search_ends`:
with any pattern and any filter setting `Glob::search` ends on it. -/
theorem Glob.search_ends_on_tree (out_paths : List Str) (path : Str)
    (needDir needFile needHidden : Bool) :
    ∃ fuel, Glob.search treeFS fuel out_paths path needDir needFile needHidden ≠
        Outcome.outOfFuel ∧
      ∀ fuel2, fuel ≤ fuel2 →
        Glob.search treeFS fuel2 out_paths path needDir needFile needHidden =
          Glob.search treeFS fuel out_paths path needDir needFile needHidden := by
  apply Glob.search_ends treeFS (fun p => 100 - p.length)
  · intro d dir e _ ho hmem hsk
    have h := (treeFS_entries d dir e ho hmem hsk).1
    simp only [List.length_append, List.length_cons]
    omega
  · intro d dir e _ ho hmem hsk
    rcases (treeFS_entries d dir e ho hmem hsk).2 with h | h | h | h | h <;>
      (subst h; decide)

/-! ## Theorems: rounds and reads of `matchWildcard` -/

theorem StrView.drop_cons_of_lt (l : Str) (i : Nat) (h : i < l.length) :
    ∃ c, l[i]? = some c ∧ l.drop i = c :: l.drop (i + 1) :=
  ⟨l[i], List.getElem?_eq_getElem h, List.drop_eq_getElem_cons h⟩

theorem GlobHelper.matchWildcard_cons_match (pc wc : Char) (p1 w1 : Str)
    (h : wc = pc ∨ wc = '?') :
    GlobHelper.matchWildcard (pc :: p1) (wc :: w1) = GlobHelper.matchWildcard p1 w1 := by
  simp only [GlobHelper.matchWildcard, h, if_true]

theorem GlobHelper.matchWildcard_cons_mismatch (pc wc : Char) (p1 w1 : Str)
    (h : ¬ (wc = pc ∨ wc = '?')) (h2 : wc ≠ '*') :
    GlobHelper.matchWildcard (pc :: p1) (wc :: w1) = false := by
  simp only [GlobHelper.matchWildcard, h, h2, if_false]

theorem GlobHelper.matchWildcard_star_last (pc wc : Char) (p1 : Str)
    (h : ¬ (wc = pc ∨ wc = '?')) (h2 : wc = '*') :
    GlobHelper.matchWildcard (pc :: p1) [wc] = true := by
  subst h2
  simp only [GlobHelper.matchWildcard, h, if_false, if_true]

theorem GlobHelper.matchWildcard_star_end (pc wc w1c : Char) (w2 : Str)
    (h : ¬ (wc = pc ∨ wc = '?')) (h2 : wc = '*') :
    GlobHelper.matchWildcard [pc] (wc :: w1c :: w2) = false := by
  subst h2
  simp only [GlobHelper.matchWildcard, h, if_false, if_true]

theorem GlobHelper.matchWildcard_star_step (pc wc p1c w1c : Char) (p2 w2 : Str)
    (h : ¬ (wc = pc ∨ wc = '?')) (h2 : wc = '*') :
    GlobHelper.matchWildcard (pc :: p1c :: p2) (wc :: w1c :: w2) =
      if p1c = w1c then GlobHelper.matchWildcard (p1c :: p2) (w1c :: w2)
      else GlobHelper.matchWildcard (p1c :: p2) (wc :: w1c :: w2) := by
  subst h2
  conv_lhs => rw [GlobHelper.matchWildcard.eq_def]
  simp only [h, if_false, if_true]

/-- One round at positions `p`, `w` is one unfolding of `matchWildcard` on the
rest of the entry name from `p` and the rest of the segment from `w`; a round
that goes on advances `p` by one; no round reads outside the bounds. -/
theorem GlobHelper.matchWildcardRound_spec (sv wildcard : Str) (p w : Nat) :
    match GlobHelper.matchWildcardRound sv wildcard p w with
    | MatchRound.stop =>
      GlobHelper.matchWildcard (sv.drop p) (wildcard.drop w) = true
    | MatchRound.next p1 w1 =>
      p < sv.length ∧ p1 = p + 1 ∧ (w1 = w ∨ w1 = w + 1) ∧
        GlobHelper.matchWildcard (sv.drop p) (wildcard.drop w) =
          GlobHelper.matchWildcard (sv.drop p1) (wildcard.drop w1)
    | MatchRound.exit b =>
      p < sv.length ∧ GlobHelper.matchWildcard (sv.drop p) (wildcard.drop w) = b
    | MatchRound.outOfBounds => False := by
  unfold GlobHelper.matchWildcardRound
  by_cases hg : p < sv.length ∧ w < wildcard.length
  · rw [if_pos hg]
    obtain ⟨pc, hpc, hpd⟩ := StrView.drop_cons_of_lt sv p hg.1
    obtain ⟨wc, hwc, hwd⟩ := StrView.drop_cons_of_lt wildcard w hg.2
    rw [hpc, hwc, hpd, hwd]
    simp only
    by_cases h1 : wc = pc ∨ wc = '?'
    · rw [if_pos h1]
      exact ⟨hg.1, rfl, Or.inr rfl, GlobHelper.matchWildcard_cons_match pc wc _ _ h1⟩
    · rw [if_neg h1]
      by_cases h2 : wc = '*'
      · rw [if_pos h2]
        by_cases h3 : w + 1 ≥ wildcard.length
        · rw [if_pos h3]
          have hnil : wildcard.drop (w + 1) = [] := List.drop_eq_nil_of_le h3
          rw [hnil]
          exact ⟨hg.1, GlobHelper.matchWildcard_star_last pc wc _ h1 h2⟩
        · rw [if_neg h3]
          obtain ⟨w1c, hw1c, hw1d⟩ := StrView.drop_cons_of_lt wildcard (w + 1) (by omega)
          by_cases h4 : p + 1 ≥ sv.length
          · rw [if_pos h4]
            have hnil : sv.drop (p + 1) = [] := List.drop_eq_nil_of_le h4
            rw [hnil, hw1d]
            exact ⟨hg.1, GlobHelper.matchWildcard_star_end pc wc w1c _ h1 h2⟩
          · rw [if_neg h4]
            obtain ⟨p1c, hp1c, hp1d⟩ := StrView.drop_cons_of_lt sv (p + 1) (by omega)
            rw [hp1c, hw1c]
            simp only
            have hstep := GlobHelper.matchWildcard_star_step pc wc p1c w1c
              (sv.drop (p + 1 + 1)) (wildcard.drop (w + 1 + 1)) h1 h2
            rw [← hp1d, ← hw1d] at hstep
            by_cases h5 : p1c = w1c
            · rw [if_pos h5]
              rw [if_pos h5] at hstep
              exact ⟨hg.1, rfl, Or.inr rfl, hstep⟩
            · rw [if_neg h5]
              rw [if_neg h5, ← hwd] at hstep
              refine ⟨hg.1, rfl, Or.inl rfl, ?_⟩
              rw [← hwd]
              exact hstep
      · rw [if_neg h2]
        exact ⟨hg.1, GlobHelper.matchWildcard_cons_mismatch pc wc _ _ h1 h2⟩
  · rw [if_neg hg]
    simp only
    rcases not_and_or.mp hg with h | h
    · have hnil : sv.drop p = [] := List.drop_eq_nil_of_le (by omega)
      rw [hnil]
      rfl
    · have hnil : wildcard.drop w = [] := List.drop_eq_nil_of_le (by omega)
      rw [hnil]
      exact GlobHelper.matchWildcard_nil_right _

/-- From any positions the loop ends within as many further rounds as there are
characters of the entry name left, without a read outside the bounds, and with
the value of `matchWildcard` on the two rests. -/
theorem GlobHelper.matchWildcardRun_spec (sv wildcard : Str) :
    ∀ (fuel p w rounds : Nat), sv.length - p ≤ fuel →
      ∃ k, GlobHelper.matchWildcardRun sv wildcard fuel p w rounds =
          MatchRun.finished (GlobHelper.matchWildcard (sv.drop p) (wildcard.drop w)) k ∧
        k ≤ rounds + (sv.length - p) := by
  intro fuel
  induction fuel with
  | zero =>
    intro p w rounds hf
    have hspec := GlobHelper.matchWildcardRound_spec sv wildcard p w
    cases hr : GlobHelper.matchWildcardRound sv wildcard p w with
    | stop =>
      rw [hr] at hspec
      simp only at hspec
      refine ⟨rounds, ?_, by omega⟩
      simp only [GlobHelper.matchWildcardRun, hr, hspec]
    | next p1 w1 =>
      rw [hr] at hspec
      exact absurd hspec.1 (by omega)
    | exit b =>
      rw [hr] at hspec
      exact absurd hspec.1 (by omega)
    | outOfBounds =>
      rw [hr] at hspec
      exact absurd hspec id
  | succ n ih =>
    intro p w rounds hf
    have hspec := GlobHelper.matchWildcardRound_spec sv wildcard p w
    cases hr : GlobHelper.matchWildcardRound sv wildcard p w with
    | stop =>
      rw [hr] at hspec
      simp only at hspec
      refine ⟨rounds, ?_, by omega⟩
      simp only [GlobHelper.matchWildcardRun, hr, hspec]
    | next p1 w1 =>
      rw [hr] at hspec
      obtain ⟨hlt, hp1, -, heq⟩ := hspec
      obtain ⟨k, hk, hle⟩ := ih p1 w1 (rounds + 1) (by omega)
      refine ⟨k, ?_, by omega⟩
      simp only [GlobHelper.matchWildcardRun, hr, hk, heq]
    | exit b =>
      rw [hr] at hspec
      obtain ⟨hlt, heq⟩ := hspec
      refine ⟨rounds + 1, ?_, by omega⟩
      simp only [GlobHelper.matchWildcardRun, hr, heq]
    | outOfBounds =>
      rw [hr] at hspec
      exact absurd hspec id

/-- C19: for every entry name and every pattern segment the loop of
`matchWildcard` ends after at most `length(entryName)` executions of its body,
with the value of `matchWildcard`; every round that does not leave the loop
advances the position in the entry name by one; and no round, at whatever
positions, reads a character outside the bounds of its string. -/
theorem GlobHelper.matchWildcard_rounds_and_reads (sv wildcard : Str) :
    (∃ k, GlobHelper.matchWildcardRun sv wildcard sv.length 0 0 0 =
        MatchRun.finished (GlobHelper.matchWildcard sv wildcard) k ∧ k ≤ sv.length) ∧
    (∀ (p w p1 w1 : Nat),
      GlobHelper.matchWildcardRound sv wildcard p w = MatchRound.next p1 w1 →
      p < sv.length ∧ p1 = p + 1) ∧
    (∀ (p w : Nat), GlobHelper.matchWildcardRound sv wildcard p w ≠ MatchRound.outOfBounds) := by
  refine ⟨?_, ?_, ?_⟩
  · obtain ⟨k, hk, hle⟩ := GlobHelper.matchWildcardRun_spec sv wildcard sv.length 0 0 0
      (by omega)
    exact ⟨k, by simpa using hk, by omega⟩
  · intro p w p1 w1 h
    have hspec := GlobHelper.matchWildcardRound_spec sv wildcard p w
    rw [h] at hspec
    exact ⟨hspec.1, hspec.2.1⟩
  · intro p w h
    have hspec := GlobHelper.matchWildcardRound_spec sv wildcard p w
    rw [h] at hspec
    exact hspec

/-! ## Theorems: the walk returns when no stream fails -/

theorem Outcome.andThen_ok_ne_thrown {σ : Type} (r : Outcome σ) (k : σ → σ)
    (h : ∀ s, r ≠ Outcome.thrown s) (s : σ) :
    (r.andThen fun s2 => Outcome.ok (k s2)) ≠ Outcome.thrown s := by
  cases r with
  | ok s2 => simp [Outcome.andThen]
  | thrown s2 => exact absurd rfl (h s2)
  | outOfFuel => simp [Outcome.andThen]

/-- A loop over a stream that can be read to its end raises no `Error` unless
its body does. -/
theorem GlobHelper.whileGetEntry_not_thrown (body : Str → GlobHelper → Outcome GlobHelper)
    (hbody : ∀ e g s, body e g ≠ Outcome.thrown s) :
    ∀ (names : List Str) (g s : GlobHelper),
      GlobHelper.whileGetEntry body false names g ≠ Outcome.thrown s := by
  intro names
  induction names with
  | nil =>
    intro g s
    rw [GlobHelper.whileGetEntry_nil]
    simp
  | cons f rest ih =>
    intro g s
    rw [GlobHelper.whileGetEntry_cons]
    by_cases hs : Dir.skipped g._needHidden f = true
    · rw [if_pos hs]
      exact ih g s
    · rw [if_neg hs]
      cases hb : body f g with
      | ok g1 =>
        rw [Outcome.andThen_ok]
        exact ih g1 s
      | thrown g1 => exact absurd hb (hbody f g g1)
      | outOfFuel => simp [Outcome.andThen]

/-- On a file system none of whose directory streams fails on reading, no call
of the walker ends with a raised `Error`. -/
theorem GlobHelper._step2_not_thrown (fs : FileSys)
    (hreads : ∀ d dir, fs.opendir d = some dir → dir.readFails = false) :
    ∀ (fuel : Nat) (name remain : Str) (g s : GlobHelper),
      GlobHelper._step2 fs fuel name remain g ≠ Outcome.thrown s := by
  intro fuel
  induction fuel with
  | zero =>
    intro name remain g s
    simp [GlobHelper._step2]
  | succ n ih =>
    intro name remain g s
    by_cases hl : StrView.indexOfAnyCharIn name ['*', '?'] < 0
    · rw [GlobHelper._step2_literal fs _ _ _ _ hl]
      apply Outcome.andThen_ok_ne_thrown
      intro s2
      by_cases hr : remain = []
      · rw [if_pos hr]
        simp
      · rw [if_neg hr]
        exact ih _ _ _ s2
    · rw [GlobHelper._step2_wildcard fs _ _ _ _ hl]
      have h0 : ∀ s2, (if name = ['*', '*'] then GlobHelper._step fs n remain g
          else Outcome.ok g) ≠ Outcome.thrown s2 := by
        intro s2
        by_cases hs : name = ['*', '*']
        · rw [if_pos hs]
          exact ih _ _ _ s2
        · rw [if_neg hs]
          simp
      cases hr : (if name = ['*', '*'] then GlobHelper._step fs n remain g else Outcome.ok g) with
      | ok g0 =>
        rw [Outcome.andThen_ok]
        unfold GlobHelper.expand
        by_cases hd : (!fs.dirExists g0._curPath) = true
        · rw [if_pos hd]
          simp
        · rw [if_neg hd]
          cases ho : fs.opendir g0._curPath with
          | none => simp
          | some dir =>
            simp only
            rw [hreads _ dir ho]
            apply GlobHelper.whileGetEntry_not_thrown
            intro e gi s2
            unfold GlobHelper.entryBody
            by_cases hs : name = ['*', '*']
            · rw [if_pos hs]
              exact Outcome.andThen_ok_ne_thrown _ _ (fun s3 => ih _ _ _ s3) s2
            · rw [if_neg hs]
              by_cases hm : GlobHelper.matchWildcard e name = true
              · rw [if_pos hm]
                exact ih _ _ _ s2
              · rw [if_neg hm]
                simp
      | thrown g0 => exact absurd hr (h0 g0)
      | outOfFuel => simp [Outcome.andThen]

/-- On a file system whose directories nest to a finite depth, whose entry names
hold no wildcard character and none of whose streams fails on reading, every
call of the walker returns normally, given enough recursion budget, and with
the same state for every larger budget. -/
theorem GlobHelper._step2_returns (fs : FileSys) (height : Str → Nat)
    (hrank : ∀ d dir e, fs.dirExists d = true → fs.opendir d = some dir → e ∈ dir.names →
      Dir.skipped true e = false → height (d ++ '/' :: e) < height d)
    (hnames : ∀ d dir e, fs.dirExists d = true → fs.opendir d = some dir → e ∈ dir.names →
      Dir.skipped true e = false → '*' ∉ e ∧ '?' ∉ e)
    (hreads : ∀ d dir, fs.opendir d = some dir → dir.readFails = false)
    (name remain : Str) (g : GlobHelper) :
    ∃ fuel g2, ∀ fuel2, fuel ≤ fuel2 →
      GlobHelper._step2 fs fuel2 name remain g = Outcome.ok g2 := by
  obtain ⟨fuel, hf⟩ := GlobHelper._step2_ends fs height hrank hnames remain name g
  cases hr : GlobHelper._step2 fs fuel name remain g with
  | ok g2 =>
    refine ⟨fuel, g2, ?_⟩
    intro fuel2 hle
    rw [GlobHelper._step2_mono fs fuel fuel2 name remain g hle hf, hr]
  | thrown s => exact absurd hr (GlobHelper._step2_not_thrown fs hreads fuel name remain g s)
  | outOfFuel => exact absurd hr hf

/-- A call of the walker that cannot return normally ends with a raised
`Error`, the same for every recursion budget from some budget on, when the
directories nest to a finite depth and no entry name holds a wildcard
character. -/
theorem GlobHelper._step2_thrown_of_ne_ok (fs : FileSys) (height : Str → Nat)
    (hrank : ∀ d dir e, fs.dirExists d = true → fs.opendir d = some dir → e ∈ dir.names →
      Dir.skipped true e = false → height (d ++ '/' :: e) < height d)
    (hnames : ∀ d dir e, fs.dirExists d = true → fs.opendir d = some dir → e ∈ dir.names →
      Dir.skipped true e = false → '*' ∉ e ∧ '?' ∉ e)
    (name remain : Str) (g : GlobHelper)
    (hne : ∀ fuel g2, GlobHelper._step2 fs fuel name remain g ≠ Outcome.ok g2) :
    ∃ fuel s, ∀ fuel2, fuel ≤ fuel2 →
      GlobHelper._step2 fs fuel2 name remain g = Outcome.thrown s := by
  obtain ⟨fuel, hf⟩ := GlobHelper._step2_ends fs height hrank hnames remain name g
  cases hr : GlobHelper._step2 fs fuel name remain g with
  | ok g2 => exact absurd hr (hne fuel g2)
  | thrown s =>
    refine ⟨fuel, s, ?_⟩
    intro fuel2 hle
    rw [GlobHelper._step2_mono fs fuel fuel2 name remain g hle hf, hr]
  | outOfFuel => exact absurd hr hf

theorem treeFS_rank (d : Str) (dir : DirStream) (e : Str)
    (hd : treeFS.dirExists d = true) (ho : treeFS.opendir d = some dir)
    (hmem : e ∈ dir.names) (hsk : Dir.skipped true e = false) :
    (fun p : Str => 100 - p.length) (d ++ '/' :: e) < (fun p : Str => 100 - p.length) d := by
  have h := (treeFS_entries d dir e ho hmem hsk).1
  simp only [List.length_append, List.length_cons]
  omega

theorem treeFS_no_wildcard (d : Str) (dir : DirStream) (e : Str)
    (hd : treeFS.dirExists d = true) (ho : treeFS.opendir d = some dir)
    (hmem : e ∈ dir.names) (hsk : Dir.skipped true e = false) : '*' ∉ e ∧ '?' ∉ e := by
  rcases (treeFS_entries d dir e ho hmem hsk).2 with h | h | h | h | h <;> (subst h; decide)

theorem treeFS_reads (d : Str) (dir : DirStream) (ho : treeFS.opendir d = some dir) :
    dir.readFails = false := by
  unfold treeFS at ho
  simp only at ho
  split_ifs at ho <;> (injection ho with ho; subst ho; rfl)

theorem hiddenFS_names (d : Str) (dir : DirStream) (e : Str)
    (ho : hiddenFS.opendir d = some dir) (hmem : e ∈ dir.names) :
    d.length ≤ 7 ∧
    e ∈ [".".toList, "..".toList, ".env".toList, "a.txt".toList, ".git".toList,
      "config".toList] := by
  unfold hiddenFS at ho
  simp only at ho
  split_ifs at ho with h1 h2
  · injection ho with ho
    subst ho
    subst h1
    refine ⟨by decide, ?_⟩
    simp only [List.mem_cons, List.mem_singleton, List.not_mem_nil, or_false] at hmem ⊢
    tauto
  · injection ho with ho
    subst ho
    subst h2
    refine ⟨by decide, ?_⟩
    simp only [List.mem_cons, List.mem_singleton, List.not_mem_nil, or_false] at hmem ⊢
    tauto

theorem hiddenFS_rank (d : Str) (dir : DirStream) (e : Str)
    (hd : hiddenFS.dirExists d = true) (ho : hiddenFS.opendir d = some dir)
    (hmem : e ∈ dir.names) (hsk : Dir.skipped true e = false) :
    (fun p : Str => 100 - p.length) (d ++ '/' :: e) < (fun p : Str => 100 - p.length) d := by
  have h := (hiddenFS_names d dir e ho hmem).1
  simp only [List.length_append, List.length_cons]
  omega

theorem hiddenFS_no_wildcard (d : Str) (dir : DirStream) (e : Str)
    (hd : hiddenFS.dirExists d = true) (ho : hiddenFS.opendir d = some dir)
    (hmem : e ∈ dir.names) (hsk : Dir.skipped true e = false) : '*' ∉ e ∧ '?' ∉ e := by
  have hin := (hiddenFS_names d dir e ho hmem).2
  simp only [List.mem_cons, List.mem_singleton, List.not_mem_nil, or_false] at hin
  rcases hin with h | h | h | h | h | h <;> (subst h; decide)

theorem hiddenFS_no_slash (d : Str) (dir : DirStream) (e : Str)
    (ho : hiddenFS.opendir d = some dir) (hmem : e ∈ dir.names) : '/' ∉ e := by
  have hin := (hiddenFS_names d dir e ho hmem).2
  simp only [List.mem_cons, List.mem_singleton, List.not_mem_nil, or_false] at hin
  rcases hin with h | h | h | h | h | h <;> (subst h; decide)

theorem hiddenFS_reads (d : Str) (dir : DirStream) (ho : hiddenFS.opendir d = some dir) :
    dir.readFails = false := by
  unfold hiddenFS at ho
  simp only at ho
  split_ifs at ho <;> (injection ho with ho; subst ho; rfl)

theorem failingFS_names (d : Str) (dir : DirStream) (e : Str)
    (ho : failingFS.opendir d = some dir) (hmem : e ∈ dir.names)
    (hsk : Dir.skipped true e = false) :
    d.length ≤ 6 ∧ (e = "a.txt".toList ∨ e = "sub".toList) := by
  have hne := (Dir.skipped_true_iff e).mp hsk
  unfold failingFS at ho
  simp only at ho
  split_ifs at ho with h1 h2
  · injection ho with ho
    subst ho
    subst h1
    refine ⟨by decide, ?_⟩
    simp only [List.mem_cons, List.mem_singleton, List.not_mem_nil, or_false] at hmem
    rcases hmem with h | h | h | h
    · exact absurd h hne.1
    · exact absurd h hne.2
    · exact Or.inl h
    · exact Or.inr h
  · injection ho with ho
    subst ho
    subst h2
    simp only [List.mem_cons, List.mem_singleton, List.not_mem_nil, or_false] at hmem
    rcases hmem with h | h
    · exact absurd h hne.1
    · exact absurd h hne.2

theorem failingFS_rank (d : Str) (dir : DirStream) (e : Str)
    (hd : failingFS.dirExists d = true) (ho : failingFS.opendir d = some dir)
    (hmem : e ∈ dir.names) (hsk : Dir.skipped true e = false) :
    (fun p : Str => 100 - p.length) (d ++ '/' :: e) < (fun p : Str => 100 - p.length) d := by
  have h := (failingFS_names d dir e ho hmem hsk).1
  simp only [List.length_append, List.length_cons]
  omega

theorem failingFS_no_wildcard (d : Str) (dir : DirStream) (e : Str)
    (hd : failingFS.dirExists d = true) (ho : failingFS.opendir d = some dir)
    (hmem : e ∈ dir.names) (hsk : Dir.skipped true e = false) : '*' ∉ e ∧ '?' ∉ e := by
  rcases (failingFS_names d dir e ho hmem hsk).2 with h | h <;> (subst h; decide)

/-! ## Theorems: the depth of `**`, given that the walk returns -/

/-- C7: double-star depth. On a file system whose directories nest to a finite
depth (`height` goes down from a directory to each of its entries), whose entry
names hold no wildcard character and none of whose streams fails on reading,
the visit of the segment `**` with remaining pattern `remain` at buffer `b` (the
path buffer of `g`) returns normally, with one state `g2` for every recursion
budget from some budget on. For every path `d` that is `b` itself or is reached
from `b` through any number (zero or more) of nested directory entries that pass
the hidden filter, the walk of `remain` from `d` returns normally too, and every
path it produces is in the result of `g2`. -/
theorem GlobHelper.doubleStar_depth (fs : FileSys) (height : Str → Nat)
    (hrank : ∀ d dir e, fs.dirExists d = true → fs.opendir d = some dir → e ∈ dir.names →
      Dir.skipped true e = false → height (d ++ '/' :: e) < height d)
    (hnames : ∀ d dir e, fs.dirExists d = true → fs.opendir d = some dir → e ∈ dir.names →
      Dir.skipped true e = false → '*' ∉ e ∧ '?' ∉ e)
    (hreads : ∀ d dir, fs.opendir d = some dir → dir.readFails = false)
    (remain : Str) (g : GlobHelper) :
    ∃ fuel g2,
      (∀ fuel2, fuel ≤ fuel2 →
        GlobHelper._step2 fs fuel2 ['*', '*'] remain g = Outcome.ok g2) ∧
      ∀ d, GlobHelper.Descends fs g._needHidden g._curPath d →
        ∃ gd,
          (∀ fuel2, fuel ≤ fuel2 →
            GlobHelper._step fs fuel2 remain (g.fresh d) = Outcome.ok gd) ∧
          ∀ p ∈ gd._out_paths, p ∈ g2._out_paths := by
  obtain ⟨fuel, g2, hret⟩ := GlobHelper._step2_returns fs height hrank hnames hreads
    ['*', '*'] remain g
  refine ⟨fuel, g2, hret, ?_⟩
  intro d hd
  obtain ⟨gd, hgd, hsub⟩ := GlobHelper.doubleStar_depth_of_ok fs fuel remain g g2
    (hret fuel (le_refl _)) d hd
  refine ⟨gd, ?_, hsub⟩
  intro fuel2 hle
  rw [GlobHelper._step_mono fs fuel fuel2 remain _ hle (by rw [hgd]; simp), hgd]

/-- Witness of C7: on the tree `root/x.txt`, `root/sub/y.txt`,
`root/sub/sub2/z.txt` the pattern `/root/**/*.txt` with `needFile` alone yields
the three files (zero, one and two directory levels); the visit of `**` at
`/root` with the remaining pattern `*.txt` returns, and so does the walk of
`*.txt` from every directory below `/root`, with paths of that result. -/
theorem GlobHelper.doubleStar_depth_witness :
    Glob.search treeFS 10 [] "/root/**/*.txt".toList false true false =
      Outcome.ok ["/root/x.txt".toList, "/root/sub/y.txt".toList,
        "/root/sub/sub2/z.txt".toList] ∧
    ∃ fuel g2,
      (∀ fuel2, fuel ≤ fuel2 →
        GlobHelper._step2 treeFS fuel2 ['*', '*'] "*.txt".toList
          ⟨[], "/root".toList, false, true, false⟩ = Outcome.ok g2) ∧
      ∀ d, GlobHelper.Descends treeFS false "/root".toList d →
        ∃ gd,
          (∀ fuel2, fuel ≤ fuel2 →
            GlobHelper._step treeFS fuel2 "*.txt".toList
              (GlobHelper.fresh ⟨[], "/root".toList, false, true, false⟩ d) = Outcome.ok gd) ∧
          ∀ p ∈ gd._out_paths, p ∈ g2._out_paths :=
  ⟨by decide,
   GlobHelper.doubleStar_depth treeFS (fun p => 100 - p.length) treeFS_rank treeFS_no_wildcard
     treeFS_reads "*.txt".toList ⟨[], "/root".toList, false, true, false⟩⟩

/-! ## Theorems: hidden entries and the segments of the returned paths -/

theorem StrView.segments_ne_nil (s : Str) : StrView.segments s ≠ [] := by
  induction s with
  | nil => simp [StrView.segments]
  | cons c t ih =>
    unfold StrView.segments
    by_cases hc : c = '/'
    · simp [hc]
    · simp only [hc, if_false]
      cases h : StrView.segments t with
      | nil => simp
      | cons seg segs => simp

/-- No segment of a pattern holds the separator `/`. -/
theorem StrView.segments_no_slash (s : Str) : ∀ seg ∈ StrView.segments s, '/' ∉ seg := by
  induction s with
  | nil =>
    intro seg hseg
    simp only [StrView.segments, List.mem_singleton] at hseg
    subst hseg
    simp
  | cons c t ih =>
    intro seg hseg
    unfold StrView.segments at hseg
    by_cases hc : c = '/'
    · simp only [hc, if_true, List.mem_cons] at hseg
      rcases hseg with h | h
      · subst h
        simp
      · exact ih seg h
    · simp only [hc, if_false] at hseg
      cases h : StrView.segments t with
      | nil => exact absurd h (StrView.segments_ne_nil t)
      | cons seg0 segs =>
        rw [h] at hseg ih
        simp only [List.mem_cons] at hseg
        rcases hseg with h1 | h1
        · subst h1
          intro hmem
          rcases List.mem_cons.mp hmem with h2 | h2
          · exact hc h2.symm
          · exact ih seg0 (List.mem_cons_self _ _) h2
        · exact ih seg (List.mem_cons_of_mem _ h1)

/-- The loop over the entries of a directory, with the guarantee of the body
asked only for the names of the stream. -/
theorem GlobHelper.Post_whileGetEntry_mem (fs : FileSys) (Q : Str → Prop)
    (body : Str → GlobHelper → Outcome GlobHelper) (readFails : Bool) (g : GlobHelper) :
    ∀ (names : List Str),
      (∀ e ∈ names, ∀ a, Dir.skipped g._needHidden e = false →
        GlobHelper.Post fs Q (g.emit a) (body e (g.emit a))) →
      ∀ (a : List Str),
        GlobHelper.Post fs Q (g.emit a)
          (GlobHelper.whileGetEntry body readFails names (g.emit a)) := by
  intro names
  induction names with
  | nil =>
    intro _ a
    rw [GlobHelper.whileGetEntry_nil]
    cases readFails
    · exact GlobHelper.Post_ok_self fs Q _
    · exact GlobHelper.Post_thrown_self fs Q _
  | cons f rest ih =>
    intro hbody a
    have ih2 := ih (fun e he => hbody e (List.mem_cons_of_mem _ he))
    rw [GlobHelper.whileGetEntry_cons]
    by_cases hs : Dir.skipped g._needHidden f = true
    · simp only [GlobHelper.emit_needHidden, hs, if_true]
      exact ih2 a
    · simp only [GlobHelper.emit_needHidden, hs, if_false, Bool.false_eq_true]
      apply GlobHelper.Post_andThen fs Q _ _ _
        (hbody f (List.mem_cons_self _ _) a (by simpa using hs))
      intro b
      rw [GlobHelper.emit_emit]
      exact ih2 (a ++ b)

theorem GlobHelper.expand_post_of_entries (fs : FileSys) (Q G : Str → Prop) (nh : Bool) (n : Nat)
    (hQ : ∀ c e, Q c → G e → Q (c ++ '/' :: e))
    (hG : ∀ d dir e, fs.opendir d = some dir → e ∈ dir.names →
      Dir.skipped nh e = false → G e)
    (ih : GlobHelper.PostAt fs Q G nh n) (name remain : Str)
    (hl : ¬ StrView.indexOfAnyCharIn name ['*', '?'] < 0)
    (hrem : ∀ seg ∈ StrView.segments remain,
      StrView.indexOfAnyCharIn seg ['*', '?'] < 0 → seg ≠ [] → G seg)
    (g : GlobHelper) (hnh : g._needHidden = nh) (hq : Q g._curPath) :
    GlobHelper.Post fs Q g (GlobHelper.expand fs n name remain g) := by
  unfold GlobHelper.expand
  by_cases hd : (!fs.dirExists g._curPath) = true
  · rw [if_pos hd]
    exact GlobHelper.Post_ok_self fs Q _
  · rw [if_neg hd]
    cases ho : fs.opendir g._curPath with
    | none => exact GlobHelper.Post_ok_self fs Q _
    | some dir =>
      have hloop := GlobHelper.Post_whileGetEntry_mem fs Q
        (GlobHelper.entryBody fs n name remain) dir.readFails g dir.names ?_ []
      · simpa using hloop
      · intro e hmem b hsk
        rw [hnh] at hsk
        exact GlobHelper.entryBody_post_of fs Q G nh n hQ ih name remain hl hrem e
          (hG _ dir e ho hmem hsk) _ (by simpa using hnh) (by simpa using hq)

/-- The invariant of the walk, with the property `G` of a directory entry asked
only of the names that the streams of the file system hold. -/
theorem GlobHelper._step2_post_entries (fs : FileSys) (Q G : Str → Prop) (nh : Bool)
    (hQ : ∀ c e, Q c → G e → Q (c ++ '/' :: e))
    (hG : ∀ d dir e, fs.opendir d = some dir → e ∈ dir.names →
      Dir.skipped nh e = false → G e) :
    ∀ (fuel : Nat), GlobHelper.PostAt fs Q G nh fuel := by
  intro fuel
  induction fuel with
  | zero => intro name remain g _ _ _ _; trivial
  | succ n ih =>
    intro name remain g hnh hq hname hrem
    have ihstep : ∀ (g1 : GlobHelper), g1._needHidden = nh → Q g1._curPath →
        GlobHelper.Post fs Q g1 (GlobHelper._step fs n remain g1) := by
      intro g1 h1 h2
      unfold GlobHelper._step
      apply ih _ _ g1 h1 h2
      · intro hw hne
        exact hrem _ (StrView.splitByChar_fst_mem_segments remain) hw hne
      · intro seg hseg hw hne
        rcases StrView.mem_segments_of_splitByChar_snd remain seg hseg with h | h
        · exact hrem seg h hw hne
        · exact absurd h hne
    by_cases hl : StrView.indexOfAnyCharIn name ['*', '?'] < 0
    · rw [GlobHelper._step2_literal fs _ _ _ _ hl]
      by_cases hn : name = []
      · have hp : g.push name = g := by simp [GlobHelper.push, hn]
        rw [hp]
        apply GlobHelper.Post_resize
        by_cases hr : remain = []
        · rw [if_pos hr]
          exact GlobHelper.Post_appendIfWanted fs Q g hq
        · rw [if_neg hr]
          exact ihstep g hnh hq
      · have hp : g.push name = g.append name := by simp [GlobHelper.push, hn]
        rw [hp]
        apply GlobHelper.Post_append_resize
        have hq1 : Q (g.append name)._curPath := hQ _ _ hq (hname hl hn)
        by_cases hr : remain = []
        · rw [if_pos hr]
          exact GlobHelper.Post_appendIfWanted fs Q _ hq1
        · rw [if_neg hr]
          exact ihstep _ hnh hq1
    · rw [GlobHelper._step2_wildcard fs _ _ _ _ hl]
      apply GlobHelper.Post_andThen
      · by_cases hs : name = ['*', '*']
        · rw [if_pos hs]
          exact ihstep g hnh hq
        · rw [if_neg hs]
          exact GlobHelper.Post_ok_self fs Q g
      · intro a
        exact GlobHelper.expand_post_of_entries fs Q G nh n hQ hG ih name remain hl hrem _
          (by simpa using hnh) (by simpa using hq)

theorem Glob.search_paths_post_entries (fs : FileSys) (Q G : Str → Prop) (fuel : Nat)
    (out_paths : List Str) (path : Str) (needDir needFile needHidden : Bool)
    (hQ : ∀ c e, Q c → G e → Q (c ++ '/' :: e))
    (hG : ∀ d dir e, fs.opendir d = some dir → e ∈ dir.names →
      Dir.skipped needHidden e = false → G e)
    (hw : ¬ StrView.indexOfAnyCharIn path ['*', '?'] < 0)
    (hstart : Q (GlobHelper.start fs path))
    (hrem : ∀ seg ∈ StrView.segments (GlobHelper.remain fs path),
      StrView.indexOfAnyCharIn seg ['*', '?'] < 0 → seg ≠ [] → G seg) :
    ∀ p ∈ (Glob.search fs fuel out_paths path needDir needFile needHidden).paths,
      Q p ∧ ((needFile = true ∧ fs.fileExists p = true) ∨
        (needDir = true ∧ fs.dirExists p = true)) := by
  rw [Glob.search_wildcard_eq fs fuel out_paths path needDir needFile needHidden hw]
  have hpost : GlobHelper.Post fs Q (GlobHelper.initial fs [] path needDir needFile needHidden)
      (GlobHelper._step fs fuel (GlobHelper.remain fs path)
        (GlobHelper.initial fs [] path needDir needFile needHidden)) := by
    unfold GlobHelper._step
    apply GlobHelper._step2_post_entries fs Q G needHidden hQ hG _ _ _ _ rfl hstart
    · intro h1 h2
      exact hrem _ (StrView.splitByChar_fst_mem_segments _) h1 h2
    · intro seg hseg h1 h2
      rcases StrView.mem_segments_of_splitByChar_snd _ seg hseg with h | h
      · exact hrem seg h h1 h2
      · exact absurd h h2
  cases hr : GlobHelper._step fs fuel (GlobHelper.remain fs path)
      (GlobHelper.initial fs [] path needDir needFile needHidden) with
  | ok g =>
    rw [hr] at hpost
    obtain ⟨a, rfl, ha⟩ := hpost
    intro p hp
    exact ha p (by simpa [Outcome.paths, GlobHelper.initial] using hp)
  | thrown g =>
    rw [hr] at hpost
    obtain ⟨a, h1, ha⟩ := hpost
    intro p hp
    exact ha p (by simpa [Outcome.paths, GlobHelper.initial, h1] using hp)
  | outOfFuel =>
    intro p hp
    simp [Outcome.paths] at hp
/-- C9: hidden filtering.

(1) With `needHidden` off, `Glob::search` on a file system ends exactly as on the
same file system with every name that starts with `.` removed from every
directory stream: no such entry is ever taken, neither by the expansion of a
wildcard segment nor by the expansion of `**`.

(2) Hence, with `needHidden` off, a pattern whose wildcard-free segments after
the anchor do not start with `.`, and directory entries whose names hold no
separator `/`: every returned path is the anchor followed by segments, each
after one `/`, none of which holds a `/` and none of which starts with `.`.

(3) With `needHidden` on, on a file system whose directories nest to a finite
depth, whose entry names hold no wildcard character and none of whose streams
fails on reading: a visit of a wildcard segment `name` returns normally (with
one state `g2` for every recursion budget above some `n`), and it has taken
every entry `e` of the current directory other than `.` and `..`, whether it
starts with `.` or not: for `**` the walker has gone down into `e` with the same
segment, for another segment that `e` matches it has made the call
`_step2(e, remain)`; either call returned normally (in a state `g.emit b`, which
is `g` with the paths `b` found so far) and its paths are in the result of
`g2`. -/
theorem Glob.search_hidden_filter :
    (∀ (fs : FileSys) (fuel : Nat) (out_paths : List Str) (path : Str) (needDir needFile : Bool),
      Glob.search fs fuel out_paths path needDir needFile false =
        Glob.search fs.withoutHidden fuel out_paths path needDir needFile false) ∧
    (∀ (fs : FileSys) (fuel : Nat) (out_paths : List Str) (path : Str) (needDir needFile : Bool),
      ('*' ∈ path ∨ '?' ∈ path) →
      (∀ d dir e, fs.opendir d = some dir → e ∈ dir.names → '/' ∉ e) →
      (∀ seg ∈ StrView.segments (GlobHelper.remain fs path),
        StrView.indexOfAnyCharIn seg ['*', '?'] < 0 → StrView.startsWith seg ['.'] = false) →
      ∀ p ∈ (Glob.search fs fuel out_paths path needDir needFile false).paths,
        ∃ segs, p = Path.extend (GlobHelper.start fs path) segs ∧
          ∀ seg ∈ segs, StrView.startsWith seg ['.'] = false ∧ '/' ∉ seg) ∧
    (∀ (fs : FileSys) (height : Str → Nat),
      (∀ d dir e, fs.dirExists d = true → fs.opendir d = some dir → e ∈ dir.names →
        Dir.skipped true e = false → height (d ++ '/' :: e) < height d) →
      (∀ d dir e, fs.dirExists d = true → fs.opendir d = some dir → e ∈ dir.names →
        Dir.skipped true e = false → '*' ∉ e ∧ '?' ∉ e) →
      (∀ d dir, fs.opendir d = some dir → dir.readFails = false) →
      ∀ (name remain : Str) (g : GlobHelper) (dir : DirStream) (e : Str),
      g._needHidden = true →
      ¬ StrView.indexOfAnyCharIn name ['*', '?'] < 0 →
      fs.dirExists g._curPath = true → fs.opendir g._curPath = some dir →
      e ∈ dir.names → e ≠ ['.'] → e ≠ ['.', '.'] →
      ∃ n g2,
        (∀ fuel2, n + 1 ≤ fuel2 →
          GlobHelper._step2 fs fuel2 name remain g = Outcome.ok g2) ∧
        (name = ['*', '*'] →
          ∃ b gk, GlobHelper._step2 fs n ['*', '*'] remain ((g.emit b).append e) =
              Outcome.ok gk ∧
            ∀ p ∈ gk._out_paths, p ∈ g2._out_paths) ∧
        (name ≠ ['*', '*'] → GlobHelper.matchWildcard e name = true →
          ∃ b gk, GlobHelper._step2 fs n e remain (g.emit b) = Outcome.ok gk ∧
            ∀ p ∈ gk._out_paths, p ∈ g2._out_paths)) := by
  refine ⟨?_, ?_, ?_⟩
  · intro fs fuel out_paths path needDir needFile
    exact Glob.search_eq_withoutHidden fs fuel out_paths path needDir needFile
  · intro fs fuel out_paths path needDir needFile hw hslash hseg p hp
    have h := Glob.search_paths_post_entries fs
      (fun q => ∃ segs, q = Path.extend (GlobHelper.start fs path) segs ∧
        ∀ seg ∈ segs, StrView.startsWith seg ['.'] = false ∧ '/' ∉ seg)
      (fun e => StrView.startsWith e ['.'] = false ∧ '/' ∉ e) fuel out_paths path needDir
      needFile false ?_
      (fun d dir e ho hmem he => ⟨(Dir.skipped_false_iff e).mp he, hslash d dir e ho hmem⟩)
      (StrView.indexOfAnyCharIn_wildcard_of_mem path hw) ⟨[], rfl, by simp⟩
      (fun seg hs h1 _ => ⟨hseg seg hs h1, StrView.segments_no_slash _ seg hs⟩) p hp
    · exact h.1
    · rintro c e ⟨segs, rfl, hsegs⟩ he
      refine ⟨segs ++ [e], (Path.extend_append_singleton _ _ _).symm, ?_⟩
      intro seg hmem
      rcases List.mem_append.mp hmem with h1 | h1
      · exact hsegs seg h1
      · rw [List.mem_singleton] at h1
        rw [h1]
        exact he
  · intro fs height hrank hnames hreads name remain g dir e hnh hl hd ho he h1 h2
    obtain ⟨fuel, g2, hret⟩ := GlobHelper._step2_returns fs height hrank hnames hreads
      name remain g
    have hrun := hret fuel (le_refl _)
    cases fuel with
    | zero => exact absurd hrun (by simp [GlobHelper._step2])
    | succ n =>
      refine ⟨n, g2, hret, ?_⟩
      exact GlobHelper._step2_takes_entry_of_ok fs n name remain g g2 dir e hnh hl hrun hd ho he
        h1 h2

/-- Witness of C9: the directory `/d` holds `.env`, `a.txt` and the hidden
directory `.git` with the file `config`. Without `needHidden` the patterns
`/d/*` and `/d/**` return `a.txt` only; with it they return `.env` too, and
`/d/**` also `.git/config`. -/
theorem Glob.search_hidden_filter_witness :
    Glob.search hiddenFS 6 [] "/d/*".toList false true false = Outcome.ok ["/d/a.txt".toList] ∧
    Glob.search hiddenFS 6 [] "/d/*".toList false true true =
      Outcome.ok ["/d/.env".toList, "/d/a.txt".toList] ∧
    Glob.search hiddenFS 6 [] "/d/**".toList false true false = Outcome.ok ["/d/a.txt".toList] ∧
    Glob.search hiddenFS 6 [] "/d/**".toList false true true =
      Outcome.ok ["/d/.env".toList, "/d/a.txt".toList, "/d/.git/config".toList] ∧
    (∀ p ∈ (Glob.search hiddenFS 6 [] "/d/**/*".toList false true false).paths,
      ∃ segs, p = Path.extend (GlobHelper.start hiddenFS "/d/**/*".toList) segs ∧
        ∀ seg ∈ segs, StrView.startsWith seg ['.'] = false ∧ '/' ∉ seg) ∧
    (∃ n g2,
      (∀ fuel2, n + 1 ≤ fuel2 →
        GlobHelper._step2 hiddenFS fuel2 "*".toList [] ⟨[], "/d".toList, false, true, true⟩ =
          Outcome.ok g2) ∧
      (("*".toList : Str) = ['*', '*'] →
        ∃ b gk, GlobHelper._step2 hiddenFS n ['*', '*'] []
            ((GlobHelper.emit ⟨[], "/d".toList, false, true, true⟩ b).append ".env".toList) =
            Outcome.ok gk ∧
          ∀ p ∈ gk._out_paths, p ∈ g2._out_paths) ∧
      (("*".toList : Str) ≠ ['*', '*'] →
        GlobHelper.matchWildcard ".env".toList "*".toList = true →
        ∃ b gk, GlobHelper._step2 hiddenFS n ".env".toList []
            (GlobHelper.emit ⟨[], "/d".toList, false, true, true⟩ b) = Outcome.ok gk ∧
          ∀ p ∈ gk._out_paths, p ∈ g2._out_paths)) :=
  ⟨by decide, by decide, by decide, by decide,
   Glob.search_hidden_filter.2.1 hiddenFS 6 [] "/d/**/*".toList false true (by decide)
     hiddenFS_no_slash (by decide),
   Glob.search_hidden_filter.2.2 hiddenFS (fun p => 100 - p.length) hiddenFS_rank
     hiddenFS_no_wildcard hiddenFS_reads "*".toList [] ⟨[], "/d".toList, false, true, true⟩
     ⟨[".".toList, "..".toList, ".env".toList, "a.txt".toList, ".git".toList], false⟩
     ".env".toList rfl (by decide) (by decide) (by decide) (by decide) (by decide) (by decide)⟩

/-! ## Theorems: hard directory failure, the raised `Error` -/

theorem GlobHelper.pre_fresh_emit (g : GlobHelper) (d : Str) (o b : List Str) :
    ((g.fresh d).pre o).emit b = (g.fresh d).pre (o ++ b) := by
  simp [GlobHelper.fresh, GlobHelper.pre, GlobHelper.emit]

theorem GlobHelper.pre_fresh_push (g : GlobHelper) (d : Str) (o : List Str) (name : Str) :
    ((g.fresh d).pre o).push name =
      (g.fresh (if name ≠ [] then d ++ '/' :: name else d)).pre o := by
  unfold GlobHelper.push
  by_cases hn : name = []
  · simp [hn]
  · simp only [hn, ne_eq, not_false_eq_true, if_true]
    rfl

/-- If the walk leads from one call of `_step2` to another and the second never
returns normally, then the first never returns normally. -/
theorem GlobHelper._step2_ne_ok_of_visits (fs : FileSys) (g0 : GlobHelper)
    (name remain c n2 r2 c2 : Str)
    (hv : GlobHelper.Visits fs g0._needHidden name remain c n2 r2 c2) :
    (∀ fuel o g2, GlobHelper._step2 fs fuel n2 r2 ((g0.fresh c2).pre o) ≠ Outcome.ok g2) →
    ∀ fuel o g2, GlobHelper._step2 fs fuel name remain ((g0.fresh c).pre o) ≠ Outcome.ok g2 := by
  induction hv with
  | here => exact fun h => h
  | caseA n1 r1 c1 _ hl hr ih =>
    intro hne
    apply ih
    intro fuel o g2 h
    cases fuel with
    | zero => exact absurd h (by simp [GlobHelper._step2])
    | succ n =>
      rw [GlobHelper._step2_literal fs _ _ _ _ hl, if_neg hr, GlobHelper.pre_fresh_push] at h
      cases hs : GlobHelper._step fs n r1
          ((g0.fresh (if n1 ≠ [] then c1 ++ '/' :: n1 else c1)).pre o) with
      | ok g3 => exact hne n o g3 hs
      | thrown g3 =>
        rw [hs] at h
        exact absurd h (by simp [Outcome.andThen])
      | outOfFuel =>
        rw [hs] at h
        exact absurd h (by simp [Outcome.andThen])
  | zeroMatch r1 c1 _ ih =>
    intro hne
    apply ih
    intro fuel o g2 h
    cases fuel with
    | zero => exact absurd h (by simp [GlobHelper._step2])
    | succ n =>
      obtain ⟨a0, h0, -⟩ := (GlobHelper._step2_doubleStar_inv fs n r1 _ g2 h).1
      exact hne n o _ h0
  | down r1 c1 dir e _ hd ho he hsk ih =>
    intro hne
    apply ih
    intro fuel o g2 h
    cases fuel with
    | zero => exact absurd h (by simp [GlobHelper._step2])
    | succ n =>
      obtain ⟨b, gk, hk, -⟩ := (GlobHelper._step2_doubleStar_inv fs n r1 _ g2 h).2
        dir e hd ho he hsk
      rw [GlobHelper.pre_fresh_emit_append] at hk
      exact hne n (o ++ b) gk hk
  | caseC n1 r1 c1 dir e _ hl hs hd ho he hsk hm ih =>
    intro hne
    apply ih
    intro fuel o g2 h
    cases fuel with
    | zero => exact absurd h (by simp [GlobHelper._step2])
    | succ n =>
      obtain ⟨b, gi, hb, -⟩ := GlobHelper._step2_wildcard_runs_body fs n n1 r1 _ g2 hl h
        dir e hd ho he hsk
      unfold GlobHelper.entryBody at hb
      rw [if_neg hs, if_pos hm, GlobHelper.pre_fresh_emit] at hb
      exact hne n (o ++ b) gi hb

/-- The walk from a visit of `**` leads to the visit of `**` at every directory
that descends from its buffer. -/
theorem GlobHelper.visits_of_descends (fs : FileSys) (nh : Bool) (remain b d : Str)
    (hd : GlobHelper.Descends fs nh b d) :
    GlobHelper.Visits fs nh ['*', '*'] remain b ['*', '*'] remain d := by
  induction hd with
  | here => exact GlobHelper.Visits.here
  | entry d dir e _ hdir hopen he hsk ih =>
    exact GlobHelper.Visits.down remain d dir e ih hdir hopen he hsk

/-- A call of the walker that leads to the visit of a wildcard segment at a
directory whose stream fails never returns normally. -/
theorem GlobHelper._step2_visits_readFails_ne_ok (fs : FileSys) (name remain : Str)
    (g : GlobHelper) (n2 r2 c2 : Str) (dir : DirStream)
    (hv : GlobHelper.Visits fs g._needHidden name remain g._curPath n2 r2 c2)
    (hl : ¬ StrView.indexOfAnyCharIn n2 ['*', '?'] < 0)
    (hd : fs.dirExists c2 = true) (ho : fs.opendir c2 = some dir) (hrf : dir.readFails = true)
    (fuel : Nat) (g2 : GlobHelper) :
    GlobHelper._step2 fs fuel name remain g ≠ Outcome.ok g2 := by
  have h := GlobHelper._step2_ne_ok_of_visits fs g name remain g._curPath n2 r2 c2 hv
    (fun fuel o g3 =>
      GlobHelper._step2_readFails_ne_ok fs fuel n2 r2 ((g.fresh c2).pre o) g3 dir hl hd ho hrf)
    fuel g._out_paths g2
  rw [GlobHelper.pre_fresh_self] at h
  exact h

/-- C12, as the code has it: hard directory failure.

(1) The visit of a wildcard segment at an existing directory that opens and
whose stream fails on reading never returns normally.

(2) The failure may lie at any point of the walk: a call of `_step2` that leads
(through any number of frames of any kind, see `Visits`) to such a visit never
returns normally.

(3) On a file system whose directories nest to a finite depth (`height` goes
down from a directory to each of its entries) and whose entry names hold no
wildcard character, such a call ends with a raised `Error`, the same for every
recursion budget from some budget on; and `Glob::search` raises an `Error`
whenever the walk it starts leads to the visit of a wildcard segment at a
directory whose stream fails. Every path that is in the caller's vector then
passed the terminal test.

(4) A raised `Error` passes unchanged through every frame: through Case A (the
call `_step(remain)`), through the zero-match call of `**`, through the loop
over the entries (whatever the loop body calls), and through `Glob::search`,
whose caller finds in `out_paths` what the vector held at the `throw`.

(5) Whenever `Glob::search` ends with a raised `Error`, every path that is in
the caller's vector then passed the terminal test (the paths found before the
failure stay there). -/
theorem Glob.search_hard_directory_failure (fs : FileSys) :
    (∀ (n : Nat) (name remain : Str) (g g2 : GlobHelper) (dir : DirStream),
      ¬ StrView.indexOfAnyCharIn name ['*', '?'] < 0 →
      fs.dirExists g._curPath = true → fs.opendir g._curPath = some dir →
      dir.readFails = true →
      GlobHelper._step2 fs n name remain g ≠ Outcome.ok g2) ∧
    (∀ (fuel : Nat) (name remain : Str) (g g2 : GlobHelper) (n2 r2 c2 : Str) (dir : DirStream),
      GlobHelper.Visits fs g._needHidden name remain g._curPath n2 r2 c2 →
      ¬ StrView.indexOfAnyCharIn n2 ['*', '?'] < 0 →
      fs.dirExists c2 = true → fs.opendir c2 = some dir → dir.readFails = true →
      GlobHelper._step2 fs fuel name remain g ≠ Outcome.ok g2) ∧
    (∀ (height : Str → Nat),
      (∀ d dir e, fs.dirExists d = true → fs.opendir d = some dir → e ∈ dir.names →
        Dir.skipped true e = false → height (d ++ '/' :: e) < height d) →
      (∀ d dir e, fs.dirExists d = true → fs.opendir d = some dir → e ∈ dir.names →
        Dir.skipped true e = false → '*' ∉ e ∧ '?' ∉ e) →
      (∀ (name remain : Str) (g : GlobHelper) (n2 r2 c2 : Str) (dir : DirStream),
        GlobHelper.Visits fs g._needHidden name remain g._curPath n2 r2 c2 →
        ¬ StrView.indexOfAnyCharIn n2 ['*', '?'] < 0 →
        fs.dirExists c2 = true → fs.opendir c2 = some dir → dir.readFails = true →
        ∃ fuel s, ∀ fuel2, fuel ≤ fuel2 →
          GlobHelper._step2 fs fuel2 name remain g = Outcome.thrown s) ∧
      (∀ (out_paths : List Str) (path : Str) (needDir needFile needHidden : Bool)
          (n2 r2 c2 : Str) (dir : DirStream),
        ('*' ∈ path ∨ '?' ∈ path) →
        GlobHelper.Visits fs needHidden
          (StrView.splitByChar (GlobHelper.remain fs path) '/').1
          (StrView.splitByChar (GlobHelper.remain fs path) '/').2
          (GlobHelper.start fs path) n2 r2 c2 →
        ¬ StrView.indexOfAnyCharIn n2 ['*', '?'] < 0 →
        fs.dirExists c2 = true → fs.opendir c2 = some dir → dir.readFails = true →
        ∃ fuel out,
          (∀ fuel2, fuel ≤ fuel2 →
            Glob.search fs fuel2 out_paths path needDir needFile needHidden =
              Outcome.thrown out) ∧
          ∀ p ∈ out, (needFile = true ∧ fs.fileExists p = true) ∨
            (needDir = true ∧ fs.dirExists p = true))) ∧
    (∀ (n : Nat) (name remain : Str) (g s : GlobHelper),
      StrView.indexOfAnyCharIn name ['*', '?'] < 0 → remain ≠ [] →
      GlobHelper._step fs n remain (g.push name) = Outcome.thrown s →
      GlobHelper._step2 fs (n + 1) name remain g = Outcome.thrown s) ∧
    (∀ (n : Nat) (remain : Str) (g s : GlobHelper),
      GlobHelper._step fs n remain g = Outcome.thrown s →
      GlobHelper._step2 fs (n + 1) ['*', '*'] remain g = Outcome.thrown s) ∧
    (∀ (body : Str → GlobHelper → Outcome GlobHelper) (readFails : Bool)
        (pre : List Str) (f : Str) (rest : List Str) (g g1 s : GlobHelper),
      GlobHelper.whileGetEntry body false pre g = Outcome.ok g1 →
      Dir.skipped g1._needHidden f = false → body f g1 = Outcome.thrown s →
      GlobHelper.whileGetEntry body readFails (pre ++ f :: rest) g = Outcome.thrown s) ∧
    (∀ (fuel : Nat) (out_paths : List Str) (path : Str) (needDir needFile needHidden : Bool)
        (s : GlobHelper),
      ('*' ∈ path ∨ '?' ∈ path) →
      GlobHelper.search fs fuel [] path needDir needFile needHidden = Outcome.thrown s →
      Glob.search fs fuel out_paths path needDir needFile needHidden =
        Outcome.thrown s._out_paths) ∧
    (∀ (fuel : Nat) (out_paths : List Str) (path : Str) (needDir needFile needHidden : Bool)
        (out : List Str),
      ('*' ∈ path ∨ '?' ∈ path) →
      Glob.search fs fuel out_paths path needDir needFile needHidden = Outcome.thrown out →
      ∀ p ∈ out, (needFile = true ∧ fs.fileExists p = true) ∨
        (needDir = true ∧ fs.dirExists p = true)) := by
  have hwanted : ∀ (fuel : Nat) (out_paths : List Str) (path : Str)
      (needDir needFile needHidden : Bool) (out : List Str),
      ('*' ∈ path ∨ '?' ∈ path) →
      Glob.search fs fuel out_paths path needDir needFile needHidden = Outcome.thrown out →
      ∀ p ∈ out, (needFile = true ∧ fs.fileExists p = true) ∨
        (needDir = true ∧ fs.dirExists p = true) := by
    intro fuel out_paths path needDir needFile needHidden out hw h p hp
    have hpost := Glob.search_paths_post fs (fun _ => True) (fun _ => True) fuel out_paths path
      needDir needFile needHidden (fun _ _ _ _ => trivial) (fun _ _ => trivial)
      (StrView.indexOfAnyCharIn_wildcard_of_mem path hw) trivial (fun _ _ _ _ => trivial) p
    rw [h] at hpost
    exact (hpost hp).2
  refine ⟨?_, ?_, ?_, ?_, ?_, ?_, ?_, hwanted⟩
  · intro n name remain g g2 dir hl hd ho hrf
    exact GlobHelper._step2_readFails_ne_ok fs n name remain g g2 dir hl hd ho hrf
  · intro fuel name remain g g2 n2 r2 c2 dir hv hl hd ho hrf
    exact GlobHelper._step2_visits_readFails_ne_ok fs name remain g n2 r2 c2 dir hv hl hd ho hrf
      fuel g2
  · intro height hrank hnames
    refine ⟨?_, ?_⟩
    · intro name remain g n2 r2 c2 dir hv hl hd ho hrf
      exact GlobHelper._step2_thrown_of_ne_ok fs height hrank hnames name remain g
        (GlobHelper._step2_visits_readFails_ne_ok fs name remain g n2 r2 c2 dir hv hl hd ho hrf)
    · intro out_paths path needDir needFile needHidden n2 r2 c2 dir hw hv hl hd ho hrf
      obtain ⟨fuel, s, hth⟩ := GlobHelper._step2_thrown_of_ne_ok fs height hrank hnames _ _ _
        (GlobHelper._step2_visits_readFails_ne_ok fs
          (StrView.splitByChar (GlobHelper.remain fs path) '/').1
          (StrView.splitByChar (GlobHelper.remain fs path) '/').2
          (GlobHelper.initial fs [] path needDir needFile needHidden) n2 r2 c2 dir hv hl hd ho hrf)
      have hsearch : ∀ fuel2, fuel ≤ fuel2 →
          Glob.search fs fuel2 out_paths path needDir needFile needHidden =
            Outcome.thrown s._out_paths := by
        intro fuel2 hle
        rw [Glob.search_wildcard_eq fs _ _ _ _ _ _
          (StrView.indexOfAnyCharIn_wildcard_of_mem path hw)]
        unfold GlobHelper._step
        rw [hth fuel2 hle]
      exact ⟨fuel, s._out_paths, hsearch,
        hwanted fuel out_paths path needDir needFile needHidden _ hw (hsearch fuel (le_refl _))⟩
  · intro n name remain g s hl hr h
    rw [GlobHelper._step2_literal fs _ _ _ _ hl, if_neg hr, h]
    rfl
  · intro n remain g s h
    rw [GlobHelper._step2_wildcard fs _ _ _ _ GlobHelper.doubleStar_has_wildcard, if_pos rfl, h]
    rfl
  · intro body readFails pre f rest g g1 s h hs hb
    exact GlobHelper.whileGetEntry_thrown body readFails f rest s pre g g1 h hs hb
  · intro fuel out_paths path needDir needFile needHidden s hw h
    rw [Glob.search_wildcard_eq fs _ _ _ _ _ _ (StrView.indexOfAnyCharIn_wildcard_of_mem path hw)]
    rw [GlobHelper.search_eq] at h
    rw [h]

/-- Witness of C12: in `failingFS` the stream of `/d/sub` fails. The pattern
`/d/**` leads to the visit of `**` at `/d/sub`, one level down, and the pattern
`/d/s?b/*` leads to the visit of `*` at `/d/sub` through a Case C call and a
Case A call: in both cases `Glob::search` raises an `Error`, and every path in
the vector then is a regular file. -/
theorem Glob.search_hard_directory_failure_witness :
    (∃ fuel out,
      (∀ fuel2, fuel ≤ fuel2 →
        Glob.search failingFS fuel2 [] "/d/**".toList false true false = Outcome.thrown out) ∧
      ∀ p ∈ out, (true = true ∧ failingFS.fileExists p = true) ∨
        (false = true ∧ failingFS.dirExists p = true)) ∧
    (∃ fuel out,
      (∀ fuel2, fuel ≤ fuel2 →
        Glob.search failingFS fuel2 [] "/d/s?b/*".toList false true false =
          Outcome.thrown out) ∧
      ∀ p ∈ out, (true = true ∧ failingFS.fileExists p = true) ∨
        (false = true ∧ failingFS.dirExists p = true)) :=
  ⟨((Glob.search_hard_directory_failure failingFS).2.2.1 (fun p => 100 - p.length)
      failingFS_rank failingFS_no_wildcard).2 [] "/d/**".toList false true false
      ['*', '*'] [] "/d/sub".toList ⟨[".".toList, "..".toList], true⟩ (by decide)
      (GlobHelper.Visits.down [] "/d".toList
        ⟨[".".toList, "..".toList, "a.txt".toList, "sub".toList], false⟩ "sub".toList
        GlobHelper.Visits.here (by decide) (by decide) (by decide) (by decide))
      (by decide) (by decide) (by decide) rfl,
   ((Glob.search_hard_directory_failure failingFS).2.2.1 (fun p => 100 - p.length)
      failingFS_rank failingFS_no_wildcard).2 [] "/d/s?b/*".toList false true false
      "*".toList [] "/d/sub".toList ⟨[".".toList, "..".toList], true⟩ (by decide)
      (GlobHelper.Visits.caseA "sub".toList "*".toList "/d".toList
        (GlobHelper.Visits.caseC "s?b".toList "*".toList "/d".toList
          ⟨[".".toList, "..".toList, "a.txt".toList, "sub".toList], false⟩ "sub".toList
          GlobHelper.Visits.here (by decide) (by decide) (by decide) (by decide) (by decide)
          (by decide) (by decide))
        (by decide) (by decide))
      (by decide) (by decide) (by decide) rfl⟩

/-- Counterexample to C12 as stated: in `failingFS` the file `/d/a.txt` is found
before the stream of `/d/sub` fails. `Glob::search` on `/d/**` ends with a
raised `Error`, and the caller's vector then holds `/d/a.txt`: a partial result
is delivered. -/
theorem Glob.search_delivers_partial_result :
    Glob.search failingFS 6 [] "/d/**".toList false true false =
      Outcome.thrown ["/d/a.txt".toList] ∧
    (Glob.search failingFS 6 [] "/d/**".toList false true false).paths ≠ [] := by
  decide

/-! ## Theorems: a directory entry whose name holds a wildcard character -/

/-- With no bound on the streams held open, the walker with its open streams
counted is the walker `_step2`. -/
theorem GlobHelper._step2At_none (fs : FileSys) :
    ∀ (fuel opened : Nat) (name remain : Str) (g : GlobHelper),
      GlobHelper._step2At fs none fuel opened name remain g =
        GlobHelper._step2 fs fuel name remain g := by
  intro fuel
  induction fuel with
  | zero => intro _ _ _ _; rfl
  | succ n ih =>
    intro opened name remain g
    rw [GlobHelper._step2At, GlobHelper._step2]
    simp only [ih, FileSys.opendirAt]

theorem Glob.searchAt_none (fs : FileSys) (fuel : Nat) (out_paths : List Str) (path : Str)
    (needDir needFile needHidden : Bool) :
    Glob.searchAt fs none fuel out_paths path needDir needFile needHidden =
      Glob.search fs fuel out_paths path needDir needFile needHidden := by
  unfold Glob.searchAt Glob.search GlobHelper.searchAt GlobHelper.search GlobHelper._step
  simp only [GlobHelper._step2At_none]

/-- Case A of the walker with the open streams counted. -/
theorem GlobHelper._step2At_literal (fs : FileSys) (maxOpen : Option Nat) (fuel opened : Nat)
    (name remain : Str) (g : GlobHelper)
    (h : StrView.indexOfAnyCharIn name ['*', '?'] < 0) :
    GlobHelper._step2At fs maxOpen (fuel + 1) opened name remain g =
      (if remain = [] then Outcome.ok (GlobHelper.appendIfWanted fs (g.push name))
        else GlobHelper._step2At fs maxOpen fuel opened
          (StrView.splitByChar remain '/').1 (StrView.splitByChar remain '/').2
          (g.push name)).andThen
        fun g2 => Outcome.ok (g2.resize g._curPath.length) := by
  rw [GlobHelper._step2At]
  simp only [h, if_true]
  unfold GlobHelper.push GlobHelper.append GlobHelper.appendIfWanted
    Outcome.andThen GlobHelper.resize
  by_cases hr : remain = []
  · simp only [hr, if_true]
    split_ifs <;> rfl
  · simp only [hr, if_false]
    generalize GlobHelper._step2At fs maxOpen fuel opened _ _ _ = r
    cases r <;> rfl

/-- The loop body of `_step2` (lines 182-196) with the open streams counted: the
calls it makes run with the stream of the frame open. -/
theorem GlobHelper._step2At_wildcard_any (fs : FileSys) (maxOpen : Option Nat)
    (fuel opened : Nat) (name remain : Str) (g : GlobHelper)
    (h : ¬ StrView.indexOfAnyCharIn name ['*', '?'] < 0) :
    GlobHelper._step2At fs maxOpen (fuel + 1) opened name remain g =
      (if name = ['*', '*'] then
          GlobHelper._step2At fs maxOpen fuel opened
            (StrView.splitByChar remain '/').1 (StrView.splitByChar remain '/').2 g
        else Outcome.ok g).andThen
        fun g0 =>
          if !fs.dirExists g0._curPath then Outcome.ok g0
          else
            match fs.opendirAt maxOpen opened g0._curPath with
            | none => Outcome.ok g0
            | some dir =>
              GlobHelper.whileGetEntry
                (fun entry gi =>
                  if name = ['*', '*'] then
                    (GlobHelper._step2At fs maxOpen fuel (opened + 1) name remain
                      (gi.append entry)).andThen
                      fun gk => Outcome.ok (gk.resize gi._curPath.length)
                  else if GlobHelper.matchWildcard entry name then
                    GlobHelper._step2At fs maxOpen fuel (opened + 1) entry remain gi
                  else Outcome.ok gi)
                dir.readFails dir.names g0 := by
  rw [GlobHelper._step2At]
  simp only [h, if_false]
  have hb : (fun entry gi =>
      if name = ['*', '*'] then
        match GlobHelper._step2At fs maxOpen fuel (opened + 1) name remain
            (if name ≠ [] then { gi with _curPath := gi._curPath ++ '/' :: entry } else gi) with
        | Outcome.ok gk => Outcome.ok { gk with _curPath := gk._curPath.take gi._curPath.length }
        | e => e
      else if GlobHelper.matchWildcard entry name then
        GlobHelper._step2At fs maxOpen fuel (opened + 1) entry remain gi
      else Outcome.ok gi) =
      (fun entry gi =>
        if name = ['*', '*'] then
          (GlobHelper._step2At fs maxOpen fuel (opened + 1) name remain
            (gi.append entry)).andThen
            fun gk => Outcome.ok (gk.resize gi._curPath.length)
        else if GlobHelper.matchWildcard entry name then
          GlobHelper._step2At fs maxOpen fuel (opened + 1) entry remain gi
        else Outcome.ok gi) := by
    funext entry gi
    by_cases hn : name = ['*', '*']
    · subst hn
      simp only [if_true, GlobHelper.append, Outcome.andThen, GlobHelper.resize, ne_eq,
        List.cons_ne_nil, not_false_eq_true, reduceCtorEq]
      generalize GlobHelper._step2At fs maxOpen fuel (opened + 1) _ _ _ = r
      cases r <;> rfl
    · simp only [hn, if_false]
  simp only [hb]
  unfold Outcome.andThen
  generalize (if name = ['*', '*'] then GlobHelper._step2At fs maxOpen fuel opened _ _ g
    else Outcome.ok g) = r
  cases r <;> rfl

theorem GlobHelper.whileGetEntry_ne_outOfFuel_of_body
    (body : Str → GlobHelper → Outcome GlobHelper) (readFails : Bool)
    (hbody : ∀ e g, body e g ≠ Outcome.outOfFuel) :
    ∀ (names : List Str) (g : GlobHelper),
      GlobHelper.whileGetEntry body readFails names g ≠ Outcome.outOfFuel := by
  intro names
  induction names with
  | nil =>
    intro g
    rw [GlobHelper.whileGetEntry_nil]
    cases readFails <;> simp
  | cons f rest ih =>
    intro g
    rw [GlobHelper.whileGetEntry_cons]
    by_cases hs : Dir.skipped g._needHidden f = true
    · rw [if_pos hs]
      exact ih g
    · rw [if_neg hs]
      cases hb : body f g with
      | ok g1 =>
        rw [Outcome.andThen_ok]
        exact ih g1
      | thrown g1 => simp [Outcome.andThen]
      | outOfFuel => exact absurd hb (hbody f g)

/-- With a bound `maxOpen` on the streams the process can hold open, every call
of the walker ends, on every file system: a recursion budget of the free
descriptors plus the length of the remaining pattern plus two is enough. -/
theorem GlobHelper._step2At_ends (fs : FileSys) (maxOpen : Nat) :
    ∀ (fuel opened : Nat) (name remain : Str) (g : GlobHelper),
      (maxOpen - opened) + remain.length + 2 ≤ fuel →
      GlobHelper._step2At fs (some maxOpen) fuel opened name remain g ≠ Outcome.outOfFuel := by
  intro fuel
  induction fuel with
  | zero =>
    intro opened name remain g h
    exact absurd h (by omega)
  | succ n ih =>
    intro opened name remain g h
    have hstep : ∀ (g1 : GlobHelper),
        GlobHelper._step2At fs (some maxOpen) n opened
          (StrView.splitByChar remain '/').1 (StrView.splitByChar remain '/').2 g1 ≠
            Outcome.outOfFuel := by
      intro g1
      by_cases hr : remain = []
      · subst hr
        obtain ⟨n2, rfl⟩ : ∃ n2, n = n2 + 1 := ⟨n - 1, by simp at h; omega⟩
        have hl : StrView.indexOfAnyCharIn (StrView.splitByChar [] '/').1 ['*', '?'] < 0 := by
          decide
        have h2 : (StrView.splitByChar [] '/').2 = [] := rfl
        rw [GlobHelper._step2At_literal fs _ _ _ _ _ _ hl, if_pos h2]
        simp [Outcome.andThen]
      · apply ih
        have := StrView.splitByChar_snd_length_lt remain '/' hr
        omega
    by_cases hl : StrView.indexOfAnyCharIn name ['*', '?'] < 0
    · rw [GlobHelper._step2At_literal fs _ _ _ _ _ _ hl]
      apply Outcome.andThen_ok_ne_outOfFuel
      by_cases hr : remain = []
      · rw [if_pos hr]
        simp
      · rw [if_neg hr]
        exact hstep _
    · rw [GlobHelper._step2At_wildcard_any fs _ _ _ _ _ _ hl]
      have h0 : (if name = ['*', '*'] then
            GlobHelper._step2At fs (some maxOpen) n opened
              (StrView.splitByChar remain '/').1 (StrView.splitByChar remain '/').2 g
          else Outcome.ok g) ≠ Outcome.outOfFuel := by
        by_cases hs : name = ['*', '*']
        · rw [if_pos hs]
          exact hstep g
        · rw [if_neg hs]
          simp
      cases hr : (if name = ['*', '*'] then
            GlobHelper._step2At fs (some maxOpen) n opened
              (StrView.splitByChar remain '/').1 (StrView.splitByChar remain '/').2 g
          else Outcome.ok g) with
      | ok g0 =>
        rw [Outcome.andThen_ok]
        by_cases hd : (!fs.dirExists g0._curPath) = true
        · rw [if_pos hd]
          simp
        · rw [if_neg hd]
          by_cases hk : maxOpen ≤ opened
          · have ho : fs.opendirAt (some maxOpen) opened g0._curPath = none := by
              unfold FileSys.opendirAt
              simp only [hk, if_true]
            rw [ho]
            simp
          · cases ho : fs.opendirAt (some maxOpen) opened g0._curPath with
            | none => simp
            | some dir =>
              simp only
              apply GlobHelper.whileGetEntry_ne_outOfFuel_of_body
              intro e gi
              by_cases hs : name = ['*', '*']
              · rw [if_pos hs]
                apply Outcome.andThen_ok_ne_outOfFuel
                apply ih
                omega
              · rw [if_neg hs]
                by_cases hm : GlobHelper.matchWildcard e name = true
                · rw [if_pos hm]
                  apply ih
                  omega
                · rw [if_neg hm]
                  simp
      | thrown g0 => simp [Outcome.andThen]
      | outOfFuel => exact absurd hr h0

/-- With a bound `maxOpen` on the streams the process can hold open,
`Glob::search` ends for every file system, every pattern and every filter
setting, given a recursion budget of `maxOpen` plus the length of the pattern
after the anchor plus two. -/
theorem Glob.searchAt_ends (fs : FileSys) (maxOpen fuel : Nat) (out_paths : List Str)
    (path : Str) (needDir needFile needHidden : Bool)
    (h : maxOpen + (GlobHelper.remain fs path).length + 2 ≤ fuel) :
    Glob.searchAt fs (some maxOpen) fuel out_paths path needDir needFile needHidden ≠
      Outcome.outOfFuel := by
  unfold Glob.searchAt
  by_cases hw : StrView.indexOfAnyCharIn path ['*', '?'] < 0
  · simp [hw]
  · simp only [hw, if_false]
    have hne : GlobHelper.searchAt fs (some maxOpen) fuel [] path needDir needFile needHidden ≠
        Outcome.outOfFuel := by
      unfold GlobHelper.searchAt
      apply GlobHelper._step2At_ends
      have := StrView.splitByCharInList_snd_length_le (GlobHelper.remain fs path) ['/']
      unfold StrView.splitByChar
      unfold GlobHelper.remain GlobHelper.start at this h
      simp only [Nat.sub_zero]
      omega
    cases hr : GlobHelper.searchAt fs (some maxOpen) fuel [] path needDir needFile needHidden with
    | ok g => simp
    | thrown g => simp
    | outOfFuel => exact absurd hr hne

/-- Case C of the walker with the open streams counted: a segment with a
wildcard character other than `**`. -/
theorem GlobHelper._step2At_wildcard (fs : FileSys) (maxOpen : Option Nat) (fuel opened : Nat)
    (name remain : Str) (g : GlobHelper)
    (h : ¬ StrView.indexOfAnyCharIn name ['*', '?'] < 0) (hs : name ≠ ['*', '*']) :
    GlobHelper._step2At fs maxOpen (fuel + 1) opened name remain g =
      if !fs.dirExists g._curPath then Outcome.ok g
      else
        match fs.opendirAt maxOpen opened g._curPath with
        | none => Outcome.ok g
        | some dir =>
          GlobHelper.whileGetEntry
            (fun entry gi =>
              if GlobHelper.matchWildcard entry name then
                GlobHelper._step2At fs maxOpen fuel (opened + 1) entry remain gi
              else Outcome.ok gi)
            dir.readFails dir.names g := by
  rw [GlobHelper._step2At]
  simp only [h, hs, if_false]

theorem GlobHelper._step2At_star_entry_full (m n k : Nat) (h : m ≤ k) :
    GlobHelper._step2At starFS (some m) (n + 1) k "*".toList []
      ⟨[], "/d".toList, false, true, false⟩ =
        Outcome.ok ⟨[], "/d".toList, false, true, false⟩ := by
  rw [GlobHelper._step2At_wildcard starFS _ _ _ _ _ _ (by decide) (by decide)]
  have hd : ¬ (!starFS.dirExists
      (⟨[], "/d".toList, false, true, false⟩ : GlobHelper)._curPath) = true := by decide
  rw [if_neg hd]
  have ho : starFS.opendirAt (some m) k
      (⟨[], "/d".toList, false, true, false⟩ : GlobHelper)._curPath = none := by
    unfold FileSys.opendirAt
    simp only [h, if_true]
  rw [ho]

theorem GlobHelper._step2At_star_entry_reenters (m n k : Nat) (h : k < m) :
    GlobHelper._step2At starFS (some m) (n + 2) k "*".toList []
      ⟨[], "/d".toList, false, true, false⟩ =
    GlobHelper._step2At starFS (some m) (n + 1) (k + 1) "*".toList []
      ⟨[], "/d".toList, false, true, false⟩ := by
  rw [GlobHelper._step2At_wildcard starFS _ (n + 1) _ _ _ _ (by decide) (by decide)]
  have hd : ¬ (!starFS.dirExists
      (⟨[], "/d".toList, false, true, false⟩ : GlobHelper)._curPath) = true := by decide
  rw [if_neg hd]
  have ho : starFS.opendirAt (some m) k
      (⟨[], "/d".toList, false, true, false⟩ : GlobHelper)._curPath =
        some ⟨[".".toList, "..".toList, "*".toList], false⟩ := by
    unfold FileSys.opendirAt
    simp only [Nat.not_le.mpr h, if_false]
    decide
  rw [ho]
  simp only
  rw [GlobHelper.whileGetEntry_cons, if_pos (by decide), GlobHelper.whileGetEntry_cons,
    if_pos (by decide), GlobHelper.whileGetEntry_cons, if_neg (by decide)]
  have hm : GlobHelper.matchWildcard "*".toList "*".toList = true := by decide
  simp only [hm, if_true]
  generalize GlobHelper._step2At starFS (some m) (n + 1) (k + 1) "*".toList []
    ⟨[], "/d".toList, false, true, false⟩ = r
  cases r <;> rfl

theorem GlobHelper._step2At_star_entry_returns :
    ∀ (j m k fuel : Nat), m = k + j → j + 1 ≤ fuel →
      GlobHelper._step2At starFS (some m) fuel k "*".toList []
        ⟨[], "/d".toList, false, true, false⟩ =
          Outcome.ok ⟨[], "/d".toList, false, true, false⟩ := by
  intro j
  induction j with
  | zero =>
    intro m k fuel hm hf
    obtain ⟨n, rfl⟩ : ∃ n, fuel = n + 1 := ⟨fuel - 1, by omega⟩
    exact GlobHelper._step2At_star_entry_full m n k (by omega)
  | succ j ih =>
    intro m k fuel hm hf
    obtain ⟨n, rfl⟩ : ∃ n, fuel = n + 2 := ⟨fuel - 2, by omega⟩
    rw [GlobHelper._step2At_star_entry_reenters m n k (by omega)]
    exact ih m (k + 1) (n + 1) (by omega) (by omega)

/-- C16: a directory entry whose name holds a wildcard character. The directory
`/d` holds one regular file, named `*`; the pattern is `/d/*`, with `needFile`
alone; the process can hold `maxOpen` directory streams open.

(1) The file exists, its name matches the segment `*`, and its name holds a
wildcard character.

(2) So the call `_step2(entry, remain)` that Case C makes for this entry (line
195) is not a Case A call and consumes no pattern segment: while a descriptor is
left, the visit of the segment `*` at `/d` is the same visit once more, made
with one more stream held open.

(3) `Glob::search` returns normally with an empty result once the recursion
budget exceeds `maxOpen`: the nesting ends when `::opendir` fails for lack of a
descriptor, and the file `/d/*`, which the pattern matches, is not in the
result. -/
theorem Glob.searchAt_wildcard_entry_name_missed (maxOpen fuel : Nat)
    (hfuel : maxOpen + 1 ≤ fuel) :
    (starFS.fileExists "/d/*".toList = true ∧
      GlobHelper.matchWildcard "*".toList "*".toList = true ∧
      ¬ StrView.indexOfAnyCharIn "*".toList ['*', '?'] < 0) ∧
    (∀ (n k : Nat), k < maxOpen →
      GlobHelper._step2At starFS (some maxOpen) (n + 2) k "*".toList []
        ⟨[], "/d".toList, false, true, false⟩ =
      GlobHelper._step2At starFS (some maxOpen) (n + 1) (k + 1) "*".toList []
        ⟨[], "/d".toList, false, true, false⟩) ∧
    Glob.searchAt starFS (some maxOpen) fuel [] "/d/*".toList false true false =
      Outcome.ok [] := by
  refine ⟨⟨by decide, by decide, by decide⟩, ?_, ?_⟩
  · intro n k hk
    exact GlobHelper._step2At_star_entry_reenters maxOpen n k hk
  · unfold Glob.searchAt
    rw [if_neg (by decide)]
    unfold GlobHelper.searchAt
    have h := GlobHelper._step2At_star_entry_returns maxOpen maxOpen 0 fuel (by omega) hfuel
    have hs : (StrView.splitEndByChar
        (StrView.splitByCharInList (starFS.getAbs "/d/*".toList) ['*', '?']).1 '/').1 =
        "/d".toList := by decide
    simp only [hs]
    have h1 : (StrView.splitByChar
        (StrView.slice (starFS.getAbs "/d/*".toList) ("/d".toList.length + 1)) '/').1 =
        "*".toList := by decide
    have h2 : (StrView.splitByChar
        (StrView.slice (starFS.getAbs "/d/*".toList) ("/d".toList.length + 1)) '/').2 =
        [] := by decide
    rw [h1, h2, h]

/-- Witness of C16: with eight descriptors for directory streams and a
recursion budget of nine, `Glob::search` on `/d/*` returns the empty result. -/
theorem Glob.searchAt_wildcard_entry_name_missed_witness :
    (8 : Nat) + 1 ≤ 9 ∧
    Glob.searchAt starFS (some 8) 9 [] "/d/*".toList false true false = Outcome.ok [] :=
  ⟨by decide, (Glob.searchAt_wildcard_entry_name_missed 8 9 (by decide)).2.2⟩

/-! ## Theorems: `Dict` -/

theorem Dict.removeLoop_spec {K V : Type} [DecidableEq K] (key : K) :
    ∀ (l : List (K × V)) (i : Nat), (l.map Prod.fst).Nodup → key ∈ l.map Prod.fst →
      ∃ j, Dict.removeLoop key l i = some (i + j) ∧
        l.eraseIdx j = l.filter fun q => decide (q.1 ≠ key) := by
  intro l
  induction l with
  | nil => intro i _ h; exact absurd h (List.not_mem_nil _)
  | cons q rest ih =>
    intro i hnd hmem
    rw [List.map_cons, List.nodup_cons] at hnd
    by_cases hq : q.1 = key
    · refine ⟨0, by simp [Dict.removeLoop, hq], ?_⟩
      have hrest : rest.filter (fun r => decide (r.1 ≠ key)) = rest := by
        apply List.filter_eq_self.mpr
        intro r hr
        have : r.1 ≠ key := by
          intro h
          apply hnd.1
          rw [hq, ← h]
          exact List.mem_map_of_mem _ hr
        simpa using this
      rw [List.eraseIdx_cons_zero, List.filter_cons_of_neg (by simp [hq]), hrest]
    · have hmem2 : key ∈ rest.map Prod.fst := by
        rw [List.map_cons] at hmem
        rcases List.mem_cons.mp hmem with h | h
        · exact absurd h.symm hq
        · exact h
      obtain ⟨j, hj, hje⟩ := ih (i + 1) hnd.2 hmem2
      refine ⟨j + 1, ?_, ?_⟩
      · rw [Dict.removeLoop, if_neg hq, hj]
        congr 1
        omega
      · rw [List.eraseIdx_cons_succ, hje, List.filter_cons_of_pos (by simp [hq])]

theorem Dict.Consistent.mem_keys_iff {K V : Type} {d : Dict K V} (h : d.Consistent) (k : K) :
    k ∈ d._pairs.map Prod.fst ↔ ∃ v, d._map k = some v := by
  constructor
  · intro hk
    obtain ⟨q, hq, rfl⟩ := List.mem_map.mp hk
    exact ⟨q.2, (h.2 q.1 q.2).mp hq⟩
  · rintro ⟨v, hv⟩
    exact List.mem_map.mpr ⟨(k, v), (h.2 k v).mpr hv, rfl⟩

theorem Dict.Consistent.not_mem_keys {K V : Type} {d : Dict K V} (h : d.Consistent) (k : K)
    (hk : d._map k = none) : k ∉ d._pairs.map Prod.fst := by
  intro hmem
  obtain ⟨v, hv⟩ := (h.mem_keys_iff k).mp hmem
  rw [hk] at hv
  exact absurd hv (by simp)

/-- What `remove` does to a consistent `Dict`: it returns whether the key was
bound, and leaves the pairs with the other keys, in their order, and the map
without the key. -/
theorem Dict.remove_of_consistent {K V : Type} [DecidableEq K] (d : Dict K V)
    (h : d.Consistent) (key : K) :
    (d.remove key).result = Except.ok (d._map key).isSome ∧
    (d.remove key).dict._pairs = d._pairs.filter (fun q => decide (q.1 ≠ key)) ∧
    (d.remove key).dict._map = fun k => if k = key then none else d._map k := by
  unfold Dict.remove
  cases hm : d._map key with
  | none =>
    refine ⟨rfl, ?_, ?_⟩
    · simp only
      symm
      apply List.filter_eq_self.mpr
      intro q hq
      have : q.1 ≠ key := by
        intro hk
        apply h.not_mem_keys key hm
        rw [← hk]
        exact List.mem_map_of_mem _ hq
      simpa using this
    · funext k
      by_cases hk : k = key
      · simp [hk, hm]
      · simp [hk]
  | some v0 =>
    have hmem : key ∈ d._pairs.map Prod.fst := (h.mem_keys_iff key).mpr ⟨v0, hm⟩
    obtain ⟨j, hj, hje⟩ := Dict.removeLoop_spec key d._pairs 0 h.1 hmem
    rw [Nat.zero_add] at hj
    refine ⟨?_, ?_, ?_⟩
    · simp only [hj]
      rfl
    · simp only [hj]
      exact hje
    · simp only [hj]

theorem Dict.consistent_empty {K V : Type} : (Dict.empty : Dict K V).Consistent := by
  constructor
  · simp [Dict.empty]
  · intro k v
    simp [Dict.empty]

/-- What `add` does to a consistent `Dict` in which the key is not bound. -/
theorem Dict.add_of_absent {K V : Type} [DecidableEq K] (d : Dict K V) (key : K) (v : V)
    (hk : d._map key = none) :
    (d.add key v).result = Except.ok v ∧
    (d.add key v).dict._pairs = d._pairs ++ [(key, v)] ∧
    (d.add key v).dict._map = fun k => if k = key then some v else d._map k := by
  unfold Dict.add Dict.find
  rw [hk]
  exact ⟨rfl, rfl, rfl⟩

theorem Dict.add_of_present {K V : Type} [DecidableEq K] (d : Dict K V) (key : K) (v v0 : V)
    (hk : d._map key = some v0) :
    (d.add key v).result = Except.error Dict.Error.duplicatedKey ∧ (d.add key v).dict = d := by
  unfold Dict.add Dict.find
  rw [hk]
  exact ⟨rfl, rfl⟩

theorem Dict.consistent_add {K V : Type} [DecidableEq K] (d : Dict K V) (h : d.Consistent)
    (key : K) (v : V) : (d.add key v).dict.Consistent := by
  cases hk : d._map key with
  | some v0 =>
    rw [(Dict.add_of_present d key v v0 hk).2]
    exact h
  | none =>
    obtain ⟨-, hp, hm⟩ := Dict.add_of_absent d key v hk
    constructor
    · rw [hp, List.map_append, List.nodup_append]
      refine ⟨h.1, by simp, ?_⟩
      intro a ha hb
      simp only [List.map_cons, List.map_nil, List.mem_singleton] at hb
      rw [hb] at ha
      exact h.not_mem_keys key hk ha
    · intro k w
      rw [hp, hm, List.mem_append, List.mem_singleton, Prod.mk.injEq]
      by_cases hkk : k = key
      · subst hkk
        simp only [if_true, true_and, Option.some.injEq]
        constructor
        · rintro (hin | rfl)
          · rw [(h.2 k w).mp hin] at hk
            exact absurd hk (by simp)
          · rfl
        · intro hw
          exact Or.inr hw.symm
      · simp only [hkk, if_false, false_and, or_false]
        exact h.2 k w

theorem Dict.consistent_remove {K V : Type} [DecidableEq K] (d : Dict K V) (h : d.Consistent)
    (key : K) : (d.remove key).dict.Consistent := by
  obtain ⟨-, hp, hm⟩ := Dict.remove_of_consistent d h key
  constructor
  · rw [hp]
    exact List.Nodup.sublist (List.Sublist.map _ (List.filter_sublist _)) h.1
  · intro k w
    rw [hp, hm, List.mem_filter]
    by_cases hkk : k = key
    · simp [hkk]
    · simp only [hkk, if_false, ne_eq, not_false_eq_true, decide_True, and_true]
      exact h.2 k w

theorem Dict.consistent_exec {K V : Type} [DecidableEq K] (vsort : List (K × V) → List (K × V))
    (hperm : ∀ l, (vsort l).Perm l) (d : Dict K V) (h : d.Consistent) (op : Dict.Op K V) :
    (Dict.exec vsort d op).Consistent := by
  cases op with
  | add key v => exact Dict.consistent_add d h key v
  | addIfNotExists key v =>
    simp only [Dict.exec, Dict.addIfNotExists, Dict.find]
    cases hk : d._map key with
    | some v0 => exact h
    | none => exact Dict.consistent_add d h key v
  | getOrAdd key v =>
    simp only [Dict.exec, Dict.getOrAdd, Dict.find]
    cases hk : d._map key with
    | some v0 => exact h
    | none => exact Dict.consistent_add d h key v
  | remove key => exact Dict.consistent_remove d h key
  | clear => exact Dict.consistent_empty
  | sort =>
    constructor
    · exact ((hperm d._pairs).map Prod.fst).nodup_iff.mpr h.1
    · intro k w
      simp only [Dict.exec, Dict.sort]
      rw [(hperm d._pairs).mem_iff]
      exact h.2 k w

theorem Dict.consistent_run {K V : Type} [DecidableEq K] (vsort : List (K × V) → List (K × V))
    (hperm : ∀ l, (vsort l).Perm l) (ops : List (Dict.Op K V)) :
    ∀ (d : Dict K V), d.Consistent → (Dict.run vsort d ops).Consistent := by
  induction ops with
  | nil => intro d h; exact h
  | cons op rest ih =>
    intro d h
    exact ih _ (Dict.consistent_exec vsort hperm d h op)

/-- C20: every `Dict` reached from the empty `Dict` by calls of `add`,
`addIfNotExists`, `getOrAdd`, `remove`, `clear` and `sort` (a `sort` that
permutes the pairs) is consistent: the keys in `_pairs` are pairwise distinct
and `_pairs` holds `(k, v)` exactly when `_map` binds `k` to `v`. Hence
`remove` on it never raises "key is not found in Dict pairs": it returns
`false` when the key is not bound and `true` when it is. -/
theorem Dict.reachable_consistent {K V : Type} [DecidableEq K]
    (vsort : List (K × V) → List (K × V)) (hperm : ∀ l, (vsort l).Perm l)
    (ops : List (Dict.Op K V)) :
    (Dict.run vsort Dict.empty ops).Consistent ∧
    ∀ key,
      (Dict.remove (Dict.run vsort Dict.empty ops) key).result ≠
        Except.error Dict.Error.keyNotFoundInPairs ∧
      ((Dict.run vsort Dict.empty ops).find key = none →
        (Dict.remove (Dict.run vsort Dict.empty ops) key).result = Except.ok false) ∧
      (∀ v, (Dict.run vsort Dict.empty ops).find key = some v →
        (Dict.remove (Dict.run vsort Dict.empty ops) key).result = Except.ok true) := by
  have hc := Dict.consistent_run vsort hperm ops Dict.empty Dict.consistent_empty
  refine ⟨hc, ?_⟩
  intro key
  have hr := (Dict.remove_of_consistent _ hc key).1
  refine ⟨?_, ?_, ?_⟩
  · rw [hr]
    intro h
    cases h
  · intro hf
    unfold Dict.find at hf
    rw [hr, hf]
    rfl
  · intro v hf
    unfold Dict.find at hf
    rw [hr, hf]
    rfl

/-- Witness of C20: the calls `add(2)`, `add(1)`, `add(2)` (raises, the key is
bound), `sort`, `remove(2)`, `addIfNotExists(3)` with a sort by insertion on the
keys leave the pairs of the keys `1` and `3`, and the `Dict` is consistent. -/
theorem Dict.reachable_consistent_witness :
    (Dict.run (List.insertionSort fun (a b : Nat × Nat) => a.1 ≤ b.1) Dict.empty
      [Dict.Op.add 2 20, Dict.Op.add 1 10, Dict.Op.add 2 21, Dict.Op.sort, Dict.Op.remove 2,
        Dict.Op.addIfNotExists 3 30])._pairs = [(1, 10), (3, 30)] ∧
    (Dict.run (List.insertionSort fun (a b : Nat × Nat) => a.1 ≤ b.1) Dict.empty
      [Dict.Op.add 2 20, Dict.Op.add 1 10, Dict.Op.add 2 21, Dict.Op.sort, Dict.Op.remove 2,
        Dict.Op.addIfNotExists 3 30]).Consistent :=
  ⟨by decide,
   (Dict.reachable_consistent (List.insertionSort fun (a b : Nat × Nat) => a.1 ≤ b.1)
     (fun l => List.perm_insertionSort _ l)
     [Dict.Op.add 2 20, Dict.Op.add 1 10, Dict.Op.add 2 21, Dict.Op.sort, Dict.Op.remove 2,
       Dict.Op.addIfNotExists 3 30]).1⟩

theorem Dict.addIfNotExists_dict {K V : Type} [DecidableEq K] (d : Dict K V) (key : K) (v : V) :
    (d.addIfNotExists key v).dict = (d.add key v).dict := by
  unfold Dict.addIfNotExists Dict.add Dict.find
  cases d._map key <;> rfl

theorem Dict.getOrAdd_dict {K V : Type} [DecidableEq K] (d : Dict K V) (key : K) (v : V) :
    (d.getOrAdd key v).dict = (d.add key v).dict := by
  unfold Dict.getOrAdd Dict.add Dict.find
  cases d._map key <;> rfl

theorem Dict.tracks_empty {K V : Type} : (Dict.empty : Dict K V).Tracks Dict.Log.empty := by
  refine ⟨Dict.consistent_empty, ?_, ?_, ?_⟩
  · intro k
    simp [Dict.keys, Dict.empty, Dict.Log.empty]
  · simp [Dict.keys, Dict.empty]
  · intro k hk
    simp [Dict.keys, Dict.empty] at hk

theorem Dict.tracks_add {K V : Type} [DecidableEq K] (d : Dict K V) (log : Dict.Log K)
    (h : d.Tracks log) (key : K) (v : V) :
    (d.add key v).dict.Tracks (log.step (Dict.Op.add key v)) := by
  obtain ⟨hc, hmem, hpw, hlt⟩ := h
  cases hk : d._map key with
  | some v0 =>
    rw [(Dict.add_of_present d key v v0 hk).2]
    have hp : log.present key = true :=
      (hmem key).mp ((hc.mem_keys_iff key).mpr ⟨v0, hk⟩)
    simp only [Dict.Log.step, hp, if_true]
    exact ⟨hc, hmem, hpw, fun k hkm => Nat.lt_succ_of_lt (hlt k hkm)⟩
  | none =>
    have hnot : key ∉ d.keys := hc.not_mem_keys key hk
    have hp : ¬ log.present key = true := fun hp => hnot ((hmem key).mpr hp)
    obtain ⟨-, hpairs, -⟩ := Dict.add_of_absent d key v hk
    have hkeys : (d.add key v).dict.keys = d.keys ++ [key] := by
      unfold Dict.keys
      rw [hpairs, List.map_append]
      rfl
    simp only [Dict.Log.step, hp, if_false, Bool.false_eq_true]
    refine ⟨Dict.consistent_add d hc key v, ?_, ?_, ?_⟩
    · intro k
      rw [hkeys, List.mem_append, List.mem_singleton]
      by_cases hkk : k = key
      · simp [hkk]
      · simp only [hkk, or_false, if_false]
        exact hmem k
    · rw [hkeys, List.pairwise_append]
      refine ⟨?_, List.pairwise_singleton _ _, ?_⟩
      · apply List.Pairwise.imp_of_mem _ hpw
        intro a b ha hb hab
        have ha2 : a ≠ key := fun h => hnot (h ▸ ha)
        have hb2 : b ≠ key := fun h => hnot (h ▸ hb)
        simp only [ha2, hb2, if_false]
        exact hab
      · intro a ha b hb
        rw [List.mem_singleton] at hb
        have ha2 : a ≠ key := fun h => hnot (h ▸ ha)
        simp only [hb, ha2, if_false, if_true]
        exact hlt a ha
    · intro k hkm
      rw [hkeys, List.mem_append, List.mem_singleton] at hkm
      by_cases hkk : k = key
      · simp [hkk]
      · simp only [hkk, if_false]
        rcases hkm with h1 | h1
        · exact Nat.lt_succ_of_lt (hlt k h1)
        · exact absurd h1 hkk

theorem Dict.tracks_remove {K V : Type} [DecidableEq K] (d : Dict K V) (log : Dict.Log K)
    (h : d.Tracks log) (key : K) :
    (d.remove key).dict.Tracks (log.step (Dict.Op.remove key : Dict.Op K V)) := by
  obtain ⟨hc, hmem, hpw, hlt⟩ := h
  obtain ⟨-, hpairs, -⟩ := Dict.remove_of_consistent d hc key
  have hkeys : (d.remove key).dict.keys = d.keys.filter (fun k => decide (k ≠ key)) := by
    unfold Dict.keys
    rw [hpairs, List.filter_map]
    rfl
  refine ⟨Dict.consistent_remove d hc key, ?_, ?_, ?_⟩
  · intro k
    rw [hkeys, List.mem_filter]
    simp only [Dict.Log.step]
    by_cases hkk : k = key
    · simp [hkk]
    · simp only [hkk, ne_eq, not_false_eq_true, decide_True, and_true, if_false]
      exact hmem k
  · rw [hkeys]
    exact List.Pairwise.sublist (List.filter_sublist _) hpw
  · intro k hkm
    rw [hkeys, List.mem_filter] at hkm
    exact Nat.lt_succ_of_lt (hlt k hkm.1)

theorem Dict.tracks_exec {K V : Type} [DecidableEq K] (vsort : List (K × V) → List (K × V))
    (d : Dict K V) (log : Dict.Log K) (h : d.Tracks log) (op : Dict.Op K V)
    (hop : op ≠ Dict.Op.sort) : (Dict.exec vsort d op).Tracks (log.step op) := by
  cases op with
  | add key v => exact Dict.tracks_add d log h key v
  | addIfNotExists key v =>
    have := Dict.tracks_add d log h key v
    simp only [Dict.exec, Dict.addIfNotExists_dict]
    exact this
  | getOrAdd key v =>
    have := Dict.tracks_add d log h key v
    simp only [Dict.exec, Dict.getOrAdd_dict]
    exact this
  | remove key => exact Dict.tracks_remove d log h key
  | clear =>
    refine ⟨Dict.consistent_empty, ?_, ?_, ?_⟩
    · intro k
      simp [Dict.exec, Dict.clear, Dict.keys, Dict.Log.step]
    · simp [Dict.exec, Dict.clear, Dict.keys]
    · intro k hk
      simp [Dict.exec, Dict.clear, Dict.keys] at hk
  | sort => exact absurd rfl hop

theorem Dict.tracks_run {K V : Type} [DecidableEq K] (vsort : List (K × V) → List (K × V))
    (ops : List (Dict.Op K V)) (hops : ∀ op ∈ ops, op ≠ Dict.Op.sort) :
    ∀ (d : Dict K V) (log : Dict.Log K), d.Tracks log →
      (Dict.run vsort d ops).Tracks (log.run ops) := by
  induction ops with
  | nil => intro d log h; exact h
  | cons op rest ih =>
    intro d log h
    exact ih (fun o ho => hops o (List.mem_cons_of_mem _ ho)) _ _
      (Dict.tracks_exec vsort d log h op (hops op (List.mem_cons_self _ _)))

/-- C14: the `Dict` is ordered by insertion. After any sequence of calls of
`add`, `addIfNotExists`, `getOrAdd` and `remove` (and `clear`; no `sort`) on an
empty `Dict`, iterating `keys()` yields exactly the keys that are present (added
and not removed since), each once, in the order of the calls that added them;
`pairs()` and `values()` go through the same pairs in the same order; and a
further `remove(key)` leaves the pairs of all other keys, in their order. -/
theorem Dict.insertion_order {K V : Type} [DecidableEq K] (vsort : List (K × V) → List (K × V))
    (ops : List (Dict.Op K V)) (hops : ∀ op ∈ ops, op ≠ Dict.Op.sort) :
    (∀ k, k ∈ (Dict.run vsort Dict.empty ops).keys ↔
      (Dict.Log.run Dict.Log.empty ops).present k = true) ∧
    (Dict.run vsort Dict.empty ops).keys.Pairwise
      (fun a b => (Dict.Log.run Dict.Log.empty ops).addedAt a <
        (Dict.Log.run Dict.Log.empty ops).addedAt b) ∧
    (Dict.run vsort Dict.empty ops).keys.Nodup ∧
    (Dict.run vsort Dict.empty ops).keys = (Dict.run vsort Dict.empty ops).pairs.map Prod.fst ∧
    (Dict.run vsort Dict.empty ops).values = (Dict.run vsort Dict.empty ops).pairs.map Prod.snd ∧
    (∀ key, (Dict.remove (Dict.run vsort Dict.empty ops) key).dict.pairs =
      (Dict.run vsort Dict.empty ops).pairs.filter (fun q => decide (q.1 ≠ key))) := by
  obtain ⟨hc, hmem, hpw, -⟩ := Dict.tracks_run vsort ops hops Dict.empty Dict.Log.empty
    Dict.tracks_empty
  refine ⟨hmem, hpw, hc.1, rfl, rfl, ?_⟩
  intro key
  exact (Dict.remove_of_consistent _ hc key).2.1

/-- Witness of C14: `add(5)`, `add(3)`, `getOrAdd(9)`, `remove(3)`, `add(3)`,
`addIfNotExists(5)` leave the keys `5`, `9`, `3` in that order (key `3` was added
again after `9`), with the values of their pairs in the same order. -/
theorem Dict.insertion_order_witness :
    (Dict.run id Dict.empty
      [Dict.Op.add 5 50, Dict.Op.add 3 30, Dict.Op.getOrAdd 9 90, Dict.Op.remove 3,
        Dict.Op.add 3 31, Dict.Op.addIfNotExists 5 51] : Dict Nat Nat).keys = [5, 9, 3] ∧
    (Dict.run id Dict.empty
      [Dict.Op.add 5 50, Dict.Op.add 3 30, Dict.Op.getOrAdd 9 90, Dict.Op.remove 3,
        Dict.Op.add 3 31, Dict.Op.addIfNotExists 5 51] : Dict Nat Nat).values = [50, 90, 31] ∧
    (Dict.run id Dict.empty
      [Dict.Op.add 5 50, Dict.Op.add 3 30, Dict.Op.getOrAdd 9 90, Dict.Op.remove 3,
        Dict.Op.add 3 31, Dict.Op.addIfNotExists 5 51] : Dict Nat Nat).keys.Pairwise
      (fun a b =>
        (Dict.Log.run Dict.Log.empty
          [Dict.Op.add 5 50, Dict.Op.add 3 30, Dict.Op.getOrAdd 9 90, Dict.Op.remove 3,
            Dict.Op.add 3 31, (Dict.Op.addIfNotExists 5 51 : Dict.Op Nat Nat)]).addedAt a <
        (Dict.Log.run Dict.Log.empty
          [Dict.Op.add 5 50, Dict.Op.add 3 30, Dict.Op.getOrAdd 9 90, Dict.Op.remove 3,
            Dict.Op.add 3 31, (Dict.Op.addIfNotExists 5 51 : Dict.Op Nat Nat)]).addedAt b) :=
  ⟨by decide, by decide,
   (Dict.insertion_order id
     [Dict.Op.add 5 50, Dict.Op.add 3 30, Dict.Op.getOrAdd 9 90, Dict.Op.remove 3,
       Dict.Op.add 3 31, Dict.Op.addIfNotExists 5 51] (by decide)).2.1⟩

end ax_pjgen
